import Mathlib

/-!
# RippleFX-Engine: ripple automaton, effect pool and compositor

A shallow embedding of the simulation core of the repository
(`Color`, `Key`, `Keyboard`, `RippleEffect`, `EffectPool`, `LightingManager`),
of the parameters the main loop derives for a ripple and of the zone downmix
of `LogitechLed::render`, together with theorems about it.

Conventions of the embedding.

* A `const Key*` is the index of the key in the keyboard's `keys_` vector; the
  neighbour lists `key->neighbors` are read through a function
  `neighbors : Nat → List Nat`.
* A `float` is the rational number it stands for; a floating-point operation
  is the exact operation followed by a rounding function `fl`, which the
  theorems leave arbitrary. `Float32.round` is the rounding of IEEE single
  precision, to nearest with ties to even.
* The C++ `int` fields are integers. Signed overflow is undefined behaviour in
  the source, so no wrap-around is modelled.
* A `std::unordered_map<const Key*, KeyState>` is a list of entries with
  pairwise distinct keys. The order of the list is the enumeration order of the
  container, which the C++ standard leaves unspecified.
* A `RippleEffect*` is the index of a slot of the pool's memory block. A slot
  holds `none` while no object is constructed in it.
-/

namespace RippleFX

/-! ## Color (include/Core/Util/Color.h) -/

/-- An RGB colour. The three channels are the private `int` members of the
class; the only constructor clamps them, which the range fields record. -/
structure Color where
  red_ : Int
  green_ : Int
  blue_ : Int
  red_range : 0 ≤ red_ ∧ red_ ≤ 255
  green_range : 0 ≤ green_ ∧ green_ ≤ 255
  blue_range : 0 ≤ blue_ ∧ blue_ ≤ 255
deriving DecidableEq

/-- The private helper `Color::clamp`: `std::max(0, std::min(255, value))`. -/
def Color.clamp (value : Int) : Int := max 0 (min 255 value)

/-- The constructor `Color(int red, int green, int blue)`. -/
def Color.new (red green blue : Int) : Color :=
  { red_ := Color.clamp red
    green_ := Color.clamp green
    blue_ := Color.clamp blue
    red_range := by unfold Color.clamp; omega
    green_range := by unfold Color.clamp; omega
    blue_range := by unfold Color.clamp; omega }

/-- The method `Color::scale(uint8_t intensity)`: every channel is multiplied by
the intensity and shifted right by 8. The argument is converted to `uint8_t`,
hence the reduction modulo 256. -/
def Color.scale (c : Color) (intensity : Nat) : Color :=
  Color.new ((c.red_ * ((intensity % 256 : Nat) : Int)) >>> (8 : Nat))
    ((c.green_ * ((intensity % 256 : Nat) : Int)) >>> (8 : Nat))
    ((c.blue_ * ((intensity % 256 : Nat) : Int)) >>> (8 : Nat))

/-- The method `Color::add`: channel-wise sum, capped at 255 before the
constructor clamps it again. -/
def Color.add (c other : Color) : Color :=
  Color.new (min 255 (c.red_ + other.red_)) (min 255 (c.green_ + other.green_))
    (min 255 (c.blue_ + other.blue_))

/-- The colour `Color(0, 0, 0)`. -/
def Color.black : Color := Color.new 0 0 0

/-! ## Key and Keyboard (include/Core/Keyboard) -/

/-- The class `Position` (include/Core/Util/Position.h): two coordinates of
type `float`, each given by the rational number it stands for. -/
structure Position where
  x_ : ℚ
  y_ : ℚ
deriving DecidableEq

/-- The rounding of a rational number to the nearest `float` (IEEE 754
binary32, round to nearest, ties to even): 24 significant bits, with the
exponent of the unit in the last place no smaller than `-149`. Numbers past
the largest finite `float` round as if the exponent range were unbounded. -/
def Float32.round (q : ℚ) : ℚ :=
  if q = 0 then 0
  else
    let e : Int := max (Int.log 2 |q|) (-126)
    let u : ℚ := 2 ^ (e - 23)
    let m : ℚ := q / u
    let f : Int := ⌊m⌋
    let r : Int :=
      if m - f < 1 / 2 then f
      else if 1 / 2 < m - f then f + 1
      else if f % 2 = 0 then f else f + 1
    r * u

/-- The method `Position::distanceManhattan`:
`std::abs(other.x_ - x_) + std::abs(other.y_ - y_)` in single precision. Every
floating-point operation is the exact operation followed by the rounding `fl`
to a representable number; the absolute value is exact. With `fl` the identity
the arithmetic is exact. -/
def Position.distanceManhattan (fl : ℚ → ℚ) (p other : Position) : ℚ :=
  fl (abs (fl (other.x_ - p.x_)) + abs (fl (other.y_ - p.y_)))

/-- A key of the keyboard: its identifier, its position, its index in the
keyboard's vector and the list of its neighbours (pointers to keys, here their
indices). -/
structure Key where
  id_ : Nat
  position_ : Position
  index_ : Nat
  neighbors : List Nat
deriving DecidableEq

/-- The constructor `Key(id, position)`: the list of neighbours is empty. The
member `index_` is left without a value by the constructor and is assigned by
the constructor of `Keyboard` before it is read; the model starts it at 0. -/
def Key.new (id : Nat) (position : Position) : Key :=
  { id_ := id, position_ := position, index_ := 0, neighbors := [] }

/-- The accessor `Key::getId`. -/
def Key.getId (key : Key) : Nat := key.id_

/-- The accessor `Key::getPosition`. -/
def Key.getPosition (key : Key) : Position := key.position_

/-- The accessor `Key::getIndex`. -/
def Key.getIndex (key : Key) : Nat := key.index_

/-- The keyboard: the vector `keys_`. -/
structure Keyboard where
  keys_ : List Key
deriving DecidableEq

/-- The accessor `Keyboard::getKeys`. -/
def Keyboard.getKeys (kb : Keyboard) : List Key := kb.keys_

/-- The neighbour list read through a key pointer, `key->neighbors`, for the
key stored at index `key` of the keyboard. -/
def Keyboard.neighborsOf (kb : Keyboard) (key : Nat) : List Nat :=
  match kb.keys_.get? key with
  | some k => k.neighbors
  | none => []

/-- The constant `NEIGHBOR_DISTANCE_THRESHOLD = 1.6f` of
`Keyboard::buildNeighborMaps`: the decimal 1.6 rounded to single precision. -/
def Keyboard.NEIGHBOR_DISTANCE_THRESHOLD (fl : ℚ → ℚ) : ℚ := fl (8 / 5)

/-- The body of the inner loop of `Keyboard::buildNeighborMaps` (lines 41-54)
for the indices `i` and `j`: unless `i = j`, the pointer to `keys_[j]` is pushed
onto the neighbours of `keys_[i]` when the distance of the two positions is
below the threshold. -/
def Keyboard.visitPair (fl : ℚ → ℚ) (i j : Nat) (keys : List Key) : List Key :=
  if i = j then keys
  else
    match keys.get? i, keys.get? j with
    | some key_a, some key_b =>
      if key_a.getPosition.distanceManhattan fl key_b.getPosition
          < Keyboard.NEIGHBOR_DISTANCE_THRESHOLD fl then
        keys.set i { key_a with neighbors := key_a.neighbors ++ [j] }
      else keys
    | _, _ => keys

/-- The method `Keyboard::buildNeighborMaps`: the two nested loops over the
indices of `keys_`. -/
def Keyboard.buildNeighborMaps (fl : ℚ → ℚ) (keys : List Key) : List Key :=
  (List.range keys.length).foldl
    (fun ks i => (List.range keys.length).foldl (fun ks j => Keyboard.visitPair fl i j ks) ks)
    keys

/-- The assignment `keys_[i].index_ = i` in the constructor of `Keyboard`. -/
def Keyboard.assignIndex (keys : List Key) (i : Nat) : List Key :=
  match keys.get? i with
  | some key => keys.set i { key with index_ := i }
  | none => keys

/-- The loop of the constructor of `Keyboard` that assigns `keys_[i].index_ = i`
(lines 11-13). -/
def Keyboard.assignIndices (keys : List Key) : List Key :=
  (List.range keys.length).foldl Keyboard.assignIndex keys

/-- The constructor of `Keyboard`. The keys emplaced by `initializeLayout`, an
identifier and a position each, are given by `layout`; then the indices are
assigned and the neighbour lists are built. -/
def Keyboard.new (fl : ℚ → ℚ) (layout : List (Nat × Position)) : Keyboard :=
  { keys_ := Keyboard.buildNeighborMaps fl
      (Keyboard.assignIndices (layout.map (fun entry => Key.new entry.1 entry.2))) }

/-- Whether the test of `Keyboard::buildNeighborMaps` succeeds for the keys of
indices `i` and `j`, given the positions of all keys. -/
def Keyboard.near (fl : ℚ → ℚ) (positions : List Position) (i j : Nat) : Bool :=
  match positions.get? i, positions.get? j with
  | some a, some b =>
    decide (a.distanceManhattan fl b < Keyboard.NEIGHBOR_DISTANCE_THRESHOLD fl)
  | _, _ => false

/-- The members of a key that `Keyboard::buildNeighborMaps` does not write:
identifier, position and index. -/
def Key.fixed (key : Key) : Nat × Position × Nat := (key.id_, key.position_, key.index_)

/-! ## RippleEffect (src/Core/Effects/RippleEffect.cpp) -/

/-- The enumeration `RippleEffect::State`. -/
inductive State where
  | Ignited
  | Fading_High
  | Fading_Low
deriving DecidableEq, Repr

/-- The structure `RippleEffect::KeyState`. -/
structure KeyState where
  state : State
  framesInState : Int
deriving DecidableEq, Repr

/-- The container `std::unordered_map<const Key*, KeyState>`, as the list of
its entries. -/
abbrev KeyMap := List (Nat × KeyState)

/-- The lookup `map.find(key)`; `none` stands for `map.end()`. -/
def KeyMap.find : KeyMap → Nat → Option KeyState
  | [], _ => none
  | (k, v) :: m, key => if k = key then some v else KeyMap.find m key

/-- The assignment `map[key] = value`: the entry of `key` is overwritten when
there is one, and a new entry is added otherwise. -/
def KeyMap.assign : KeyMap → Nat → KeyState → KeyMap
  | [], key, value => [(key, value)]
  | (k, v) :: m, key, value =>
    if k = key then (key, value) :: m else (k, v) :: KeyMap.assign m key value

/-- The keys of a map, in enumeration order. -/
def KeyMap.keys (m : KeyMap) : List Nat := m.map Prod.fst

/-- The container invariant: no key has two entries. -/
def KeyMap.WF (m : KeyMap) : Prop := m.keys.Nodup

instance (m : KeyMap) : Decidable m.WF := by
  unfold KeyMap.WF
  infer_instance

/-- The class `RippleEffect`: its data members. -/
structure RippleEffect where
  activeKeys_ : KeyMap
  color_ : Color
  stepDuration_ : Int
  propagationDelay_ : Int
  framesLived_ : Int
  maxLifetime_ : Int
deriving DecidableEq

/-- The constructor of `RippleEffect`: the two tuning parameters are coerced to
at least 1, the lifetime is taken as given, the elapsed counter starts at 0 and
the seed key is entered as `Ignited` with counter 0. -/
def RippleEffect.new (startKey : Nat) (color : Color)
    (stepDuration propagationDelay maxLifetime : Int) : RippleEffect :=
  { activeKeys_ := KeyMap.assign [] startKey ⟨State.Ignited, 0⟩
    color_ := color
    stepDuration_ := if stepDuration > 0 then stepDuration else 1
    propagationDelay_ := if propagationDelay > 0 then propagationDelay else 1
    framesLived_ := 0
    maxLifetime_ := maxLifetime }

/-- The method `RippleEffect::isFinished`. -/
def RippleEffect.isFinished (e : RippleEffect) : Bool :=
  decide (e.framesLived_ ≥ e.maxLifetime_)

/-- Step 1 of the loop body of `update` for one key that is at the crest of the
wave (lines 38-45): every neighbour that `activeKeys_.find` does not find is
assigned `{Ignited, 0}` in the map of the next frame. -/
def RippleEffect.propagate (neighbors : Nat → List Nat) (active : KeyMap)
    (key : Nat) (next : KeyMap) : KeyMap :=
  (neighbors key).foldl
    (fun nx neighbor =>
      if (active.find neighbor).isNone then nx.assign neighbor ⟨State.Ignited, 0⟩ else nx)
    next

/-- Step 2 of the loop body of `update` (lines 50-67): the state computed for
the key that is being processed; `none` is the `continue` that drops a key
leaving `Fading_Low`. -/
def RippleEffect.transition (stepDuration : Int) (current : KeyState) : Option KeyState :=
  if current.framesInState + 1 ≥ stepDuration then
    match current.state with
    | State.Ignited => some ⟨State.Fading_High, 0⟩
    | State.Fading_High => some ⟨State.Fading_Low, 0⟩
    | State.Fading_Low => none
  else
    some ⟨current.state, current.framesInState + 1⟩

/-- The body of the loop of `update` (lines 33-75) for one entry of
`activeKeys_`: propagate, compute the transition, store it. -/
def RippleEffect.updateKey (neighbors : Nat → List Nat) (e : RippleEffect)
    (next : KeyMap) (entry : Nat × KeyState) : KeyMap :=
  let next1 :=
    if entry.2.state = State.Ignited ∧ entry.2.framesInState ≥ e.propagationDelay_ then
      RippleEffect.propagate neighbors e.activeKeys_ entry.1 next
    else next
  match RippleEffect.transition e.stepDuration_ entry.2 with
  | none => next1
  | some next_state => next1.assign entry.1 next_state

/-- The loop of `update` run over the entries in the order `entries`, starting
from the empty map `next_frame_states`. In the source `entries` is the
enumeration of `activeKeys_`. -/
def RippleEffect.updateLoop (neighbors : Nat → List Nat) (e : RippleEffect)
    (entries : List (Nat × KeyState)) : KeyMap :=
  entries.foldl (RippleEffect.updateKey neighbors e) []

/-- The method `RippleEffect::update`. -/
def RippleEffect.update (neighbors : Nat → List Nat) (e : RippleEffect) : RippleEffect :=
  let e1 := { e with framesLived_ := e.framesLived_ + 1 }
  if e1.isFinished then
    { e1 with activeKeys_ := [] }
  else
    { e1 with activeKeys_ := RippleEffect.updateLoop neighbors e1 e1.activeKeys_ }

/-- The method `RippleEffect::getColorForKey`. -/
def RippleEffect.getColorForKey (e : RippleEffect) (key : Nat) : Color :=
  if e.isFinished then Color.new 0 0 0
  else
    match e.activeKeys_.find key with
    | none => Color.new 0 0 0
    | some ks =>
      match ks.state with
      | State.Ignited => e.color_
      | State.Fading_High => e.color_.scale 204
      | State.Fading_Low => e.color_.scale 102

/-- The instance after `t` calls of `update`. -/
def RippleEffect.updateN (neighbors : Nat → List Nat) (e : RippleEffect) : Nat → RippleEffect
  | 0 => e
  | t + 1 => RippleEffect.update neighbors (RippleEffect.updateN neighbors e t)

/-! ## EffectPool (include/Core/Lighting/EffectPool.h, src/Core/Lighting/EffectPool.cpp) -/

/-- The constant `MAX_ACTIVE_EFFECTS`. -/
def MAX_ACTIVE_EFFECTS : Nat := 20

/-- The class `EffectPool`: the memory block, one entry per slot (`none` while
no object is constructed in the slot), and the vector `freeSlots_` of the free
slots. -/
structure EffectPool where
  memoryPool_ : List (Option RippleEffect)
  freeSlots_ : List Nat
deriving DecidableEq

/-- The constructor of `EffectPool`: the slots `0 .. MAX_ACTIVE_EFFECTS - 1` are
pushed onto `freeSlots_` in increasing order. -/
def EffectPool.new : EffectPool :=
  { memoryPool_ := List.replicate MAX_ACTIVE_EFFECTS none
    freeSlots_ := List.range MAX_ACTIVE_EFFECTS }

/-- The method template `EffectPool::create`, with the arguments of the
constructor of `RippleEffect`. The first component is the returned pointer,
`none` for `nullptr`. -/
def EffectPool.create (p : EffectPool) (startKey : Nat) (color : Color)
    (stepDuration propagationDelay maxLifetime : Int) : Option Nat × EffectPool :=
  match p.freeSlots_.getLast? with
  | none => (none, p)
  | some slot =>
    (some slot,
      { memoryPool_ := p.memoryPool_.set slot
          (some (RippleEffect.new startKey color stepDuration propagationDelay maxLifetime))
        freeSlots_ := p.freeSlots_.dropLast })

/-- The method `EffectPool::destroy`; `none` is the null pointer. The destructor
ends the life of the object in the slot and the slot is pushed onto
`freeSlots_`. -/
def EffectPool.destroy (p : EffectPool) (effect : Option Nat) : EffectPool :=
  match effect with
  | none => p
  | some slot =>
    { memoryPool_ := p.memoryPool_.set slot none
      freeSlots_ := p.freeSlots_ ++ [slot] }

/-- The object a pointer into the pool points to, if one is constructed there. -/
def EffectPool.deref (p : EffectPool) (effect : Nat) : Option RippleEffect :=
  p.memoryPool_.getD effect none

/-- The call `effect->update()` through a pointer into the pool. The call is
undefined in the source when the slot holds no object; the model leaves such a
slot as it is. -/
def EffectPool.updateAt (neighbors : Nat → List Nat) (p : EffectPool) (effect : Nat) :
    EffectPool :=
  match p.deref effect with
  | some e => { p with memoryPool_ := p.memoryPool_.set effect (some (e.update neighbors)) }
  | none => p

/-- The call `effect->isFinished()` through a pointer into the pool. The call is
undefined in the source when the slot holds no object; the model answers
`false` there. -/
def EffectPool.isFinishedAt (p : EffectPool) (effect : Nat) : Bool :=
  match p.deref effect with
  | some e => e.isFinished
  | none => false

/-- The call `effect->getColorForKey(key)` through a pointer into the pool. The
call is undefined in the source when the slot holds no object; the model
answers black there. -/
def EffectPool.getColorForKeyAt (p : EffectPool) (effect : Nat) (key : Nat) : Color :=
  match p.deref effect with
  | some e => e.getColorForKey key
  | none => Color.new 0 0 0

/-- The pool after `create` has been called once for every argument tuple of
the list, in order, together with the returned pointers. -/
def EffectPool.createAll (p : EffectPool) :
    List (Nat × Color × Int × Int × Int) → List (Option Nat) × EffectPool
  | [] => ([], p)
  | (startKey, color, stepDuration, propagationDelay, maxLifetime) :: rest =>
    let r := p.create startKey color stepDuration propagationDelay maxLifetime
    let rs := EffectPool.createAll r.2 rest
    (r.1 :: rs.1, rs.2)

/-! ## LightingManager (src/Core/Lighting/LightingManager.cpp) -/

/-- The class `LightingManager`; `keyboard_` is `none` for a null pointer. -/
structure LightingManager where
  keyboard_ : Option Keyboard
  effectPool_ : EffectPool
  activeEffects_ : List Nat
  frameBuffer_ : List Color
deriving DecidableEq

/-- The constructor of `LightingManager`. -/
def LightingManager.new (keyboard : Option Keyboard) : LightingManager :=
  { keyboard_ := keyboard
    effectPool_ := EffectPool.new
    activeEffects_ := []
    frameBuffer_ :=
      match keyboard with
      | some kb => List.replicate kb.getKeys.length (Color.new 0 0 0)
      | none => [] }

/-- Step 1 of `LightingManager::update` (lines 17-19): `update` is called on
every effect of the list, in order. -/
def LightingManager.tickAll (neighbors : Nat → List Nat) (effects : List Nat)
    (pool : EffectPool) : EffectPool :=
  effects.foldl (EffectPool.updateAt neighbors) pool

/-- Step 2 of `LightingManager::update` (lines 24-39): the iterator loop that
destroys and erases the finished effects. The result is the vector that is left
and the pool. -/
def LightingManager.retire : List Nat → EffectPool → List Nat × EffectPool
  | [], pool => ([], pool)
  | effect :: rest, pool =>
    if pool.isFinishedAt effect then
      LightingManager.retire rest (pool.destroy (some effect))
    else
      let r := LightingManager.retire rest pool
      (effect :: r.1, r.2)

/-- The inner loop of step 3 of `LightingManager::update` (lines 48-52) for the
key of index `i`. -/
def LightingManager.renderKey (pool : EffectPool) (effects : List Nat) (i : Nat)
    (frameBuffer : List Color) : List Color :=
  effects.foldl
    (fun fb effect =>
      fb.set i ((fb.getD i (Color.new 0 0 0)).add (pool.getColorForKeyAt effect i)))
    frameBuffer

/-- Step 3 of `LightingManager::update` (lines 43-53): the frame buffer is
assigned `size` black entries and every key is blended in turn. -/
def LightingManager.render (pool : EffectPool) (effects : List Nat) (size : Nat) : List Color :=
  (List.range size).foldl (fun fb i => LightingManager.renderKey pool effects i fb)
    (List.replicate size (Color.new 0 0 0))

/-- The method `LightingManager::update`. -/
def LightingManager.update (m : LightingManager) : LightingManager :=
  match m.keyboard_ with
  | none => m
  | some kb =>
    let pool1 := LightingManager.tickAll kb.neighborsOf m.activeEffects_ m.effectPool_
    let r := LightingManager.retire m.activeEffects_ pool1
    { keyboard_ := m.keyboard_
      effectPool_ := r.2
      activeEffects_ := r.1
      frameBuffer_ := LightingManager.render r.2 r.1 kb.getKeys.length }

/-- The method `LightingManager::addRippleEffect`. -/
def LightingManager.addRippleEffect (m : LightingManager) (startKey : Nat) (color : Color)
    (stepDuration propagationDelay maxLifetime : Int) : LightingManager :=
  let r := m.effectPool_.create startKey color stepDuration propagationDelay maxLifetime
  match r.1 with
  | some new_effect =>
    { m with effectPool_ := r.2, activeEffects_ := m.activeEffects_ ++ [new_effect] }
  | none => { m with effectPool_ := r.2 }

/-- The accessor `LightingManager::getFrameBuffer`. -/
def LightingManager.getFrameBuffer (m : LightingManager) : List Color := m.frameBuffer_


/-- Whether the effect behind a pointer is finished once `update` has been
called on it. -/
def EffectPool.finishedAfterTick (neighbors : Nat → List Nat) (p : EffectPool) (effect : Nat) :
    Bool :=
  (p.updateAt neighbors effect).isFinishedAt effect

/-- The brightness state a key is in once it has gone through `stage` steps of
the decay sequence `Ignited`, `Fading_High`, `Fading_Low`. -/
def State.ofStage : Nat → State
  | 0 => State.Ignited
  | 1 => State.Fading_High
  | _ => State.Fading_Low

/-! ## Runs of the compositor -/

/-- A call on the public interface of `LightingManager`. -/
inductive LightingManager.Call where
  | addRippleEffect (startKey : Nat) (color : Color)
      (stepDuration propagationDelay maxLifetime : Int)
  | update

/-- The manager after one call on its public interface. -/
def LightingManager.call (m : LightingManager) : LightingManager.Call → LightingManager
  | LightingManager.Call.addRippleEffect startKey color stepDuration propagationDelay
      maxLifetime =>
    m.addRippleEffect startKey color stepDuration propagationDelay maxLifetime
  | LightingManager.Call.update => m.update

/-- The manager after a sequence of calls on its public interface. -/
def LightingManager.run (m : LightingManager) (calls : List LightingManager.Call) :
    LightingManager :=
  calls.foldl LightingManager.call m

/-- The calls of `EffectPool::destroy` made by the loop of step 2 of
`LightingManager::update`, in order: the pointer passed and the pool at the
time of the call. -/
def LightingManager.retireCalls : List Nat → EffectPool → List (Nat × EffectPool)
  | [], _ => []
  | effect :: rest, pool =>
    if pool.isFinishedAt effect then
      (effect, pool) :: LightingManager.retireCalls rest (pool.destroy (some effect))
    else
      LightingManager.retireCalls rest pool

/-- The discipline of the handles of a manager: the live pointers are pairwise
distinct and point to constructed effects, the free slots are pairwise
distinct, lie in the memory block and hold no object, no pointer is both live
and free, and the memory block has `MAX_ACTIVE_EFFECTS` slots. -/
def LightingManager.Disciplined (m : LightingManager) : Prop :=
  m.activeEffects_.Nodup
    ∧ m.effectPool_.freeSlots_.Nodup
    ∧ (∀ effect ∈ m.activeEffects_, effect ∉ m.effectPool_.freeSlots_)
    ∧ (∀ effect ∈ m.activeEffects_, (m.effectPool_.deref effect).isSome = true)
    ∧ (∀ slot ∈ m.effectPool_.freeSlots_,
        m.effectPool_.deref slot = none ∧ slot < MAX_ACTIVE_EFFECTS)
    ∧ m.effectPool_.memoryPool_.length = MAX_ACTIVE_EFFECTS

/-! ## Ages of entries and the wavefront invariant -/

/-- The position of a state in the decay sequence `Ignited`, `Fading_High`,
`Fading_Low`. -/
def State.index : State → Int
  | State.Ignited => 0
  | State.Fading_High => 1
  | State.Fading_Low => 2

/-- The age of an entry under step duration `S`: the number of ticks since the
key was ignited, when every state lasts `S` ticks. -/
def KeyState.age (S : Int) (ks : KeyState) : Int := ks.state.index * S + ks.framesInState

/-- The entry of key `k` in the active set after `t` calls of `update`. -/
def RippleEffect.entryAt (neighbors : Nat → List Nat) (e : RippleEffect) (t k : Nat) :
    Option KeyState :=
  (e.updateN neighbors t).activeKeys_.find k

/-- Key `k` has been in the active set after some number `t' ≤ t` of updates. -/
def RippleEffect.Visited (neighbors : Nat → List Nat) (e : RippleEffect) (t k : Nat) : Prop :=
  ∃ t', t' ≤ t ∧ e.entryAt neighbors t' k ≠ none

/-- Key `j` has been visited by tick `t` and, if it is active then, its age is
at most `propagationDelay_ + 1` ticks behind `a`. -/
def RippleEffect.Lag (neighbors : Nat → List Nat) (e : RippleEffect) (t j : Nat) (a : Int) :
    Prop :=
  e.Visited neighbors t j
    ∧ ∀ cj, e.entryAt neighbors t j = some cj →
        a ≤ cj.age e.stepDuration_ + e.propagationDelay_ + 1

/-- The wavefront invariant at tick `t`: the neighbours of a key that is older
than the propagation delay, or that has left the active set, have been
visited and are at most `propagationDelay_ + 1` ticks younger. -/
def RippleEffect.Wave (neighbors : Nat → List Nat) (e : RippleEffect) (t : Nat) : Prop :=
  ∀ k j, j ∈ neighbors k →
    (∀ cs, e.entryAt neighbors t k = some cs →
        e.propagationDelay_ + 1 ≤ cs.age e.stepDuration_ →
        e.Lag neighbors t j (cs.age e.stepDuration_))
      ∧ (e.Visited neighbors t k → e.entryAt neighbors t k = none →
        e.Lag neighbors t j (3 * e.stepDuration_))

/-! ## Keyboard::findKeyById (include/Core/Keyboard/Keyboard.h, src/Core/Keyboard/Keyboard.cpp) -/

/-- The algorithm `std::find_if` over a vector: the position of the first
element that satisfies the predicate; the length of the list is the iterator
`end()`. -/
def Keyboard.find_if (pred : Key → Bool) : List Key → Nat
  | [] => 0
  | key :: rest => if pred key then 0 else Keyboard.find_if pred rest + 1

/-- The overload `const Key* Keyboard::findKeyById(KeyCode id) const` of the
header. The identifier is converted to `uint16_t` for the comparison; the
result is the index of the key found, `none` for `nullptr`. -/
def Keyboard.findKeyByIdConst (kb : Keyboard) (id : Nat) : Option Nat :=
  let it := Keyboard.find_if (fun key => decide (key.getId = id % 65536)) kb.keys_
  if it ≠ kb.keys_.length then some it else none

/-- The overload `Key* Keyboard::findKeyById(KeyCode id)` of `Keyboard.cpp`. -/
def Keyboard.findKeyById (kb : Keyboard) (id : Nat) : Option Nat :=
  let it := Keyboard.find_if (fun key => decide (key.getId = id % 65536)) kb.keys_
  if it ≠ kb.keys_.length then some it else none

/-! ## The parameters derived by the main loop (src/main.cpp) -/

/-- The value of `lifetime_ms` (lines 68-72) for a time since the last press
of `t` milliseconds: `t << 1`, clamped to `[500, 7000]`. -/
def Main.lifetime_ms (t : Int) : Int := max 500 (min 7000 (t <<< (1 : Int)))

/-- The value of `maxLifetime` (line 75): `lifetime_ms >> 4`. -/
def Main.maxLifetime (t : Int) : Int := Main.lifetime_ms t >>> (4 : Nat)

/-- The value of `propagationDelay` (lines 78-82). -/
def Main.propagationDelay (t : Int) : Int :=
  if t < 150 then 1
  else if t < 250 then 2
  else if t < 350 then 3
  else if t < 500 then 4
  else 5

/-- The value of `stepDuration` (line 85): `std::max(1, maxLifetime >> 3)`. -/
def Main.stepDuration (t : Int) : Int := max 1 (Main.maxLifetime t >>> (3 : Nat))

/-- The instance the main loop requests for a press of key `K`, `t`
milliseconds after the last press. -/
def Main.requested (K : Nat) (color : Color) (t : Int) : RippleEffect :=
  RippleEffect.new K color (Main.stepDuration t) (Main.propagationDelay t) (Main.maxLifetime t)

/-! ## Distance in the key graph -/

/-- There is a path of `k` hops from key `K` to key `X` along the neighbour
lists. -/
def RippleEffect.Path (neighbors : Nat → List Nat) (K : Nat) : Nat → Nat → Prop
  | 0, X => X = K
  | k + 1, X => ∃ Y, RippleEffect.Path neighbors K k Y ∧ X ∈ neighbors Y

/-- Key `X` is at graph distance `k` from key `K`: there is a path of `k` hops
and no shorter one. -/
def RippleEffect.Dist (neighbors : Nat → List Nat) (K k X : Nat) : Prop :=
  RippleEffect.Path neighbors K k X ∧ ∀ m, m < k → ¬ RippleEffect.Path neighbors K m X

/-! ## Repeated updates of the compositor -/

/-- The manager after `k` calls of `LightingManager::update`. -/
def LightingManager.updateN (m : LightingManager) : Nat → LightingManager
  | 0 => m
  | k + 1 => (LightingManager.updateN m k).update

/-- The brightness of a colour as `LogitechLed::render` measures it: the sum
of the three channels. -/
def Color.brightness (c : Color) : Int := c.red_ + c.green_ + c.blue_

/-! ## KeyCode (include/Core/Keyboard/KeyCodes.h) -/

/-! The enumerators of `enum class KeyCode`, with the values the language gives
them: 0 for the first, one more for each next one. -/

def KeyCode.A : Nat := 0
def KeyCode.B : Nat := 1
def KeyCode.C : Nat := 2
def KeyCode.D : Nat := 3
def KeyCode.E : Nat := 4
def KeyCode.F : Nat := 5
def KeyCode.G : Nat := 6
def KeyCode.H : Nat := 7
def KeyCode.I : Nat := 8
def KeyCode.J : Nat := 9
def KeyCode.K : Nat := 10
def KeyCode.L : Nat := 11
def KeyCode.M : Nat := 12
def KeyCode.N : Nat := 13
def KeyCode.O : Nat := 14
def KeyCode.P : Nat := 15
def KeyCode.Q : Nat := 16
def KeyCode.R : Nat := 17
def KeyCode.S : Nat := 18
def KeyCode.T : Nat := 19
def KeyCode.U : Nat := 20
def KeyCode.V : Nat := 21
def KeyCode.W : Nat := 22
def KeyCode.X : Nat := 23
def KeyCode.Y : Nat := 24
def KeyCode.Z : Nat := 25
def KeyCode.NUM_0 : Nat := 26
def KeyCode.NUM_1 : Nat := 27
def KeyCode.NUM_2 : Nat := 28
def KeyCode.NUM_3 : Nat := 29
def KeyCode.NUM_4 : Nat := 30
def KeyCode.NUM_5 : Nat := 31
def KeyCode.NUM_6 : Nat := 32
def KeyCode.NUM_7 : Nat := 33
def KeyCode.NUM_8 : Nat := 34
def KeyCode.NUM_9 : Nat := 35
def KeyCode.F1 : Nat := 36
def KeyCode.F2 : Nat := 37
def KeyCode.F3 : Nat := 38
def KeyCode.F4 : Nat := 39
def KeyCode.F5 : Nat := 40
def KeyCode.F6 : Nat := 41
def KeyCode.F7 : Nat := 42
def KeyCode.F8 : Nat := 43
def KeyCode.F9 : Nat := 44
def KeyCode.F10 : Nat := 45
def KeyCode.F11 : Nat := 46
def KeyCode.F12 : Nat := 47
def KeyCode.LEFT_SHIFT : Nat := 48
def KeyCode.RIGHT_SHIFT : Nat := 49
def KeyCode.LEFT_CONTROL : Nat := 50
def KeyCode.RIGHT_CONTROL : Nat := 51
def KeyCode.LEFT_ALT : Nat := 52
def KeyCode.RIGHT_ALT : Nat := 53
def KeyCode.LEFT_WINDOWS : Nat := 54
def KeyCode.RIGHT_WINDOWS : Nat := 55
def KeyCode.CAPS_LOCK : Nat := 56
def KeyCode.ESCAPE : Nat := 57
def KeyCode.SPACE : Nat := 58
def KeyCode.ENTER : Nat := 59
def KeyCode.BACKSPACE : Nat := 60
def KeyCode.TAB : Nat := 61
def KeyCode.CONTEXT_MENU : Nat := 62
def KeyCode.INSERT : Nat := 63
def KeyCode.DELETE_KEY : Nat := 64
def KeyCode.HOME : Nat := 65
def KeyCode.END : Nat := 66
def KeyCode.PAGE_UP : Nat := 67
def KeyCode.PAGE_DOWN : Nat := 68
def KeyCode.ARROW_UP : Nat := 69
def KeyCode.ARROW_DOWN : Nat := 70
def KeyCode.ARROW_LEFT : Nat := 71
def KeyCode.ARROW_RIGHT : Nat := 72
def KeyCode.PRINT_SCREEN : Nat := 73
def KeyCode.SCROLL_LOCK : Nat := 74
def KeyCode.PAUSE_BREAK : Nat := 75
def KeyCode.NUMPAD_0 : Nat := 76
def KeyCode.NUMPAD_1 : Nat := 77
def KeyCode.NUMPAD_2 : Nat := 78
def KeyCode.NUMPAD_3 : Nat := 79
def KeyCode.NUMPAD_4 : Nat := 80
def KeyCode.NUMPAD_5 : Nat := 81
def KeyCode.NUMPAD_6 : Nat := 82
def KeyCode.NUMPAD_7 : Nat := 83
def KeyCode.NUMPAD_8 : Nat := 84
def KeyCode.NUMPAD_9 : Nat := 85
def KeyCode.NUM_LOCK : Nat := 86
def KeyCode.NUMPAD_DIVIDE : Nat := 87
def KeyCode.NUMPAD_MULTIPLY : Nat := 88
def KeyCode.NUMPAD_SUBTRACT : Nat := 89
def KeyCode.NUMPAD_ADD : Nat := 90
def KeyCode.NUMPAD_ENTER : Nat := 91
def KeyCode.NUMPAD_DECIMAL : Nat := 92
def KeyCode.OEM_TILDE : Nat := 93
def KeyCode.OEM_MINUS : Nat := 94
def KeyCode.OEM_PLUS : Nat := 95
def KeyCode.OEM_LBRACKET : Nat := 96
def KeyCode.OEM_RBRACKET : Nat := 97
def KeyCode.OEM_BACKSLASH : Nat := 98
def KeyCode.OEM_SEMICOLON : Nat := 99
def KeyCode.OEM_QUOTE : Nat := 100
def KeyCode.OEM_COMMA : Nat := 101
def KeyCode.OEM_PERIOD : Nat := 102
def KeyCode.OEM_SLASH : Nat := 103
def KeyCode.OEM_102 : Nat := 104
def KeyCode.KEY_COUNT : Nat := 105


/-! ## LogitechLed (src/Hardware/LogitechLed.cpp) -/

/-- The table `g213_key_to_zone_map`: the lighting zone, 1 to 5, of a key
code. -/
def LogitechLed.g213_key_to_zone_map : List (Nat × Nat) :=
  [(KeyCode.ESCAPE, 1), (KeyCode.F1, 1), (KeyCode.F2, 1), (KeyCode.F3, 1), (KeyCode.F4, 1),
    (KeyCode.F5, 1), (KeyCode.OEM_TILDE, 1), (KeyCode.NUM_1, 1), (KeyCode.NUM_2, 1),
    (KeyCode.NUM_3, 1), (KeyCode.NUM_4, 1), (KeyCode.NUM_5, 1), (KeyCode.TAB, 1),
    (KeyCode.Q, 1), (KeyCode.W, 1), (KeyCode.E, 1), (KeyCode.R, 1), (KeyCode.T, 1),
    (KeyCode.CAPS_LOCK, 1), (KeyCode.A, 1), (KeyCode.S, 1), (KeyCode.D, 1), (KeyCode.F, 1),
    (KeyCode.G, 1), (KeyCode.LEFT_SHIFT, 1), (KeyCode.Z, 1), (KeyCode.X, 1), (KeyCode.C, 1),
    (KeyCode.V, 1), (KeyCode.LEFT_CONTROL, 1), (KeyCode.LEFT_WINDOWS, 1),
    (KeyCode.LEFT_ALT, 1), (KeyCode.F6, 2), (KeyCode.F7, 2), (KeyCode.F8, 2),
    (KeyCode.NUM_6, 2), (KeyCode.NUM_7, 2), (KeyCode.NUM_8, 2), (KeyCode.Y, 2), (KeyCode.U, 2),
    (KeyCode.I, 2), (KeyCode.H, 2), (KeyCode.J, 2), (KeyCode.K, 2), (KeyCode.B, 2),
    (KeyCode.N, 2), (KeyCode.M, 2), (KeyCode.F9, 3), (KeyCode.F10, 3), (KeyCode.F11, 3),
    (KeyCode.F12, 3), (KeyCode.NUM_9, 3), (KeyCode.NUM_0, 3), (KeyCode.OEM_MINUS, 3),
    (KeyCode.OEM_PLUS, 3), (KeyCode.BACKSPACE, 3), (KeyCode.O, 3), (KeyCode.P, 3),
    (KeyCode.OEM_LBRACKET, 3), (KeyCode.OEM_RBRACKET, 3), (KeyCode.OEM_BACKSLASH, 3),
    (KeyCode.L, 3), (KeyCode.OEM_SEMICOLON, 3), (KeyCode.OEM_QUOTE, 3), (KeyCode.ENTER, 3),
    (KeyCode.OEM_COMMA, 3), (KeyCode.OEM_PERIOD, 3), (KeyCode.OEM_SLASH, 3),
    (KeyCode.RIGHT_SHIFT, 3), (KeyCode.SPACE, 3), (KeyCode.RIGHT_ALT, 3),
    (KeyCode.CONTEXT_MENU, 3), (KeyCode.RIGHT_CONTROL, 3), (KeyCode.PRINT_SCREEN, 4),
    (KeyCode.SCROLL_LOCK, 4), (KeyCode.PAUSE_BREAK, 4), (KeyCode.INSERT, 4), (KeyCode.HOME, 4),
    (KeyCode.PAGE_UP, 4), (KeyCode.DELETE_KEY, 4), (KeyCode.END, 4), (KeyCode.PAGE_DOWN, 4),
    (KeyCode.ARROW_UP, 4), (KeyCode.ARROW_LEFT, 4), (KeyCode.ARROW_DOWN, 4),
    (KeyCode.ARROW_RIGHT, 4), (KeyCode.NUM_LOCK, 5), (KeyCode.NUMPAD_DIVIDE, 5),
    (KeyCode.NUMPAD_MULTIPLY, 5), (KeyCode.NUMPAD_SUBTRACT, 5), (KeyCode.NUMPAD_7, 5),
    (KeyCode.NUMPAD_8, 5), (KeyCode.NUMPAD_9, 5), (KeyCode.NUMPAD_ADD, 5),
    (KeyCode.NUMPAD_4, 5), (KeyCode.NUMPAD_5, 5), (KeyCode.NUMPAD_6, 5), (KeyCode.NUMPAD_1, 5),
    (KeyCode.NUMPAD_2, 5), (KeyCode.NUMPAD_3, 5), (KeyCode.NUMPAD_ENTER, 5),
    (KeyCode.NUMPAD_0, 5), (KeyCode.NUMPAD_DECIMAL, 5)]

/-- The helper `convert_255_to_100`. -/
def LogitechLed.convert_255_to_100 (value : Int) : Int :=
  ((value <<< (6 : Int)) + (value <<< (5 : Int)) + (value <<< (2 : Int))) >>> (8 : Nat)

/-- The constant `NUM_ZONES` of `LogitechLed::render`. -/
def LogitechLed.NUM_ZONES : Nat := 5

/-- The body of the loop of step B of `LogitechLed::render` (lines 172-189)
for the key of index `i`. The read `frameBuffer[i]` is undefined in the source
past the end of the frame buffer; the model reads black there. -/
def LogitechLed.visitKey (all_keys : List Key) (frameBuffer : List Color)
    (brightest_zone_colors : List Color) (i : Nat) : List Color :=
  match all_keys.get? i with
  | none => brightest_zone_colors
  | some key =>
    match List.lookup key.getId LogitechLed.g213_key_to_zone_map with
    | none => brightest_zone_colors
    | some zone =>
      let zone_index := zone - 1
      let current_key_color := frameBuffer.getD i (Color.new 0 0 0)
      let current_brightness := current_key_color.brightness
      let max_brightness_found :=
        (brightest_zone_colors.getD zone_index (Color.new 0 0 0)).brightness
      if current_brightness > max_brightness_found then
        brightest_zone_colors.set zone_index current_key_color
      else brightest_zone_colors

/-- Steps A and B of `LogitechLed::render`: the vector `brightest_zone_colors`
after the loop over the keys. -/
def LogitechLed.brightestZoneColors (all_keys : List Key) (frameBuffer : List Color) :
    List Color :=
  (List.range all_keys.length).foldl (LogitechLed.visitKey all_keys frameBuffer)
    (List.replicate LogitechLed.NUM_ZONES (Color.new 0 0 0))

/-- The method `LogitechLed::render`: the calls of
`LogiLedSetLightingForTargetZone` it makes, in order, each as the zone and the
three percentages passed. With a null keyboard it returns at once. -/
def LogitechLed.render (keyboard_ : Option Keyboard) (frameBuffer : List Color) :
    List (Nat × Int × Int × Int) :=
  match keyboard_ with
  | none => []
  | some kb =>
    (List.range LogitechLed.NUM_ZONES).map (fun i =>
      let final_zone_color :=
        (LogitechLed.brightestZoneColors kb.getKeys frameBuffer).getD i (Color.new 0 0 0)
      (i + 1, LogitechLed.convert_255_to_100 final_zone_color.red_,
        LogitechLed.convert_255_to_100 final_zone_color.green_,
        LogitechLed.convert_255_to_100 final_zone_color.blue_))

/-- The zone that step B of `LogitechLed::render` finds for the key of index
`j`: the entry of the table for its identifier, if the key and the entry
exist. -/
def LogitechLed.zoneOfKey (all_keys : List Key) (j : Nat) : Option Nat :=
  match all_keys.get? j with
  | none => none
  | some key => List.lookup key.getId LogitechLed.g213_key_to_zone_map

/-! ## Worked instances -/

/-- A keyboard of three keys in a row, each key next to the one before and the
one after it. -/
def Example.rowKeyboard : Keyboard :=
  { keys_ := [⟨10, ⟨0, 0⟩, 0, [1]⟩, ⟨11, ⟨1, 0⟩, 1, [0, 2]⟩, ⟨12, ⟨2, 0⟩, 2, [1]⟩] }

/-- The neighbour lists of the row of three keys. -/
def Example.rowNeighbors : Nat → List Nat := Example.rowKeyboard.neighborsOf

/-- The same neighbour lists, each in the reverse order. -/
def Example.rowNeighborsReversed : Nat → List Nat :=
  fun key => (Example.rowKeyboard.neighborsOf key).reverse

/-- A red ripple seeded at key 0 with step duration 2, propagation delay 1 and
max lifetime 100. -/
def Example.ripple : RippleEffect := RippleEffect.new 0 (Color.new 255 0 0) 2 1 100

/-- The red ripple with step duration 1, equal to its propagation delay. -/
def Example.shortRipple : RippleEffect := RippleEffect.new 0 (Color.new 255 0 0) 1 1 100

/-- A ripple constructed with max lifetime 0 and never updated. -/
def Example.stillborn : RippleEffect := RippleEffect.new 0 (Color.new 255 0 0) 4 2 0

/-- A manager on the row of three keys with two live ripples. -/
def Example.twoRipples : LightingManager :=
  ((LightingManager.new (some Example.rowKeyboard)).addRippleEffect 0 (Color.new 100 0 0) 2 1
    5).addRippleEffect 1 (Color.new 200 10 0) 2 1 3

/-- A manager on the row of three keys after `MAX_ACTIVE_EFFECTS` requests. -/
def Example.fullManager : LightingManager :=
  (List.range MAX_ACTIVE_EFFECTS).foldl
    (fun m _ => m.addRippleEffect 0 (Color.new 255 0 0) 4 2 20)
    (LightingManager.new (some Example.rowKeyboard))

/-- A manager constructed with a null keyboard, with one ripple of max
lifetime 0. -/
def Example.unattached : LightingManager :=
  (LightingManager.new none).addRippleEffect 0 (Color.new 255 0 0) 1 1 0

/-- The red ripple of the worked example of the specification: step duration
4, propagation delay 2, max lifetime 20, seeded at key 0. -/
def Example.workedRipple : RippleEffect := RippleEffect.new 0 (Color.new 255 0 0) 4 2 20

/-- A ripple of the dim colour `(1, 0, 0)` with step duration 1 and max
lifetime 2. -/
def Example.dimRipple : RippleEffect := RippleEffect.new 0 (Color.new 1 0 0) 1 1 2

/-- A manager on the row of three keys with two live ripples seeded at key 0,
of the colours `(100, 0, 0)` and `(200, 0, 0)`. -/
def Example.blendManager : LightingManager :=
  ((LightingManager.new (some Example.rowKeyboard)).addRippleEffect 0 (Color.new 100 0 0) 2 1
    5).addRippleEffect 0 (Color.new 200 0 0) 2 1 5

/-- A keyboard of four keys, `Q` and `W` of zone 1, `Y` of zone 2 and
`RIGHT_WINDOWS`, which the zone table does not list. -/
def Example.zoneKeyboard : Keyboard :=
  { keys_ := [⟨KeyCode.Q, ⟨0, 0⟩, 0, []⟩, ⟨KeyCode.W, ⟨1, 0⟩, 1, []⟩, ⟨KeyCode.Y, ⟨5, 0⟩, 2, []⟩,
      ⟨KeyCode.RIGHT_WINDOWS, ⟨9, 0⟩, 3, []⟩] }

/-- A frame for the keyboard of four keys. -/
def Example.zoneFrame : List Color :=
  [Color.new 10 20 30, Color.new 60 0 0, Color.new 0 0 0, Color.new 255 255 255]

/-! ## Lemmas on the key map -/

theorem KeyMap.find_assign (m : KeyMap) (key : Nat) (value : KeyState) (k : Nat) :
    (m.assign key value).find k = if key = k then some value else m.find k := by
  induction m with
  | nil => simp [KeyMap.assign, KeyMap.find]
  | cons hd tl ih =>
    obtain ⟨k', v'⟩ := hd
    by_cases h : k' = key
    · subst h
      by_cases h2 : k' = k <;> simp [KeyMap.assign, KeyMap.find, h2]
    · by_cases h2 : k' = k
      · subst h2
        simp [KeyMap.assign, KeyMap.find, h, Ne.symm h]
      · simp [KeyMap.assign, KeyMap.find, h, h2, ih]

theorem KeyMap.find_eq_none_iff (m : KeyMap) (k : Nat) :
    m.find k = none ↔ k ∉ m.keys := by
  induction m with
  | nil => simp [KeyMap.find, KeyMap.keys]
  | cons hd tl ih =>
    obtain ⟨k', v'⟩ := hd
    by_cases h : k' = k
    · subst h
      simp [KeyMap.find, KeyMap.keys]
    · have ih' : KeyMap.find tl k = none ↔ k ∉ List.map Prod.fst tl := ih
      simp [KeyMap.find, KeyMap.keys, h, Ne.symm h, ih']

theorem KeyMap.mem_of_find {m : KeyMap} {k : Nat} {v : KeyState}
    (h : m.find k = some v) : (k, v) ∈ m := by
  induction m with
  | nil => simp [KeyMap.find] at h
  | cons hd tl ih =>
    obtain ⟨k', v'⟩ := hd
    by_cases hk : k' = k
    · subst hk
      simp [KeyMap.find] at h
      simp [h]
    · simp [KeyMap.find, hk] at h
      exact List.mem_cons_of_mem _ (ih h)

theorem KeyMap.find_of_mem {m : KeyMap} (hwf : m.WF) {k : Nat} {v : KeyState}
    (h : (k, v) ∈ m) : m.find k = some v := by
  induction m with
  | nil => simp at h
  | cons hd tl ih =>
    obtain ⟨k', v'⟩ := hd
    have hnd : k' ∉ KeyMap.keys tl ∧ (KeyMap.keys tl).Nodup := by
      simpa [KeyMap.WF, KeyMap.keys] using hwf
    rcases List.mem_cons.mp h with heq | htl
    · cases heq
      simp [KeyMap.find]
    · have hne : k' ≠ k := by
        intro hkk
        subst hkk
        exact hnd.1 (List.mem_map_of_mem Prod.fst htl)
      simp only [KeyMap.find, hne, if_false]
      exact ih hnd.2 htl

theorem KeyMap.keys_assign (m : KeyMap) (key : Nat) (value : KeyState) :
    (m.assign key value).keys = if key ∈ m.keys then m.keys else m.keys ++ [key] := by
  induction m with
  | nil => simp [KeyMap.assign, KeyMap.keys]
  | cons hd tl ih =>
    obtain ⟨k', v'⟩ := hd
    have ih' : List.map Prod.fst (KeyMap.assign tl key value)
        = if key ∈ List.map Prod.fst tl then List.map Prod.fst tl
          else List.map Prod.fst tl ++ [key] := ih
    by_cases h : k' = key
    · subst h
      simp [KeyMap.assign, KeyMap.keys]
    · simp only [KeyMap.assign, KeyMap.keys, h, if_false, List.map_cons, ih', List.mem_cons,
        Ne.symm h, false_or]
      split <;> simp

theorem KeyMap.WF_assign {m : KeyMap} (hwf : m.WF) (key : Nat) (value : KeyState) :
    (m.assign key value).WF := by
  unfold KeyMap.WF at *
  rw [KeyMap.keys_assign]
  split
  · exact hwf
  · rename_i h
    exact List.Nodup.append hwf (List.nodup_singleton key) (by simpa using h)

/-! ## The update loop, entry by entry -/

theorem RippleEffect.find_propagate (neighbors : Nat → List Nat) (active : KeyMap)
    (key : Nat) (next : KeyMap) (k : Nat) :
    (RippleEffect.propagate neighbors active key next).find k
      = if active.find k = none ∧ k ∈ neighbors key then some ⟨State.Ignited, 0⟩
        else next.find k := by
  unfold RippleEffect.propagate
  generalize neighbors key = ns
  induction ns generalizing next with
  | nil => simp
  | cons n rest ih =>
    rw [List.foldl_cons, ih]
    by_cases hn : active.find n = none
    · by_cases hk : n = k
      · subst hk
        simp [hn, KeyMap.find_assign]
      · simp [hn, KeyMap.find_assign, hk, Ne.symm hk]
    · have hsome : (active.find n).isNone = false := by
        cases h : active.find n with
        | none => exact absurd h hn
        | some v => rfl
      by_cases hk : n = k
      · subst hk
        simp [hn, hsome]
      · simp [hsome, Ne.symm hk]

/-- The entry of `k` after the loop body has processed `entry`, when `k` has no
entry in `activeKeys_`. -/
theorem RippleEffect.find_updateKey_inactive (neighbors : Nat → List Nat) (e : RippleEffect)
    (next : KeyMap) (entry : Nat × KeyState) (k : Nat)
    (hk : e.activeKeys_.find k = none) (hentry : e.activeKeys_.find entry.1 ≠ none) :
    (RippleEffect.updateKey neighbors e next entry).find k
      = if (entry.2.state = State.Ignited ∧ entry.2.framesInState ≥ e.propagationDelay_)
            ∧ k ∈ neighbors entry.1
        then some ⟨State.Ignited, 0⟩ else next.find k := by
  have hne : entry.1 ≠ k := by
    intro h
    rw [h] at hentry
    exact hentry hk
  unfold RippleEffect.updateKey
  by_cases hr : entry.2.state = State.Ignited ∧ entry.2.framesInState ≥ e.propagationDelay_
  · cases ht : RippleEffect.transition e.stepDuration_ entry.2 <;>
      simp [hr, KeyMap.find_assign, hne, RippleEffect.find_propagate, hk]
  · cases ht : RippleEffect.transition e.stepDuration_ entry.2 <;>
      simp [hr, KeyMap.find_assign, hne]

/-- The entry of `k` after the loop body has processed `entry`, when `k` has an
entry in `activeKeys_`. -/
theorem RippleEffect.find_updateKey_active (neighbors : Nat → List Nat) (e : RippleEffect)
    (next : KeyMap) (entry : Nat × KeyState) (k : Nat)
    (hk : e.activeKeys_.find k ≠ none) :
    (RippleEffect.updateKey neighbors e next entry).find k
      = if entry.1 = k then
          (match RippleEffect.transition e.stepDuration_ entry.2 with
            | some next_state => some next_state
            | none => next.find k)
        else next.find k := by
  unfold RippleEffect.updateKey
  by_cases hr : entry.2.state = State.Ignited ∧ entry.2.framesInState ≥ e.propagationDelay_
  · cases ht : RippleEffect.transition e.stepDuration_ entry.2 <;>
      simp [hr, KeyMap.find_assign, RippleEffect.find_propagate, hk]
  · cases ht : RippleEffect.transition e.stepDuration_ entry.2 <;>
      simp [hr, KeyMap.find_assign]

theorem RippleEffect.find_foldl_inactive (neighbors : Nat → List Nat) (e : RippleEffect)
    (l : List (Nat × KeyState)) (next : KeyMap) (k : Nat)
    (hk : e.activeKeys_.find k = none)
    (hl : ∀ entry ∈ l, e.activeKeys_.find entry.1 ≠ none) :
    (l.foldl (RippleEffect.updateKey neighbors e) next).find k
      = if ∃ entry ∈ l,
            (entry.2.state = State.Ignited ∧ entry.2.framesInState ≥ e.propagationDelay_)
              ∧ k ∈ neighbors entry.1
        then some ⟨State.Ignited, 0⟩ else next.find k := by
  induction l generalizing next with
  | nil => simp
  | cons hd tl ih =>
    have htl : ∀ entry ∈ tl, e.activeKeys_.find entry.1 ≠ none :=
      fun entry hmem => hl entry (List.mem_cons_of_mem _ hmem)
    rw [List.foldl_cons, ih _ htl,
      RippleEffect.find_updateKey_inactive neighbors e next hd k hk (hl hd (List.mem_cons_self _ _))]
    by_cases h1 : ∃ entry ∈ tl,
        (entry.2.state = State.Ignited ∧ entry.2.framesInState ≥ e.propagationDelay_)
          ∧ k ∈ neighbors entry.1
    · have h2 : ∃ entry ∈ hd :: tl,
          (entry.2.state = State.Ignited ∧ entry.2.framesInState ≥ e.propagationDelay_)
            ∧ k ∈ neighbors entry.1 := by
        obtain ⟨entry, hmem, hp⟩ := h1
        exact ⟨entry, List.mem_cons_of_mem _ hmem, hp⟩
      rw [if_pos h1, if_pos h2]
    · rw [if_neg h1]
      by_cases h3 : (hd.2.state = State.Ignited ∧ hd.2.framesInState ≥ e.propagationDelay_)
          ∧ k ∈ neighbors hd.1
      · rw [if_pos h3, if_pos ⟨hd, List.mem_cons_self _ _, h3⟩]
      · have h4 : ¬ ∃ entry ∈ hd :: tl,
            (entry.2.state = State.Ignited ∧ entry.2.framesInState ≥ e.propagationDelay_)
              ∧ k ∈ neighbors entry.1 := by
          rintro ⟨entry, hmem, hp⟩
          rcases List.mem_cons.mp hmem with heq | hmem'
          · exact h3 (heq ▸ hp)
          · exact h1 ⟨entry, hmem', hp⟩
        rw [if_neg h3, if_neg h4]

theorem RippleEffect.find_foldl_active (neighbors : Nat → List Nat) (e : RippleEffect)
    (l : List (Nat × KeyState)) (next : KeyMap) (k : Nat)
    (hk : e.activeKeys_.find k ≠ none) (hnd : KeyMap.WF l) :
    (l.foldl (RippleEffect.updateKey neighbors e) next).find k
      = match KeyMap.find l k with
        | none => next.find k
        | some current =>
          (match RippleEffect.transition e.stepDuration_ current with
            | some next_state => some next_state
            | none => next.find k) := by
  induction l generalizing next with
  | nil => simp [KeyMap.find]
  | cons hd tl ih =>
    obtain ⟨j, cs⟩ := hd
    have hnd' : j ∉ KeyMap.keys tl ∧ KeyMap.WF tl := by
      simpa [KeyMap.WF, KeyMap.keys] using hnd
    rw [List.foldl_cons, ih _ hnd'.2, RippleEffect.find_updateKey_active neighbors e next (j, cs) k hk]
    by_cases hj : j = k
    · subst hj
      have hnone : KeyMap.find tl j = none := (KeyMap.find_eq_none_iff tl j).mpr hnd'.1
      simp [KeyMap.find, hnone]
    · simp [KeyMap.find, hj]

/-! ## One call of `update` on an instance that is not finished -/

theorem RippleEffect.update_isFinished (neighbors : Nat → List Nat) (e : RippleEffect) :
    (e.update neighbors).isFinished = decide (e.framesLived_ + 1 ≥ e.maxLifetime_) := by
  unfold RippleEffect.update
  simp only [RippleEffect.isFinished]
  split <;> rfl

theorem RippleEffect.update_activeKeys (neighbors : Nat → List Nat) (e : RippleEffect)
    (hnf : (e.update neighbors).isFinished = false) :
    (e.update neighbors).activeKeys_
      = e.activeKeys_.foldl (RippleEffect.updateKey neighbors e) [] := by
  rw [RippleEffect.update_isFinished] at hnf
  unfold RippleEffect.update
  simp only [RippleEffect.isFinished, hnf]
  rfl

theorem RippleEffect.updateLoop_eq (neighbors : Nat → List Nat) (e : RippleEffect)
    (entries : List (Nat × KeyState)) :
    RippleEffect.updateLoop neighbors e entries
      = entries.foldl (RippleEffect.updateKey neighbors e) [] := rfl

/-- The loop run over any enumeration `entries` of `activeKeys_`: a key that
has an entry gets the transition of that entry. -/
theorem RippleEffect.find_updateLoop_active (neighbors : Nat → List Nat) (e : RippleEffect)
    (entries : List (Nat × KeyState)) (hperm : entries.Perm e.activeKeys_)
    (hwf : e.activeKeys_.WF) (k : Nat) (current : KeyState)
    (hk : e.activeKeys_.find k = some current) :
    (RippleEffect.updateLoop neighbors e entries).find k
      = RippleEffect.transition e.stepDuration_ current := by
  have hwf' : KeyMap.WF entries := by
    unfold KeyMap.WF KeyMap.keys at *
    exact (List.Perm.nodup_iff (List.Perm.map Prod.fst hperm)).mpr hwf
  have hfind : KeyMap.find entries k = some current :=
    KeyMap.find_of_mem hwf' (hperm.mem_iff.mpr (KeyMap.mem_of_find hk))
  rw [RippleEffect.updateLoop_eq,
    RippleEffect.find_foldl_active neighbors e entries [] k (by simp [hk]) hwf', hfind]
  simp only [KeyMap.find]
  split <;> rename_i h <;> rw [h]

/-- The loop run over any enumeration `entries` of `activeKeys_`: a key that
has no entry is claimed exactly when it is a neighbour of an entry at the crest
of the wave. -/
theorem RippleEffect.find_updateLoop_inactive (neighbors : Nat → List Nat) (e : RippleEffect)
    (entries : List (Nat × KeyState)) (hperm : entries.Perm e.activeKeys_)
    (k : Nat) (hk : e.activeKeys_.find k = none) :
    (RippleEffect.updateLoop neighbors e entries).find k
      = if ∃ entry ∈ e.activeKeys_,
            (entry.2.state = State.Ignited ∧ entry.2.framesInState ≥ e.propagationDelay_)
              ∧ k ∈ neighbors entry.1
        then some ⟨State.Ignited, 0⟩ else none := by
  have hl : ∀ entry ∈ entries, e.activeKeys_.find entry.1 ≠ none := by
    intro entry hmem hnone
    have h1 : entry ∈ e.activeKeys_ := hperm.mem_iff.mp hmem
    exact (KeyMap.find_eq_none_iff _ _).mp hnone (List.mem_map_of_mem Prod.fst h1)
  rw [RippleEffect.updateLoop_eq, RippleEffect.find_foldl_inactive neighbors e entries [] k hk hl]
  have hiff : (∃ entry ∈ entries,
        (entry.2.state = State.Ignited ∧ entry.2.framesInState ≥ e.propagationDelay_)
          ∧ k ∈ neighbors entry.1)
      ↔ (∃ entry ∈ e.activeKeys_,
        (entry.2.state = State.Ignited ∧ entry.2.framesInState ≥ e.propagationDelay_)
          ∧ k ∈ neighbors entry.1) := by
    constructor
    · rintro ⟨entry, hmem, hp⟩
      exact ⟨entry, hperm.mem_iff.mp hmem, hp⟩
    · rintro ⟨entry, hmem, hp⟩
      exact ⟨entry, hperm.mem_iff.mpr hmem, hp⟩
  simp only [hiff, KeyMap.find]

theorem RippleEffect.find_update_active (neighbors : Nat → List Nat) (e : RippleEffect)
    (hwf : e.activeKeys_.WF) (hnf : (e.update neighbors).isFinished = false)
    (k : Nat) (current : KeyState) (hk : e.activeKeys_.find k = some current) :
    (e.update neighbors).activeKeys_.find k
      = RippleEffect.transition e.stepDuration_ current := by
  rw [RippleEffect.update_activeKeys neighbors e hnf, ← RippleEffect.updateLoop_eq]
  exact RippleEffect.find_updateLoop_active neighbors e e.activeKeys_ (List.Perm.refl _) hwf k
    current hk

theorem RippleEffect.find_update_inactive (neighbors : Nat → List Nat) (e : RippleEffect)
    (hnf : (e.update neighbors).isFinished = false)
    (k : Nat) (hk : e.activeKeys_.find k = none) :
    (e.update neighbors).activeKeys_.find k
      = if ∃ entry ∈ e.activeKeys_,
            (entry.2.state = State.Ignited ∧ entry.2.framesInState ≥ e.propagationDelay_)
              ∧ k ∈ neighbors entry.1
        then some ⟨State.Ignited, 0⟩ else none := by
  rw [RippleEffect.update_activeKeys neighbors e hnf, ← RippleEffect.updateLoop_eq]
  exact RippleEffect.find_updateLoop_inactive neighbors e e.activeKeys_ (List.Perm.refl _) k hk

theorem KeyMap.find_perm {l1 l2 : KeyMap} (hwf : l1.WF) (hperm : l1.Perm l2) (k : Nat) :
    l1.find k = l2.find k := by
  have hwf2 : l2.WF := by
    unfold KeyMap.WF KeyMap.keys at *
    exact (List.Perm.nodup_iff (List.Perm.map Prod.fst hperm)).mp hwf
  cases h : l1.find k with
  | none =>
    have h1 : k ∉ l1.keys := (KeyMap.find_eq_none_iff l1 k).mp h
    have h2 : k ∉ l2.keys := by
      intro hmem
      exact h1 ((List.Perm.map Prod.fst hperm).mem_iff.mpr hmem)
    exact ((KeyMap.find_eq_none_iff l2 k).mpr h2).symm
  | some v =>
    exact (KeyMap.find_of_mem hwf2 (hperm.mem_iff.mp (KeyMap.mem_of_find h))).symm

theorem RippleEffect.WF_propagate (neighbors : Nat → List Nat) (active : KeyMap) (key : Nat)
    {next : KeyMap} (hwf : next.WF) :
    (RippleEffect.propagate neighbors active key next).WF := by
  unfold RippleEffect.propagate
  generalize neighbors key = ns
  induction ns generalizing next with
  | nil => simpa using hwf
  | cons n rest ih =>
    rw [List.foldl_cons]
    apply ih
    split
    · exact KeyMap.WF_assign hwf _ _
    · exact hwf

theorem RippleEffect.WF_updateKey (neighbors : Nat → List Nat) (e : RippleEffect)
    {next : KeyMap} (hwf : next.WF) (entry : Nat × KeyState) :
    (RippleEffect.updateKey neighbors e next entry).WF := by
  unfold RippleEffect.updateKey
  have h1 : KeyMap.WF
      (if entry.2.state = State.Ignited ∧ entry.2.framesInState ≥ e.propagationDelay_ then
        RippleEffect.propagate neighbors e.activeKeys_ entry.1 next
      else next) := by
    split
    · exact RippleEffect.WF_propagate neighbors _ _ hwf
    · exact hwf
  cases RippleEffect.transition e.stepDuration_ entry.2 with
  | none => exact h1
  | some next_state => exact KeyMap.WF_assign h1 _ _

theorem RippleEffect.WF_updateLoop (neighbors : Nat → List Nat) (e : RippleEffect)
    (entries : List (Nat × KeyState)) :
    (RippleEffect.updateLoop neighbors e entries).WF := by
  unfold RippleEffect.updateLoop
  have hgen : ∀ (next : KeyMap), next.WF →
      (entries.foldl (RippleEffect.updateKey neighbors e) next).WF := by
    induction entries with
    | nil => intro next h; simpa using h
    | cons hd tl ih =>
      intro next h
      rw [List.foldl_cons]
      exact ih _ (RippleEffect.WF_updateKey neighbors e h hd)
  exact hgen [] (by simp [KeyMap.WF, KeyMap.keys])

theorem RippleEffect.WF_update (neighbors : Nat → List Nat) (e : RippleEffect) :
    (e.update neighbors).activeKeys_.WF := by
  unfold RippleEffect.update
  dsimp only
  split
  · simp [KeyMap.WF, KeyMap.keys]
  · exact RippleEffect.WF_updateLoop neighbors _ _

theorem RippleEffect.WF_new (startKey : Nat) (color : Color)
    (stepDuration propagationDelay maxLifetime : Int) :
    (RippleEffect.new startKey color stepDuration propagationDelay maxLifetime).activeKeys_.WF := by
  simp [RippleEffect.new, KeyMap.assign, KeyMap.WF, KeyMap.keys]

theorem RippleEffect.isFinished_eq_false_iff (e : RippleEffect) :
    e.isFinished = false ↔ e.framesLived_ < e.maxLifetime_ := by
  simp [RippleEffect.isFinished]

/-! ## The transition rules of `RippleEffect::update` -/

/-- C1. Propagation rule of `RippleEffect::update`: when the instance is not
finished after the increment of the elapsed counter, a key `k` that has no entry
in the active set before the call has an entry after it if and only if `k` is a
neighbour of some key `j` whose entry before the call is `Ignited` with a
counter of at least the propagation delay; and the new entry of `k` is then
exactly `(Ignited, 0)`. -/
theorem RippleEffect.update_propagation_rule (neighbors : Nat → List Nat) (e : RippleEffect)
    (hwf : e.activeKeys_.WF) (hnf : e.framesLived_ + 1 < e.maxLifetime_)
    (k : Nat) (hk : e.activeKeys_.find k = none) :
    ((e.update neighbors).activeKeys_.find k ≠ none ↔
        ∃ j c, e.activeKeys_.find j = some ⟨State.Ignited, c⟩
          ∧ c ≥ e.propagationDelay_ ∧ k ∈ neighbors j)
      ∧ ((e.update neighbors).activeKeys_.find k ≠ none →
          (e.update neighbors).activeKeys_.find k = some ⟨State.Ignited, 0⟩) := by
  have hnf' : (e.update neighbors).isFinished = false := by
    rw [RippleEffect.update_isFinished]
    simpa using hnf
  rw [RippleEffect.find_update_inactive neighbors e hnf' k hk]
  have hiff : (∃ entry ∈ e.activeKeys_,
        (entry.2.state = State.Ignited ∧ entry.2.framesInState ≥ e.propagationDelay_)
          ∧ k ∈ neighbors entry.1)
      ↔ ∃ j c, e.activeKeys_.find j = some ⟨State.Ignited, c⟩
          ∧ c ≥ e.propagationDelay_ ∧ k ∈ neighbors j := by
    constructor
    · rintro ⟨⟨j, ⟨s, c⟩⟩, hmem, ⟨hs, hc⟩, hn⟩
      simp only at hs hc hn
      subst hs
      exact ⟨j, c, KeyMap.find_of_mem hwf hmem, hc, hn⟩
    · rintro ⟨j, c, hfind, hc, hn⟩
      exact ⟨(j, ⟨State.Ignited, c⟩), KeyMap.mem_of_find hfind, ⟨rfl, hc⟩, hn⟩
  by_cases hex : ∃ entry ∈ e.activeKeys_,
        (entry.2.state = State.Ignited ∧ entry.2.framesInState ≥ e.propagationDelay_)
          ∧ k ∈ neighbors entry.1
  · rw [if_pos hex]
    exact ⟨⟨fun _ => hiff.mp hex, fun _ => by simp⟩, fun _ => rfl⟩
  · rw [if_neg hex]
    exact ⟨⟨fun h => absurd rfl h, fun h => absurd (hiff.mpr h) hex⟩, fun h => absurd rfl h⟩

/-- Witness for C1 on the row of three keys: the seed is at the crest after one
call of update, and the next call claims key 1. -/
theorem RippleEffect.update_propagation_rule_witness :
    (Example.ripple.update Example.rowNeighbors).activeKeys_.find 1 = none
      ∧ ((Example.ripple.update Example.rowNeighbors).update
          Example.rowNeighbors).activeKeys_.find 1 = some ⟨State.Ignited, 0⟩ :=
  ⟨by decide,
    (RippleEffect.update_propagation_rule Example.rowNeighbors
      (Example.ripple.update Example.rowNeighbors) (by decide) (by decide) 1 (by decide)).2
      (by decide)⟩

/-- C2. Decay rule of `RippleEffect::update`: when the instance is not finished
after the increment of the elapsed counter, the entry after the call of a key
whose entry before the call is `(s, c)` is `(s, c + 1)` if `c + 1` is below the
step duration; otherwise it is `(Fading_High, 0)` for `s = Ignited`,
`(Fading_Low, 0)` for `s = Fading_High`, and the key has no entry for
`s = Fading_Low`. The neighbour lists play no part. -/
theorem RippleEffect.update_decay_rule (neighbors : Nat → List Nat) (e : RippleEffect)
    (hwf : e.activeKeys_.WF) (hnf : e.framesLived_ + 1 < e.maxLifetime_)
    (k : Nat) (s : State) (c : Int) (hk : e.activeKeys_.find k = some ⟨s, c⟩) :
    (e.update neighbors).activeKeys_.find k
      = if c + 1 < e.stepDuration_ then some ⟨s, c + 1⟩
        else
          match s with
          | State.Ignited => some ⟨State.Fading_High, 0⟩
          | State.Fading_High => some ⟨State.Fading_Low, 0⟩
          | State.Fading_Low => none := by
  have hnf' : (e.update neighbors).isFinished = false := by
    rw [RippleEffect.update_isFinished]
    simpa using hnf
  rw [RippleEffect.find_update_active neighbors e hwf hnf' k ⟨s, c⟩ hk]
  unfold RippleEffect.transition
  by_cases hc : c + 1 < e.stepDuration_
  · have hc' : ¬ (c + 1 ≥ e.stepDuration_) := by omega
    simp only [hc, hc', if_true, if_false]
  · have hc' : c + 1 ≥ e.stepDuration_ := by omega
    simp only [hc, hc', if_true, if_false]

/-- Witness for C2 on the row of three keys: the seed, `Ignited` with counter
1 under step duration 2, decays to `Fading_High`. -/
theorem RippleEffect.update_decay_rule_witness :
    (Example.ripple.update Example.rowNeighbors).activeKeys_.find 0 = some ⟨State.Ignited, 1⟩
      ∧ ((Example.ripple.update Example.rowNeighbors).update
          Example.rowNeighbors).activeKeys_.find 0 = some ⟨State.Fading_High, 0⟩ :=
  ⟨by decide,
    (RippleEffect.update_decay_rule Example.rowNeighbors
      (Example.ripple.update Example.rowNeighbors) (by decide) (by decide) 0 State.Ignited 1
      (by decide)).trans (by decide)⟩

/-- C3. Order independence of `RippleEffect::update`: for an active set
enumerated in any two orders, the reverse order among them, and neighbour lists
given in any two orders, the call of `update` yields the same mapping for the
next tick: every key has the same entry, or no entry, in both results. -/
theorem RippleEffect.update_order_independent (neighbors1 neighbors2 : Nat → List Nat)
    (e : RippleEffect) (entries : List (Nat × KeyState))
    (hwf : e.activeKeys_.WF) (hperm : e.activeKeys_.Perm entries)
    (hn : ∀ j, (neighbors1 j).Perm (neighbors2 j)) :
    (∀ k, (e.update neighbors1).activeKeys_.find k
        = (RippleEffect.update neighbors2 { e with activeKeys_ := entries }).activeKeys_.find k)
      ∧ (∀ k, (e.update neighbors1).activeKeys_.find k
        = (RippleEffect.update neighbors2
            { e with activeKeys_ := e.activeKeys_.reverse }).activeKeys_.find k)
      ∧ (∀ k, (RippleEffect.updateLoop neighbors1 e e.activeKeys_).find k
        = (RippleEffect.updateLoop neighbors2 { e with activeKeys_ := entries } entries).find k) := by
  have hloop : ∀ (l : List (Nat × KeyState)), e.activeKeys_.Perm l → ∀ k,
      (RippleEffect.updateLoop neighbors1 e e.activeKeys_).find k
        = (RippleEffect.updateLoop neighbors2 { e with activeKeys_ := l } l).find k := by
    intro l hl k
    have hwfl : KeyMap.WF l := by
      unfold KeyMap.WF KeyMap.keys at *
      exact (List.Perm.nodup_iff (List.Perm.map Prod.fst hl)).mp hwf
    have hfk : e.activeKeys_.find k = KeyMap.find l k := KeyMap.find_perm hwf hl k
    cases hcur : e.activeKeys_.find k with
    | some current =>
      rw [RippleEffect.find_updateLoop_active neighbors1 e e.activeKeys_ (List.Perm.refl _) hwf k
        current hcur]
      rw [RippleEffect.find_updateLoop_active neighbors2 { e with activeKeys_ := l } l
        (List.Perm.refl _) hwfl k current (by rw [← hfk]; exact hcur)]
    | none =>
      rw [RippleEffect.find_updateLoop_inactive neighbors1 e e.activeKeys_ (List.Perm.refl _) k hcur]
      rw [RippleEffect.find_updateLoop_inactive neighbors2 { e with activeKeys_ := l } l
        (List.Perm.refl _) k (by rw [← hfk]; exact hcur)]
      have hiff : (∃ entry ∈ e.activeKeys_,
            (entry.2.state = State.Ignited ∧ entry.2.framesInState ≥ e.propagationDelay_)
              ∧ k ∈ neighbors1 entry.1)
          ↔ (∃ entry ∈ l,
            (entry.2.state = State.Ignited ∧ entry.2.framesInState ≥ e.propagationDelay_)
              ∧ k ∈ neighbors2 entry.1) := by
        constructor
        · rintro ⟨entry, hmem, hp, hnb⟩
          exact ⟨entry, hl.mem_iff.mp hmem, hp, (hn entry.1).mem_iff.mp hnb⟩
        · rintro ⟨entry, hmem, hp, hnb⟩
          exact ⟨entry, hl.mem_iff.mpr hmem, hp, (hn entry.1).mem_iff.mpr hnb⟩
      simp only [hiff]
  have hupd : ∀ (l : List (Nat × KeyState)), e.activeKeys_.Perm l → ∀ k,
      (e.update neighbors1).activeKeys_.find k
        = (RippleEffect.update neighbors2 { e with activeKeys_ := l }).activeKeys_.find k := by
    intro l hl k
    by_cases hfin : e.framesLived_ + 1 ≥ e.maxLifetime_
    · simp [RippleEffect.update, RippleEffect.isFinished, hfin]
    · simp only [RippleEffect.update, RippleEffect.isFinished, hfin, decide_False]
      exact hloop l hl k
  exact ⟨hupd entries hperm, hupd _ (List.reverse_perm _).symm, hloop entries hperm⟩

/-- Witness for C3 on the row of three keys: the active set after three calls
holds two keys, key 1 at the crest of the wave; enumerating them in reverse,
with reversed neighbour lists, gives key 2 the same entry. -/
theorem RippleEffect.update_order_independent_witness :
    ((Example.ripple.updateN Example.rowNeighbors 3).update
        Example.rowNeighbors).activeKeys_.find 2
      = (RippleEffect.update Example.rowNeighborsReversed
          { Example.ripple.updateN Example.rowNeighbors 3 with
            activeKeys_ :=
              (Example.ripple.updateN Example.rowNeighbors 3).activeKeys_.reverse }
        ).activeKeys_.find 2 :=
  (RippleEffect.update_order_independent Example.rowNeighbors Example.rowNeighborsReversed
    (Example.ripple.updateN Example.rowNeighbors 3)
    (Example.ripple.updateN Example.rowNeighbors 3).activeKeys_.reverse (by decide)
    (List.reverse_perm _).symm (fun _ => (List.reverse_perm _).symm)).1 2

/-! ## Runs of `update` -/

theorem RippleEffect.update_fields (neighbors : Nat → List Nat) (e : RippleEffect) :
    (e.update neighbors).color_ = e.color_
      ∧ (e.update neighbors).stepDuration_ = e.stepDuration_
      ∧ (e.update neighbors).propagationDelay_ = e.propagationDelay_
      ∧ (e.update neighbors).maxLifetime_ = e.maxLifetime_
      ∧ (e.update neighbors).framesLived_ = e.framesLived_ + 1 := by
  unfold RippleEffect.update
  dsimp only
  split <;> exact ⟨rfl, rfl, rfl, rfl, rfl⟩

theorem RippleEffect.updateN_fields (neighbors : Nat → List Nat) (e : RippleEffect) (t : Nat) :
    (e.updateN neighbors t).color_ = e.color_
      ∧ (e.updateN neighbors t).stepDuration_ = e.stepDuration_
      ∧ (e.updateN neighbors t).propagationDelay_ = e.propagationDelay_
      ∧ (e.updateN neighbors t).maxLifetime_ = e.maxLifetime_
      ∧ (e.updateN neighbors t).framesLived_ = e.framesLived_ + t := by
  induction t with
  | zero => simp [RippleEffect.updateN]
  | succ t ih =>
    obtain ⟨h1, h2, h3, h4, h5⟩ := ih
    obtain ⟨u1, u2, u3, u4, u5⟩ := RippleEffect.update_fields neighbors (e.updateN neighbors t)
    simp only [RippleEffect.updateN]
    refine ⟨u1.trans h1, u2.trans h2, u3.trans h3, u4.trans h4, ?_⟩
    rw [u5, h5]
    push_cast
    ring

theorem RippleEffect.WF_updateN (neighbors : Nat → List Nat) (e : RippleEffect)
    (hwf : e.activeKeys_.WF) (t : Nat) : (e.updateN neighbors t).activeKeys_.WF := by
  cases t with
  | zero => exact hwf
  | succ t => exact RippleEffect.WF_update neighbors _

/-- One more call of `update` in a run: a key that has an entry. -/
theorem RippleEffect.find_updateN_succ_active (neighbors : Nat → List Nat) (e : RippleEffect)
    (hwf : e.activeKeys_.WF) (t : Nat) (hnf : e.framesLived_ + t + 1 < e.maxLifetime_)
    (k : Nat) (current : KeyState)
    (hk : (e.updateN neighbors t).activeKeys_.find k = some current) :
    (e.updateN neighbors (t + 1)).activeKeys_.find k
      = RippleEffect.transition e.stepDuration_ current := by
  obtain ⟨_, h2, _, h4, h5⟩ := RippleEffect.updateN_fields neighbors e t
  have hnf' : ((e.updateN neighbors t).update neighbors).isFinished = false := by
    rw [RippleEffect.update_isFinished, h4, h5]
    simpa using hnf
  simp only [RippleEffect.updateN]
  rw [RippleEffect.find_update_active neighbors _ (RippleEffect.WF_updateN neighbors e hwf t) hnf'
    k current hk, h2]

/-- One more call of `update` in a run: a key that has no entry and is the
neighbour of an entry at the crest of the wave. -/
theorem RippleEffect.find_updateN_succ_claimed (neighbors : Nat → List Nat) (e : RippleEffect)
    (t : Nat) (hnf : e.framesLived_ + t + 1 < e.maxLifetime_) (k : Nat)
    (hk : (e.updateN neighbors t).activeKeys_.find k = none)
    (j : Nat) (c : Int)
    (hj : (e.updateN neighbors t).activeKeys_.find j = some ⟨State.Ignited, c⟩)
    (hc : c ≥ e.propagationDelay_) (hn : k ∈ neighbors j) :
    (e.updateN neighbors (t + 1)).activeKeys_.find k = some ⟨State.Ignited, 0⟩ := by
  obtain ⟨_, _, h3, h4, h5⟩ := RippleEffect.updateN_fields neighbors e t
  have hnf' : ((e.updateN neighbors t).update neighbors).isFinished = false := by
    rw [RippleEffect.update_isFinished, h4, h5]
    simpa using hnf
  simp only [RippleEffect.updateN]
  rw [RippleEffect.find_update_inactive neighbors _ hnf' k hk, if_pos]
  exact ⟨(j, ⟨State.Ignited, c⟩), KeyMap.mem_of_find hj, ⟨rfl, by rw [h3]; exact hc⟩, hn⟩

/-- One more call of `update` in a run: a key that has no entry and is not the
neighbour of any entry at the crest of the wave. -/
theorem RippleEffect.find_updateN_succ_unclaimed (neighbors : Nat → List Nat) (e : RippleEffect)
    (hwf : e.activeKeys_.WF) (t : Nat) (k : Nat)
    (hk : (e.updateN neighbors t).activeKeys_.find k = none)
    (hno : ∀ j c, (e.updateN neighbors t).activeKeys_.find j = some ⟨State.Ignited, c⟩ →
      c ≥ e.propagationDelay_ → k ∉ neighbors j) :
    (e.updateN neighbors (t + 1)).activeKeys_.find k = none := by
  obtain ⟨_, _, h3, h4, h5⟩ := RippleEffect.updateN_fields neighbors e t
  simp only [RippleEffect.updateN]
  by_cases hfin : ((e.updateN neighbors t).update neighbors).isFinished = true
  · have : ((e.updateN neighbors t).update neighbors).activeKeys_ = [] := by
      rw [RippleEffect.update_isFinished] at hfin
      unfold RippleEffect.update
      simp only [RippleEffect.isFinished, hfin, if_true]
    rw [this]
    rfl
  · have hnf' : ((e.updateN neighbors t).update neighbors).isFinished = false := by
      simpa using hfin
    rw [RippleEffect.find_update_inactive neighbors _ hnf' k hk, if_neg]
    rintro ⟨⟨j, ⟨s, c⟩⟩, hmem, ⟨hs, hc⟩, hn⟩
    simp only at hs hc hn
    subst hs
    rw [h3] at hc
    exact hno j c (KeyMap.find_of_mem (RippleEffect.WF_updateN neighbors e hwf t) hmem) hc hn

/-- Counterexample to C4 as stated, on the row of three keys with seed 0 and
propagation delay 1. With step duration 2, key 1 is a direct neighbour of the
seed and has no entry after one call of update, and key 2, a neighbour of key 1
not visited before, has no entry after two calls. With step duration 1, equal
to the delay, key 1 has no entry after one, two or three calls. -/
theorem RippleEffect.ripple_radius_growth_counterexample :
    (Example.ripple.propagationDelay_ = 1 ∧ Example.ripple.stepDuration_ = 2
        ∧ 1 ∈ Example.rowNeighbors 0
        ∧ (Example.ripple.updateN Example.rowNeighbors 1).isFinished = false
        ∧ (Example.ripple.updateN Example.rowNeighbors 1).activeKeys_.find 1 = none)
      ∧ (2 ∈ Example.rowNeighbors 1 ∧ 2 ∉ Example.rowNeighbors 0
        ∧ (Example.ripple.updateN Example.rowNeighbors 2).isFinished = false
        ∧ (Example.ripple.updateN Example.rowNeighbors 2).activeKeys_.find 2 = none)
      ∧ (Example.shortRipple.propagationDelay_ = 1 ∧ Example.shortRipple.stepDuration_ = 1
        ∧ (Example.shortRipple.updateN Example.rowNeighbors 1).activeKeys_.find 1 = none
        ∧ (Example.shortRipple.updateN Example.rowNeighbors 2).activeKeys_.find 1 = none
        ∧ (Example.shortRipple.updateN Example.rowNeighbors 3).activeKeys_.find 1 = none) := by
  decide

/-- C4 (amended). Ripple radius growth with propagation delay `D = 1`, a step
duration `S ≥ 2` and a max lifetime above 4: after `D = 1` call of `update` the
seed is still the only key of the active set; after exactly `D + 1 = 2` calls
every direct neighbour of the seed, the seed apart, has the entry
`(Ignited, 0)`; and after exactly `2 (D + 1) = 4` calls every neighbour of a
direct neighbour that is neither the seed nor a direct neighbour of the seed
has the entry `(Ignited, 0)`. -/
theorem RippleEffect.ripple_radius_growth (neighbors : Nat → List Nat) (K : Nat)
    (color : Color) (S L : Int) (hS : 2 ≤ S) (hL : 4 < L) :
    (∀ k, k ≠ K →
        ((RippleEffect.new K color S 1 L).updateN neighbors 1).activeKeys_.find k = none)
      ∧ (∀ n ∈ neighbors K, n ≠ K →
        ((RippleEffect.new K color S 1 L).updateN neighbors 2).activeKeys_.find n
          = some ⟨State.Ignited, 0⟩)
      ∧ (∀ n ∈ neighbors K, ∀ m ∈ neighbors n, m ≠ K → m ∉ neighbors K →
        ((RippleEffect.new K color S 1 L).updateN neighbors 4).activeKeys_.find m
          = some ⟨State.Ignited, 0⟩) := by
  have hwf := RippleEffect.WF_new K color S 1 L
  have hSpos : S > 0 := by omega
  have hstep : (RippleEffect.new K color S 1 L).stepDuration_ = S := by
    simp [RippleEffect.new, hSpos]
  have hdelay : (RippleEffect.new K color S 1 L).propagationDelay_ = 1 := by
    simp [RippleEffect.new]
  have hlived : (RippleEffect.new K color S 1 L).framesLived_ = 0 := rfl
  have hmax : (RippleEffect.new K color S 1 L).maxLifetime_ = L := rfl
  have f0 : ∀ k, ((RippleEffect.new K color S 1 L).updateN neighbors 0).activeKeys_.find k
      = if K = k then some ⟨State.Ignited, 0⟩ else none := by
    intro k
    simp [RippleEffect.updateN, RippleEffect.new, KeyMap.assign, KeyMap.find]
  have tr0 : RippleEffect.transition S ⟨State.Ignited, 0⟩ = some ⟨State.Ignited, 1⟩ := by
    have hlt : ¬ ((0 : Int) + 1 ≥ S) := by omega
    unfold RippleEffect.transition
    rw [if_neg hlt]
    rfl
  -- after one call
  have f1K : ((RippleEffect.new K color S 1 L).updateN neighbors 1).activeKeys_.find K
      = some ⟨State.Ignited, 1⟩ := by
    rw [RippleEffect.find_updateN_succ_active neighbors _ hwf 0 (by rw [hlived, hmax]; omega) K
      ⟨State.Ignited, 0⟩ (by rw [f0]; simp), hstep, tr0]
  have f1 : ∀ k, k ≠ K →
      ((RippleEffect.new K color S 1 L).updateN neighbors 1).activeKeys_.find k = none := by
    intro k hk
    apply RippleEffect.find_updateN_succ_unclaimed neighbors _ hwf 0 k
    · rw [f0]; simp [Ne.symm hk]
    · intro j c hj hc
      rw [f0] at hj
      by_cases hjK : K = j
      · simp [hjK] at hj
        rw [hdelay] at hc
        omega
      · simp [hjK] at hj
  -- after two calls
  have f2in : ∀ k, k ≠ K → k ∈ neighbors K →
      ((RippleEffect.new K color S 1 L).updateN neighbors 2).activeKeys_.find k
        = some ⟨State.Ignited, 0⟩ := by
    intro k hk hmem
    exact RippleEffect.find_updateN_succ_claimed neighbors _ 1 (by rw [hlived, hmax]; omega) k
      (f1 k hk) K 1 f1K (by rw [hdelay]) hmem
  have f2out : ∀ k, k ≠ K → k ∉ neighbors K →
      ((RippleEffect.new K color S 1 L).updateN neighbors 2).activeKeys_.find k = none := by
    intro k hk hmem
    apply RippleEffect.find_updateN_succ_unclaimed neighbors _ hwf 1 k (f1 k hk)
    intro j c hj _
    by_cases hjK : j = K
    · rw [hjK]; exact hmem
    · rw [f1 j hjK] at hj
      simp at hj
  -- after three calls
  have f3in : ∀ k, k ≠ K → k ∈ neighbors K →
      ((RippleEffect.new K color S 1 L).updateN neighbors 3).activeKeys_.find k
        = some ⟨State.Ignited, 1⟩ := by
    intro k hk hmem
    rw [RippleEffect.find_updateN_succ_active neighbors _ hwf 2 (by rw [hlived, hmax]; omega) k
      ⟨State.Ignited, 0⟩ (f2in k hk hmem), hstep, tr0]
  have f3out : ∀ k, k ≠ K → k ∉ neighbors K →
      ((RippleEffect.new K color S 1 L).updateN neighbors 3).activeKeys_.find k = none := by
    intro k hk hmem
    apply RippleEffect.find_updateN_succ_unclaimed neighbors _ hwf 2 k (f2out k hk hmem)
    intro j c hj hc
    by_cases hjK : j = K
    · rw [hjK]; exact hmem
    · by_cases hjn : j ∈ neighbors K
      · rw [f2in j hjK hjn] at hj
        rw [hdelay] at hc
        simp only [Option.some.injEq, KeyState.mk.injEq, true_and] at hj
        omega
      · rw [f2out j hjK hjn] at hj
        simp at hj
  -- after four calls
  refine ⟨f1, fun n hn hnK => f2in n hnK hn, ?_⟩
  intro n hn m hm hmK hmn
  have hnK : n ≠ K := by
    intro h
    rw [h] at hm
    exact hmn hm
  exact RippleEffect.find_updateN_succ_claimed neighbors _ 3 (by rw [hlived, hmax]; omega) m
    (f3out m hmK hmn) n 1 (f3in n hnK hn) (by rw [hdelay]) hm

/-- Witness for the amended C4 on the row of three keys: key 1 is `Ignited`
after two calls of update and key 2 after four. -/
theorem RippleEffect.ripple_radius_growth_witness :
    (Example.ripple.updateN Example.rowNeighbors 2).activeKeys_.find 1
        = some ⟨State.Ignited, 0⟩
      ∧ (Example.ripple.updateN Example.rowNeighbors 4).activeKeys_.find 2
        = some ⟨State.Ignited, 0⟩ :=
  ⟨(RippleEffect.ripple_radius_growth Example.rowNeighbors 0 (Color.new 255 0 0) 2 100
      (by decide) (by decide)).2.1 1 (by decide) (by decide),
    (RippleEffect.ripple_radius_growth Example.rowNeighbors 0 (Color.new 255 0 0) 2 100
      (by decide) (by decide)).2.2 1 (by decide) 2 (by decide) (by decide) (by decide)⟩

/-- C5. Lifetime: after exactly `t` calls of `update` on an instance constructed
with max lifetime `L`, of any sign, `isFinished` holds if and only if `t ≥ L`,
whatever the key graph, the seed and the other parameters, hence whatever the
active set holds. -/
theorem RippleEffect.isFinished_after_updates (neighbors : Nat → List Nat) (startKey : Nat)
    (color : Color) (stepDuration propagationDelay L : Int) (t : Nat) :
    ((RippleEffect.new startKey color stepDuration propagationDelay L).updateN neighbors
        t).isFinished = true ↔ (t : Int) ≥ L := by
  obtain ⟨_, _, _, h4, h5⟩ := RippleEffect.updateN_fields neighbors
    (RippleEffect.new startKey color stepDuration propagationDelay L) t
  simp only [RippleEffect.isFinished, h4, h5, decide_eq_true_eq]
  simp [RippleEffect.new]

/-- C6. A finished instance is black: in every state in which `isFinished`
holds, `getColorForKey` returns `(0, 0, 0)` for every key. -/
theorem RippleEffect.getColorForKey_of_isFinished (e : RippleEffect) (key : Nat)
    (hfin : e.isFinished = true) : e.getColorForKey key = Color.new 0 0 0 := by
  unfold RippleEffect.getColorForKey
  rw [if_pos hfin]

/-- Witness for C6: an instance constructed with max lifetime 0 is finished
before any update, and its seed key is black. -/
theorem RippleEffect.getColorForKey_of_isFinished_witness :
    Example.stillborn.isFinished = true
      ∧ Example.stillborn.getColorForKey 0 = Color.new 0 0 0 :=
  ⟨by decide, RippleEffect.getColorForKey_of_isFinished Example.stillborn 0 (by decide)⟩

/-! ## The compositor: rendering -/

theorem Color.add_red (a b : Color) : (a.add b).red_ = min 255 (a.red_ + b.red_) := by
  have h1 := a.red_range
  have h2 := b.red_range
  simp only [Color.add, Color.new, Color.clamp]
  omega

theorem Color.add_green (a b : Color) : (a.add b).green_ = min 255 (a.green_ + b.green_) := by
  have h1 := a.green_range
  have h2 := b.green_range
  simp only [Color.add, Color.new, Color.clamp]
  omega

theorem Color.add_blue (a b : Color) : (a.add b).blue_ = min 255 (a.blue_ + b.blue_) := by
  have h1 := a.blue_range
  have h2 := b.blue_range
  simp only [Color.add, Color.new, Color.clamp]
  omega

theorem Color.sum_red_nonneg (cs : List Color) : 0 ≤ (cs.map Color.red_).sum := by
  induction cs with
  | nil => simp
  | cons c rest ih =>
    have := c.red_range
    simp only [List.map_cons, List.sum_cons]
    omega

theorem Color.sum_green_nonneg (cs : List Color) : 0 ≤ (cs.map Color.green_).sum := by
  induction cs with
  | nil => simp
  | cons c rest ih =>
    have := c.green_range
    simp only [List.map_cons, List.sum_cons]
    omega

theorem Color.sum_blue_nonneg (cs : List Color) : 0 ≤ (cs.map Color.blue_).sum := by
  induction cs with
  | nil => simp
  | cons c rest ih =>
    have := c.blue_range
    simp only [List.map_cons, List.sum_cons]
    omega

/-- Blending a list of colours onto an accumulator, one `add` after the other:
every channel is the sum of the channels, capped at 255. -/
theorem Color.foldl_add (cs : List Color) (acc : Color) :
    (cs.foldl Color.add acc).red_ = min 255 (acc.red_ + (cs.map Color.red_).sum)
      ∧ (cs.foldl Color.add acc).green_ = min 255 (acc.green_ + (cs.map Color.green_).sum)
      ∧ (cs.foldl Color.add acc).blue_ = min 255 (acc.blue_ + (cs.map Color.blue_).sum) := by
  induction cs generalizing acc with
  | nil =>
    have h1 := acc.red_range
    have h2 := acc.green_range
    have h3 := acc.blue_range
    simp only [List.foldl_nil, List.map_nil, List.sum_nil]
    omega
  | cons c rest ih =>
    obtain ⟨i1, i2, i3⟩ := ih (acc.add c)
    have s1 := Color.sum_red_nonneg rest
    have s2 := Color.sum_green_nonneg rest
    have s3 := Color.sum_blue_nonneg rest
    simp only [List.foldl_cons, List.map_cons, List.sum_cons]
    rw [i1, i2, i3, Color.add_red, Color.add_green, Color.add_blue]
    omega

theorem List.set_getD_self_of_lt {α : Type} (l : List α) (i : Nat) (d : α) (hi : i < l.length) :
    l.set i (l.getD i d) = l := by
  apply List.ext_getElem?
  intro j
  rw [List.getElem?_set]
  by_cases hij : i = j
  · subst hij
    simp [hi, List.getElem?_eq_getElem hi]
  · simp [hij]

/-- The inner loop of the rendering for key `i` replaces entry `i` of the
buffer by the blend of the colours of all effects onto it. -/
theorem LightingManager.renderKey_eq (pool : EffectPool) (effects : List Nat) (i : Nat)
    (fb : List Color) (hi : i < fb.length) :
    LightingManager.renderKey pool effects i fb
      = fb.set i ((effects.map (fun effect => pool.getColorForKeyAt effect i)).foldl Color.add
          (fb.getD i (Color.new 0 0 0))) := by
  induction effects generalizing fb with
  | nil =>
    simp only [LightingManager.renderKey, List.foldl_nil, List.map_nil]
    exact (List.set_getD_self_of_lt fb i _ hi).symm
  | cons effect rest ih =>
    have hlen : i < (fb.set i ((fb.getD i (Color.new 0 0 0)).add
        (pool.getColorForKeyAt effect i))).length := by
      rw [List.length_set]; exact hi
    have hstep : LightingManager.renderKey pool (effect :: rest) i fb
        = LightingManager.renderKey pool rest i
            (fb.set i ((fb.getD i (Color.new 0 0 0)).add (pool.getColorForKeyAt effect i))) := rfl
    rw [hstep, ih _ hlen, List.set_set]
    congr 1
    simp only [List.map_cons, List.foldl_cons]
    congr 1
    simp [List.getElem?_set, hi]

/-- The rendering loop over the first `n` keys of a buffer. -/
theorem LightingManager.render_loop (pool : EffectPool) (effects : List Nat) (fb : List Color)
    (n : Nat) (hn : n ≤ fb.length) :
    ((List.range n).foldl (fun fb i => LightingManager.renderKey pool effects i fb) fb).length
        = fb.length
      ∧ ∀ j, ((List.range n).foldl (fun fb i => LightingManager.renderKey pool effects i fb) fb)[j]?
        = if j < n then
            some ((effects.map (fun effect => pool.getColorForKeyAt effect j)).foldl Color.add
              (fb.getD j (Color.new 0 0 0)))
          else fb[j]? := by
  induction n with
  | zero => simp
  | succ n ih =>
    obtain ⟨hlen, hget⟩ := ih (Nat.le_of_succ_le hn)
    have hn' : n < fb.length := hn
    rw [List.range_succ, List.foldl_append, List.foldl_cons, List.foldl_nil]
    rw [LightingManager.renderKey_eq pool effects n _ (by rw [hlen]; exact hn')]
    refine ⟨by rw [List.length_set, hlen], ?_⟩
    intro j
    rw [List.getElem?_set, hlen]
    by_cases hj : n = j
    · subst hj
      have h1 := hget n
      simp only [Nat.lt_irrefl, if_false] at h1
      simp only [List.getD_eq_getElem?_getD, h1, hn', if_true, Nat.lt_succ_self]
    · rw [if_neg hj, hget j]
      by_cases hlt : j < n
      · simp [hlt, Nat.lt_succ_of_lt hlt]
      · have : ¬ j < n + 1 := by omega
        simp [hlt, this]

theorem LightingManager.render_spec (pool : EffectPool) (effects : List Nat) (size : Nat) :
    (LightingManager.render pool effects size).length = size
      ∧ ∀ j, j < size → (LightingManager.render pool effects size)[j]?
        = some ((effects.map (fun effect => pool.getColorForKeyAt effect j)).foldl Color.add
            (Color.new 0 0 0)) := by
  obtain ⟨hlen, hget⟩ := LightingManager.render_loop pool effects
    (List.replicate size (Color.new 0 0 0)) size (by simp)
  refine ⟨by simpa [LightingManager.render] using hlen, ?_⟩
  intro j hj
  have h := hget j
  rw [if_pos hj] at h
  simp only [LightingManager.render]
  rw [h]
  simp [List.getElem?_replicate, hj]

/-- C7. Compositor frame: after `LightingManager::update` on a manager with a
keyboard attached, the frame buffer has one entry per key; for every key index
`i` every channel of entry `i` is the sum, capped at 255, of that channel of
`getColorForKey(keys[i])` over the effects that survive the tick; the buffer
does not depend on its previous contents; and it is black for every key when
no effect survives. -/
theorem LightingManager.update_frameBuffer (m : LightingManager) (kb : Keyboard)
    (hkb : m.keyboard_ = some kb) :
    m.update.getFrameBuffer.length = kb.getKeys.length
      ∧ (∀ i, i < kb.getKeys.length → ∃ c, m.update.getFrameBuffer[i]? = some c
          ∧ c.red_ = min 255 ((m.update.activeEffects_.map
              (fun effect => (m.update.effectPool_.getColorForKeyAt effect i).red_)).sum)
          ∧ c.green_ = min 255 ((m.update.activeEffects_.map
              (fun effect => (m.update.effectPool_.getColorForKeyAt effect i).green_)).sum)
          ∧ c.blue_ = min 255 ((m.update.activeEffects_.map
              (fun effect => (m.update.effectPool_.getColorForKeyAt effect i).blue_)).sum))
      ∧ (∀ previous : List Color,
          (LightingManager.update { m with frameBuffer_ := previous }).getFrameBuffer
            = m.update.getFrameBuffer)
      ∧ (m.update.activeEffects_ = [] → ∀ i, i < kb.getKeys.length →
          m.update.getFrameBuffer[i]? = some (Color.new 0 0 0)) := by
  have hfb : m.update.getFrameBuffer
      = LightingManager.render m.update.effectPool_ m.update.activeEffects_ kb.getKeys.length := by
    simp only [LightingManager.update, LightingManager.getFrameBuffer, hkb]
  obtain ⟨hlen, hget⟩ := LightingManager.render_spec m.update.effectPool_ m.update.activeEffects_
    kb.getKeys.length
  refine ⟨by rw [hfb, hlen], ?_, ?_, ?_⟩
  · intro i hi
    refine ⟨_, by rw [hfb]; exact hget i hi, ?_⟩
    obtain ⟨h1, h2, h3⟩ := Color.foldl_add
      (m.update.activeEffects_.map (fun effect => m.update.effectPool_.getColorForKeyAt effect i))
      (Color.new 0 0 0)
    rw [h1, h2, h3]
    simp only [List.map_map]
    refine ⟨?_, ?_, ?_⟩ <;> simp [Color.new, Color.clamp, Function.comp_def]
  · intro previous
    simp only [LightingManager.update, LightingManager.getFrameBuffer, hkb]
  · intro hnone i hi
    rw [hfb, hget i hi, hnone]
    rfl

/-- Witness for C7: the manager with two ripples on the row of three keys. -/
theorem LightingManager.update_frameBuffer_witness :
    Example.twoRipples.update.keyboard_ = some Example.rowKeyboard
      ∧ Example.twoRipples.update.update.getFrameBuffer.length
        = Example.rowKeyboard.getKeys.length :=
  ⟨by decide,
    (LightingManager.update_frameBuffer Example.twoRipples.update Example.rowKeyboard
      (by decide)).1⟩

/-! ## The effect pool -/

theorem EffectPool.create_none_iff (p : EffectPool) (startKey : Nat) (color : Color)
    (stepDuration propagationDelay maxLifetime : Int) :
    (p.create startKey color stepDuration propagationDelay maxLifetime).1 = none
      ↔ p.freeSlots_ = [] := by
  unfold EffectPool.create
  cases h : p.freeSlots_.getLast? with
  | none => simpa using List.getLast?_eq_none_iff.mp h
  | some slot =>
    have hne : p.freeSlots_ ≠ [] := by
      intro hnil
      rw [hnil] at h
      simp at h
    simp [hne]

theorem EffectPool.create_of_nil (p : EffectPool) (startKey : Nat) (color : Color)
    (stepDuration propagationDelay maxLifetime : Int) (hfree : p.freeSlots_ = []) :
    p.create startKey color stepDuration propagationDelay maxLifetime = (none, p) := by
  unfold EffectPool.create
  rw [hfree]
  rfl

theorem EffectPool.create_of_ne_nil (p : EffectPool) (startKey : Nat) (color : Color)
    (stepDuration propagationDelay maxLifetime : Int) (hfree : p.freeSlots_ ≠ []) :
    ∃ slot, (p.create startKey color stepDuration propagationDelay maxLifetime).1 = some slot
      ∧ p.freeSlots_
          = (p.create startKey color stepDuration propagationDelay maxLifetime).2.freeSlots_
            ++ [slot]
      ∧ (p.create startKey color stepDuration propagationDelay maxLifetime).2.deref slot
          = (if slot < p.memoryPool_.length then
              some (RippleEffect.new startKey color stepDuration propagationDelay maxLifetime)
            else none)
      ∧ (p.create startKey color stepDuration propagationDelay maxLifetime).2.memoryPool_
          = p.memoryPool_.set slot
              (some (RippleEffect.new startKey color stepDuration propagationDelay maxLifetime)) := by
  unfold EffectPool.create
  cases h : p.freeSlots_.getLast? with
  | none => exact absurd (List.getLast?_eq_none_iff.mp h) hfree
  | some slot =>
    refine ⟨slot, rfl, ?_, ?_, rfl⟩
    · have h1 := List.dropLast_append_getLast? slot h
      exact h1.symm
    · simp only [EffectPool.deref, List.getD_eq_getElem?_getD, List.getElem?_set, if_true]
      by_cases hlt : slot < p.memoryPool_.length <;> simp [hlt]

theorem EffectPool.createAll_results
    (requests : List (Nat × Color × Int × Int × Int)) (p : EffectPool) :
    (p.createAll requests).1.length = requests.length
      ∧ ∀ i, i < requests.length →
          (i < p.freeSlots_.length → ∃ slot, (p.createAll requests).1[i]? = some (some slot))
            ∧ (p.freeSlots_.length ≤ i → (p.createAll requests).1[i]? = some none) := by
  induction requests generalizing p with
  | nil => simp [EffectPool.createAll]
  | cons request rest ih =>
    obtain ⟨startKey, color, stepDuration, propagationDelay, maxLifetime⟩ := request
    obtain ⟨hlen, hres⟩ :=
      ih (p.create startKey color stepDuration propagationDelay maxLifetime).2
    refine ⟨by simp [EffectPool.createAll, hlen], ?_⟩
    intro i hi
    by_cases hfree : p.freeSlots_ = []
    · have hc := EffectPool.create_of_nil p startKey color stepDuration propagationDelay
        maxLifetime hfree
      rw [hc] at hres
      cases i with
      | zero =>
        simp [EffectPool.createAll, hc, hfree]
      | succ i =>
        have hi' : i < rest.length := by simpa using hi
        have h2 := (hres i hi').2 (by rw [hfree]; simp)
        simp [EffectPool.createAll, hc, hfree, h2]
    · obtain ⟨slot, hslot, hfs, _, _⟩ := EffectPool.create_of_ne_nil p startKey color stepDuration
        propagationDelay maxLifetime hfree
      have hlenfs : p.freeSlots_.length
          = (p.create startKey color stepDuration propagationDelay maxLifetime).2.freeSlots_.length
            + 1 := by
        conv_lhs => rw [hfs]
        simp
      cases i with
      | zero =>
        constructor
        · intro _
          exact ⟨slot, by simp [EffectPool.createAll, hslot]⟩
        · intro hle
          omega
      | succ i =>
        have hi' : i < rest.length := by simpa using hi
        obtain ⟨h1, h2⟩ := hres i hi'
        constructor
        · intro hlt
          obtain ⟨s, hs⟩ := h1 (by omega)
          exact ⟨s, by simpa [EffectPool.createAll] using hs⟩
        · intro hle
          have := h2 (by omega)
          simpa [EffectPool.createAll] using this

/-- C8. Arena capacity: `EffectPool::create` returns null if and only if the
free list is empty, and otherwise it takes exactly one slot, the returned one,
off the free list. Starting from a freshly constructed pool, with no `destroy`
in between, the first `MAX_ACTIVE_EFFECTS = 20` creations succeed and the next
one returns null, whatever the arguments. -/
theorem EffectPool.create_capacity (p : EffectPool) (startKey : Nat) (color : Color)
    (stepDuration propagationDelay maxLifetime : Int)
    (requests : List (Nat × Color × Int × Int × Int)) :
    ((p.create startKey color stepDuration propagationDelay maxLifetime).1 = none
        ↔ p.freeSlots_ = [])
      ∧ (p.freeSlots_ ≠ [] →
          ∃ slot, (p.create startKey color stepDuration propagationDelay maxLifetime).1 = some slot
            ∧ p.freeSlots_
              = (p.create startKey color stepDuration propagationDelay maxLifetime).2.freeSlots_
                ++ [slot])
      ∧ MAX_ACTIVE_EFFECTS = 20
      ∧ (requests.length = MAX_ACTIVE_EFFECTS + 1 →
          (∀ i, i < MAX_ACTIVE_EFFECTS →
              ∃ slot, (EffectPool.new.createAll requests).1[i]? = some (some slot))
            ∧ (EffectPool.new.createAll requests).1[MAX_ACTIVE_EFFECTS]? = some none) := by
  refine ⟨EffectPool.create_none_iff p _ _ _ _ _, ?_, rfl, ?_⟩
  · intro hfree
    obtain ⟨slot, h1, h2, _, _⟩ := EffectPool.create_of_ne_nil p startKey color stepDuration
      propagationDelay maxLifetime hfree
    exact ⟨slot, h1, h2⟩
  · intro hlen
    obtain ⟨_, hres⟩ := EffectPool.createAll_results requests EffectPool.new
    have hfree : EffectPool.new.freeSlots_.length = MAX_ACTIVE_EFFECTS := by
      simp [EffectPool.new]
    constructor
    · intro i hi
      exact (hres i (by omega)).1 (by omega)
    · exact (hres MAX_ACTIVE_EFFECTS (by omega)).2 (by omega)

/-- Witness for C8: on a fresh pool the first creation succeeds, and of 21
creations the last one returns null. -/
theorem EffectPool.create_capacity_witness :
    (∃ slot, (EffectPool.new.create 0 (Color.new 255 0 0) 4 2 20).1 = some slot
        ∧ EffectPool.new.freeSlots_
          = (EffectPool.new.create 0 (Color.new 255 0 0) 4 2 20).2.freeSlots_ ++ [slot])
      ∧ (EffectPool.new.createAll
          (List.replicate (MAX_ACTIVE_EFFECTS + 1) (0, Color.new 255 0 0, 4, 2, 20))
        ).1[MAX_ACTIVE_EFFECTS]? = some none :=
  ⟨(EffectPool.create_capacity EffectPool.new 0 (Color.new 255 0 0) 4 2 20
      (List.replicate (MAX_ACTIVE_EFFECTS + 1) (0, Color.new 255 0 0, 4, 2, 20))).2.1
      (by decide),
    ((EffectPool.create_capacity EffectPool.new 0 (Color.new 255 0 0) 4 2 20
      (List.replicate (MAX_ACTIVE_EFFECTS + 1) (0, Color.new 255 0 0, 4, 2, 20))).2.2.2
      (by decide)).2⟩

/-- C9. Capacity exhaustion is a silent no-op: on a manager whose pool has no
free slot, `addRippleEffect` returns the manager as it was, for all arguments:
the list of live effects, the free list of the pool, the memory of the pool and
the frame buffer are all unchanged. -/
theorem LightingManager.addRippleEffect_of_full (m : LightingManager) (startKey : Nat)
    (color : Color) (stepDuration propagationDelay maxLifetime : Int)
    (hfull : m.effectPool_.freeSlots_ = []) :
    m.addRippleEffect startKey color stepDuration propagationDelay maxLifetime = m := by
  unfold LightingManager.addRippleEffect
  rw [EffectPool.create_of_nil m.effectPool_ startKey color stepDuration propagationDelay
    maxLifetime hfull]

/-- Witness for C9: after `MAX_ACTIVE_EFFECTS` requests the pool has no free
slot and one more request changes nothing. -/
theorem LightingManager.addRippleEffect_of_full_witness :
    Example.fullManager.effectPool_.freeSlots_ = []
      ∧ Example.fullManager.addRippleEffect 1 (Color.new 0 255 0) 3 1 50
        = Example.fullManager :=
  ⟨by decide,
    LightingManager.addRippleEffect_of_full Example.fullManager 1 (Color.new 0 255 0) 3 1 50
      (by decide)⟩

/-! ## The compositor: ticking and retiring -/

theorem EffectPool.deref_updateAt (neighbors : Nat → List Nat) (p : EffectPool)
    (effect other : Nat) :
    (p.updateAt neighbors effect).deref other
      = if other = effect then (p.deref effect).map (RippleEffect.update neighbors)
        else p.deref other := by
  unfold EffectPool.updateAt
  cases h : p.deref effect with
  | none =>
    by_cases ho : other = effect
    · simp [ho, h]
    · simp [ho]
  | some e =>
    have hlt : effect < p.memoryPool_.length := by
      by_contra hge
      have : p.memoryPool_[effect]? = none := List.getElem?_eq_none (by omega)
      simp [EffectPool.deref, this] at h
    by_cases ho : other = effect
    · subst ho
      simp [EffectPool.deref, List.getElem?_set, hlt]
    · simp [EffectPool.deref, List.getElem?_set, ho, Ne.symm ho]

theorem EffectPool.freeSlots_updateAt (neighbors : Nat → List Nat) (p : EffectPool)
    (effect : Nat) : (p.updateAt neighbors effect).freeSlots_ = p.freeSlots_ := by
  unfold EffectPool.updateAt
  split <;> rfl

theorem LightingManager.freeSlots_tickAll (neighbors : Nat → List Nat) (effects : List Nat)
    (pool : EffectPool) :
    (LightingManager.tickAll neighbors effects pool).freeSlots_ = pool.freeSlots_ := by
  unfold LightingManager.tickAll
  induction effects generalizing pool with
  | nil => rfl
  | cons effect rest ih =>
    rw [List.foldl_cons, ih, EffectPool.freeSlots_updateAt]

/-- Step 1 of the compositor on pairwise distinct pointers: every effect of the
list is updated once, and no other slot changes. -/
theorem LightingManager.deref_tickAll (neighbors : Nat → List Nat) (effects : List Nat)
    (pool : EffectPool) (hnodup : effects.Nodup) (other : Nat) :
    (LightingManager.tickAll neighbors effects pool).deref other
      = if other ∈ effects then (pool.deref other).map (RippleEffect.update neighbors)
        else pool.deref other := by
  unfold LightingManager.tickAll
  induction effects generalizing pool with
  | nil => simp
  | cons effect rest ih =>
    obtain ⟨hnotin, hrest⟩ := List.nodup_cons.mp hnodup
    rw [List.foldl_cons, ih _ hrest, EffectPool.deref_updateAt]
    by_cases ho : other = effect
    · subst ho
      simp [hnotin]
    · simp [ho]

theorem EffectPool.deref_destroy (p : EffectPool) (effect other : Nat) :
    (p.destroy (some effect)).deref other
      = if other = effect then none else p.deref other := by
  simp only [EffectPool.destroy, EffectPool.deref, List.getD_eq_getElem?_getD,
    List.getElem?_set]
  by_cases ho : other = effect
  · subst ho
    by_cases hlt : other < p.memoryPool_.length <;> simp [hlt]
  · simp [ho, Ne.symm ho]

theorem EffectPool.isFinishedAt_destroy (p : EffectPool) (effect other : Nat)
    (hne : other ≠ effect) :
    (p.destroy (some effect)).isFinishedAt other = p.isFinishedAt other := by
  unfold EffectPool.isFinishedAt
  rw [EffectPool.deref_destroy, if_neg hne]

/-- Step 2 of the compositor on pairwise distinct pointers: the vector that is
left holds the effects that are not finished, in their order; the finished
ones are pushed onto the free list, in their order, and their slots hold no
object any more; no other slot changes. -/
theorem LightingManager.retire_spec (effects : List Nat) (pool : EffectPool)
    (hnodup : effects.Nodup) :
    (LightingManager.retire effects pool).1
        = effects.filter (fun effect => !pool.isFinishedAt effect)
      ∧ (LightingManager.retire effects pool).2.freeSlots_
        = pool.freeSlots_ ++ effects.filter (fun effect => pool.isFinishedAt effect)
      ∧ ∀ other, (LightingManager.retire effects pool).2.deref other
        = if other ∈ effects ∧ pool.isFinishedAt other = true then none
          else pool.deref other := by
  induction effects generalizing pool with
  | nil => simp [LightingManager.retire]
  | cons effect rest ih =>
    obtain ⟨hnotin, hrest⟩ := List.nodup_cons.mp hnodup
    by_cases hfin : pool.isFinishedAt effect = true
    · obtain ⟨h1, h2, h3⟩ := ih (pool.destroy (some effect)) hrest
      have hcongr : ∀ x ∈ rest,
          (pool.destroy (some effect)).isFinishedAt x = pool.isFinishedAt x := by
        intro x hx
        apply EffectPool.isFinishedAt_destroy
        intro hxe
        rw [hxe] at hx
        exact hnotin hx
      have hf1 : rest.filter (fun x => !(pool.destroy (some effect)).isFinishedAt x)
          = rest.filter (fun x => !pool.isFinishedAt x) :=
        List.filter_congr (fun x hx => by rw [hcongr x hx])
      have hf2 : rest.filter (fun x => (pool.destroy (some effect)).isFinishedAt x)
          = rest.filter (fun x => pool.isFinishedAt x) :=
        List.filter_congr (fun x hx => by rw [hcongr x hx])
      simp only [LightingManager.retire, hfin, if_true]
      refine ⟨?_, ?_, ?_⟩
      · rw [h1, hf1]
        simp [hfin]
      · rw [h2, hf2]
        simp [EffectPool.destroy, hfin]
      · intro other
        rw [h3 other, EffectPool.deref_destroy]
        by_cases ho : other = effect
        · subst ho
          simp [hfin]
        · by_cases hmem : other ∈ rest
          · simp [ho, hmem, hcongr other hmem]
          · simp [ho, hmem]
    · obtain ⟨h1, h2, h3⟩ := ih pool hrest
      have hfin' : pool.isFinishedAt effect = false := by simpa using hfin
      simp only [LightingManager.retire, hfin', Bool.false_eq_true, if_false]
      refine ⟨?_, ?_, ?_⟩
      · rw [h1]
        simp [hfin']
      · rw [h2]
        simp [hfin']
      · intro other
        rw [h3 other]
        by_cases ho : other = effect
        · subst ho
          simp [hfin', hnotin]
        · simp [ho]

theorem LightingManager.isFinishedAt_tickAll (neighbors : Nat → List Nat) (effects : List Nat)
    (pool : EffectPool) (hnodup : effects.Nodup) (effect : Nat) (hmem : effect ∈ effects) :
    (LightingManager.tickAll neighbors effects pool).isFinishedAt effect
      = pool.finishedAfterTick neighbors effect := by
  unfold EffectPool.finishedAfterTick EffectPool.isFinishedAt
  rw [LightingManager.deref_tickAll neighbors effects pool hnodup, if_pos hmem,
    EffectPool.deref_updateAt, if_pos rfl]

/-- Counterexample to C10 as stated: on a manager constructed with a null
keyboard, update returns at once; the ripple of max lifetime 0 is finished and
stays in the list of live effects, and its slot is not on the free list. -/
theorem LightingManager.update_retirement_counterexample :
    Example.unattached.keyboard_ = none
      ∧ Example.unattached.activeEffects_ = [19]
      ∧ Example.unattached.update.activeEffects_ = [19]
      ∧ Example.unattached.update.effectPool_.isFinishedAt 19 = true
      ∧ 19 ∉ Example.unattached.update.effectPool_.freeSlots_ := by
  decide

/-- C10 (amended). Retirement in `LightingManager::update` on a manager with a
keyboard attached, whose live pointers are pairwise distinct and point to
constructed effects: after the call the list of live effects is the
sub-sequence of the previous list, in its order, of the effects that are not
finished once ticked; every live effect is the ticked object and is not
finished; and the slots of the removed effects, and only those, are appended to
the free list of the pool, each exactly once. -/
theorem LightingManager.update_retirement (m : LightingManager) (kb : Keyboard)
    (hkb : m.keyboard_ = some kb) (hnodup : m.activeEffects_.Nodup)
    (hlive : ∀ effect ∈ m.activeEffects_, (m.effectPool_.deref effect).isSome = true) :
    m.update.activeEffects_
        = m.activeEffects_.filter
            (fun effect => !m.effectPool_.finishedAfterTick kb.neighborsOf effect)
      ∧ (∀ effect ∈ m.update.activeEffects_,
          ∃ e, m.effectPool_.deref effect = some e
            ∧ m.update.effectPool_.deref effect = some (e.update kb.neighborsOf)
            ∧ (e.update kb.neighborsOf).isFinished = false)
      ∧ m.update.effectPool_.freeSlots_
        = m.effectPool_.freeSlots_
          ++ m.activeEffects_.filter
              (fun effect => m.effectPool_.finishedAfterTick kb.neighborsOf effect)
      ∧ (∀ effect ∈ m.activeEffects_, effect ∉ m.update.activeEffects_ →
          List.count effect m.update.effectPool_.freeSlots_
            = List.count effect m.effectPool_.freeSlots_ + 1)
      ∧ (∀ effect, effect ∈ m.update.activeEffects_ ∨ effect ∉ m.activeEffects_ →
          List.count effect m.update.effectPool_.freeSlots_
            = List.count effect m.effectPool_.freeSlots_) := by
  obtain ⟨r1, r2, r3⟩ := LightingManager.retire_spec m.activeEffects_
    (LightingManager.tickAll kb.neighborsOf m.activeEffects_ m.effectPool_) hnodup
  have hact : m.update.activeEffects_ = (LightingManager.retire m.activeEffects_
      (LightingManager.tickAll kb.neighborsOf m.activeEffects_ m.effectPool_)).1 := by
    simp only [LightingManager.update, hkb]
  have hpool : m.update.effectPool_ = (LightingManager.retire m.activeEffects_
      (LightingManager.tickAll kb.neighborsOf m.activeEffects_ m.effectPool_)).2 := by
    simp only [LightingManager.update, hkb]
  have hfin : ∀ effect ∈ m.activeEffects_,
      (LightingManager.tickAll kb.neighborsOf m.activeEffects_ m.effectPool_).isFinishedAt effect
        = m.effectPool_.finishedAfterTick kb.neighborsOf effect :=
    fun effect hmem => LightingManager.isFinishedAt_tickAll kb.neighborsOf m.activeEffects_
      m.effectPool_ hnodup effect hmem
  have hkeep : m.update.activeEffects_
      = m.activeEffects_.filter
          (fun effect => !m.effectPool_.finishedAfterTick kb.neighborsOf effect) := by
    rw [hact, r1]
    exact List.filter_congr (fun x hx => by rw [hfin x hx])
  have hfree : m.update.effectPool_.freeSlots_
      = m.effectPool_.freeSlots_
        ++ m.activeEffects_.filter
            (fun effect => m.effectPool_.finishedAfterTick kb.neighborsOf effect) := by
    rw [hpool, r2, LightingManager.freeSlots_tickAll]
    congr 1
    exact List.filter_congr (fun x hx => by rw [hfin x hx])
  have hnd : (m.activeEffects_.filter
      (fun effect => m.effectPool_.finishedAfterTick kb.neighborsOf effect)).Nodup :=
    List.Nodup.filter _ hnodup
  refine ⟨hkeep, ?_, hfree, ?_, ?_⟩
  · intro effect hmem
    rw [hkeep, List.mem_filter] at hmem
    obtain ⟨hin, hnot⟩ := hmem
    have hnot' : m.effectPool_.finishedAfterTick kb.neighborsOf effect = false := by
      simpa using hnot
    have hsome := hlive effect hin
    cases hd : m.effectPool_.deref effect with
    | none => rw [hd] at hsome; simp at hsome
    | some e =>
      have htick : (LightingManager.tickAll kb.neighborsOf m.activeEffects_
          m.effectPool_).deref effect = some (e.update kb.neighborsOf) := by
        rw [LightingManager.deref_tickAll kb.neighborsOf m.activeEffects_ m.effectPool_ hnodup,
          if_pos hin, hd]
        rfl
      have hfe : (e.update kb.neighborsOf).isFinished = false := by
        have h1 := hfin effect hin
        rw [hnot'] at h1
        simpa [EffectPool.isFinishedAt, htick] using h1
      refine ⟨e, rfl, ?_, hfe⟩
      rw [hpool, r3 effect, hfin effect hin, hnot']
      simp [htick]
  · intro effect hin hout
    have hfinished : m.effectPool_.finishedAfterTick kb.neighborsOf effect = true := by
      by_contra hcon
      apply hout
      rw [hkeep, List.mem_filter]
      exact ⟨hin, by simpa using hcon⟩
    rw [hfree, List.count_append,
      List.count_eq_one_of_mem hnd (List.mem_filter.mpr ⟨hin, hfinished⟩)]
  · intro effect hcase
    have hnotmem : effect ∉ m.activeEffects_.filter
        (fun effect => m.effectPool_.finishedAfterTick kb.neighborsOf effect) := by
      intro hmem
      obtain ⟨hin, hfinished⟩ := List.mem_filter.mp hmem
      rcases hcase with hkept | hnotin
      · rw [hkeep, List.mem_filter] at hkept
        simp [hfinished] at hkept
      · exact hnotin hin
    rw [hfree, List.count_append, List.count_eq_zero_of_not_mem hnotmem, Nat.add_zero]

/-- Witness for the amended C10: the third update of the manager with two
ripples retires the ripple in slot 18 and keeps the one in slot 19. -/
theorem LightingManager.update_retirement_witness :
    Example.twoRipples.update.update.activeEffects_ = [19, 18]
      ∧ Example.twoRipples.update.update.update.activeEffects_
        = Example.twoRipples.update.update.activeEffects_.filter
            (fun effect => !Example.twoRipples.update.update.effectPool_.finishedAfterTick
              Example.rowKeyboard.neighborsOf effect)
      ∧ List.count 18 Example.twoRipples.update.update.update.effectPool_.freeSlots_
        = List.count 18 Example.twoRipples.update.update.effectPool_.freeSlots_ + 1 :=
  ⟨by decide,
    (LightingManager.update_retirement Example.twoRipples.update.update Example.rowKeyboard
      (by decide) (by decide) (by decide)).1,
    (LightingManager.update_retirement Example.twoRipples.update.update Example.rowKeyboard
      (by decide) (by decide) (by decide)).2.2.2.1 18 (by decide) (by decide)⟩

/-! ## Invariants of the compositor -/

/-- A property that every call preserves holds after every run. -/
theorem LightingManager.run_induction (P : LightingManager → Prop)
    (hcall : ∀ m c, P m → P (m.call c)) (m : LightingManager)
    (calls : List LightingManager.Call) (hm : P m) : P (m.run calls) := by
  unfold LightingManager.run
  induction calls generalizing m with
  | nil => exact hm
  | cons c rest ih =>
    rw [List.foldl_cons]
    exact ih _ (hcall m c hm)

theorem LightingManager.retire_length (effects : List Nat) (pool : EffectPool) :
    (LightingManager.retire effects pool).1.length
        + (LightingManager.retire effects pool).2.freeSlots_.length
      = effects.length + pool.freeSlots_.length := by
  induction effects generalizing pool with
  | nil => simp [LightingManager.retire]
  | cons effect rest ih =>
    by_cases hfin : pool.isFinishedAt effect = true
    · have h := ih (pool.destroy (some effect))
      simp only [LightingManager.retire, hfin, if_true]
      rw [h]
      simp [EffectPool.destroy]
      omega
    · have hfin' : pool.isFinishedAt effect = false := by simpa using hfin
      have h := ih pool
      simp only [LightingManager.retire, hfin', Bool.false_eq_true, if_false, List.length_cons]
      omega

theorem LightingManager.call_capacity (m : LightingManager) (c : LightingManager.Call)
    (hm : m.activeEffects_.length + m.effectPool_.freeSlots_.length = MAX_ACTIVE_EFFECTS) :
    (m.call c).activeEffects_.length + (m.call c).effectPool_.freeSlots_.length
      = MAX_ACTIVE_EFFECTS := by
  cases c with
  | addRippleEffect startKey color stepDuration propagationDelay maxLifetime =>
    simp only [LightingManager.call, LightingManager.addRippleEffect]
    by_cases hfree : m.effectPool_.freeSlots_ = []
    · rw [EffectPool.create_of_nil m.effectPool_ startKey color stepDuration propagationDelay
        maxLifetime hfree]
      exact hm
    · obtain ⟨slot, hslot, hfs, _, _⟩ := EffectPool.create_of_ne_nil m.effectPool_ startKey
        color stepDuration propagationDelay maxLifetime hfree
      have hlen : m.effectPool_.freeSlots_.length
          = (m.effectPool_.create startKey color stepDuration propagationDelay
              maxLifetime).2.freeSlots_.length + 1 := by
        conv_lhs => rw [hfs]
        simp
      rw [hslot]
      simp only [List.length_append, List.length_singleton]
      omega
  | update =>
    simp only [LightingManager.call]
    cases hkb : m.keyboard_ with
    | none =>
      have : m.update = m := by simp [LightingManager.update, hkb]
      rw [this]
      exact hm
    | some kb =>
      have h := LightingManager.retire_length m.activeEffects_
        (LightingManager.tickAll kb.neighborsOf m.activeEffects_ m.effectPool_)
      rw [LightingManager.freeSlots_tickAll] at h
      simp only [LightingManager.update, hkb]
      omega

/-- C11. Capacity invariant: in every state of a manager reached from its
construction by a sequence of `addRippleEffect` and `update` calls, the number
of live effects plus the number of slots on the free list of the pool is
`MAX_ACTIVE_EFFECTS = 20`; hence neither number exceeds 20. -/
theorem LightingManager.capacity_invariant (keyboard : Option Keyboard)
    (calls : List LightingManager.Call) :
    ((LightingManager.new keyboard).run calls).activeEffects_.length
        + ((LightingManager.new keyboard).run calls).effectPool_.freeSlots_.length
      = MAX_ACTIVE_EFFECTS
      ∧ MAX_ACTIVE_EFFECTS = 20
      ∧ ((LightingManager.new keyboard).run calls).activeEffects_.length ≤ 20
      ∧ ((LightingManager.new keyboard).run calls).effectPool_.freeSlots_.length ≤ 20 := by
  have h := LightingManager.run_induction
    (fun m => m.activeEffects_.length + m.effectPool_.freeSlots_.length = MAX_ACTIVE_EFFECTS)
    LightingManager.call_capacity (LightingManager.new keyboard) calls
    (by simp [LightingManager.new, EffectPool.new])
  have h20 : MAX_ACTIVE_EFFECTS = 20 := rfl
  simp only at h
  refine ⟨h, h20, ?_, ?_⟩ <;> omega

/-- Witness for C11: the manager with two ripples has 2 live effects and 18
free slots. -/
theorem LightingManager.capacity_invariant_witness :
    ((LightingManager.new (some Example.rowKeyboard)).run
        [LightingManager.Call.addRippleEffect 0 (Color.new 100 0 0) 2 1 5,
          LightingManager.Call.addRippleEffect 1 (Color.new 200 10 0) 2 1 3,
          LightingManager.Call.update]).activeEffects_.length ≤ 20 :=
  (LightingManager.capacity_invariant (some Example.rowKeyboard)
    [LightingManager.Call.addRippleEffect 0 (Color.new 100 0 0) 2 1 5,
      LightingManager.Call.addRippleEffect 1 (Color.new 200 10 0) 2 1 3,
      LightingManager.Call.update]).2.2.1

theorem EffectPool.lt_of_deref_isSome (p : EffectPool) (effect : Nat)
    (h : (p.deref effect).isSome = true) : effect < p.memoryPool_.length := by
  by_contra hge
  have hnone : p.memoryPool_[effect]? = none := List.getElem?_eq_none (by omega)
  simp [EffectPool.deref, hnone] at h

theorem EffectPool.length_updateAt (neighbors : Nat → List Nat) (p : EffectPool)
    (effect : Nat) :
    (p.updateAt neighbors effect).memoryPool_.length = p.memoryPool_.length := by
  unfold EffectPool.updateAt
  split
  · simp
  · rfl

theorem LightingManager.length_tickAll (neighbors : Nat → List Nat) (effects : List Nat)
    (pool : EffectPool) :
    (LightingManager.tickAll neighbors effects pool).memoryPool_.length
      = pool.memoryPool_.length := by
  unfold LightingManager.tickAll
  induction effects generalizing pool with
  | nil => rfl
  | cons effect rest ih =>
    rw [List.foldl_cons, ih, EffectPool.length_updateAt]

theorem LightingManager.length_retire (effects : List Nat) (pool : EffectPool) :
    (LightingManager.retire effects pool).2.memoryPool_.length = pool.memoryPool_.length := by
  induction effects generalizing pool with
  | nil => rfl
  | cons effect rest ih =>
    by_cases hfin : pool.isFinishedAt effect = true
    · simp only [LightingManager.retire, hfin, if_true]
      rw [ih]
      simp [EffectPool.destroy]
    · have hfin' : pool.isFinishedAt effect = false := by simpa using hfin
      simp only [LightingManager.retire, hfin', Bool.false_eq_true, if_false]
      exact ih pool

theorem LightingManager.disciplined_new (keyboard : Option Keyboard) :
    (LightingManager.new keyboard).Disciplined := by
  refine ⟨List.nodup_nil, List.nodup_range _, ?_, ?_, ?_, ?_⟩
  · intro effect h
    simp [LightingManager.new] at h
  · intro effect h
    simp [LightingManager.new] at h
  · intro slot h
    have hlt : slot < MAX_ACTIVE_EFFECTS := by
      simpa [LightingManager.new, EffectPool.new] using h
    refine ⟨?_, hlt⟩
    simp [LightingManager.new, EffectPool.new, EffectPool.deref, List.getElem?_replicate, hlt]
  · simp [LightingManager.new, EffectPool.new]

theorem LightingManager.disciplined_addRippleEffect (m : LightingManager) (startKey : Nat)
    (color : Color) (stepDuration propagationDelay maxLifetime : Int) (hm : m.Disciplined) :
    (m.addRippleEffect startKey color stepDuration propagationDelay maxLifetime).Disciplined := by
  obtain ⟨h1, h2, h3, h4, h5, h6⟩ := hm
  by_cases hfree : m.effectPool_.freeSlots_ = []
  · have hsame : m.addRippleEffect startKey color stepDuration propagationDelay maxLifetime
        = m := by
      unfold LightingManager.addRippleEffect
      rw [EffectPool.create_of_nil m.effectPool_ startKey color stepDuration propagationDelay
        maxLifetime hfree]
    rw [hsame]
    exact ⟨h1, h2, h3, h4, h5, h6⟩
  · obtain ⟨slot, hslot, hfs, _, hmem⟩ := EffectPool.create_of_ne_nil m.effectPool_ startKey
      color stepDuration propagationDelay maxLifetime hfree
    have hadd : m.addRippleEffect startKey color stepDuration propagationDelay maxLifetime
        = { m with
            effectPool_ := (m.effectPool_.create startKey color stepDuration propagationDelay
              maxLifetime).2
            activeEffects_ := m.activeEffects_ ++ [slot] } := by
      unfold LightingManager.addRippleEffect
      simp only [hslot]
    have hslotfree : slot ∈ m.effectPool_.freeSlots_ := by
      rw [hfs]; simp
    have hnd : ((m.effectPool_.create startKey color stepDuration propagationDelay
        maxLifetime).2.freeSlots_ ++ [slot]).Nodup := by
      rw [← hfs]; exact h2
    have hnd' := List.nodup_append.mp hnd
    have hslotnew : slot ∉ (m.effectPool_.create startKey color stepDuration propagationDelay
        maxLifetime).2.freeSlots_ := by
      intro hin
      exact hnd'.2.2 hin (List.mem_singleton_self slot)
    have hsub : ∀ x ∈ (m.effectPool_.create startKey color stepDuration propagationDelay
        maxLifetime).2.freeSlots_, x ∈ m.effectPool_.freeSlots_ := by
      intro x hx
      rw [hfs]
      exact List.mem_append_left _ hx
    have hslotlive : slot ∉ m.activeEffects_ := fun hin => h3 slot hin hslotfree
    have hlt : slot < m.effectPool_.memoryPool_.length := by
      rw [h6]; exact (h5 slot hslotfree).2
    have hderef : ∀ other, (m.effectPool_.create startKey color stepDuration propagationDelay
        maxLifetime).2.deref other
          = if other = slot then
              some (RippleEffect.new startKey color stepDuration propagationDelay maxLifetime)
            else m.effectPool_.deref other := by
      intro other
      simp only [EffectPool.deref, hmem, List.getD_eq_getElem?_getD, List.getElem?_set]
      by_cases ho : other = slot
      · subst ho
        simp [hlt]
      · simp [ho, Ne.symm ho]
    rw [hadd]
    refine ⟨?_, hnd'.1, ?_, ?_, ?_, ?_⟩
    · exact List.Nodup.append h1 (List.nodup_singleton slot) (by
        intro x hx hx'
        rw [List.mem_singleton] at hx'
        subst hx'
        exact hslotlive hx)
    · intro effect hin hfreein
      simp only [List.mem_append, List.mem_singleton] at hin
      rcases hin with hlive | heq
      · exact h3 effect hlive (hsub effect hfreein)
      · subst heq
        exact hslotnew hfreein
    · intro effect hin
      simp only [List.mem_append, List.mem_singleton] at hin
      show ((m.effectPool_.create startKey color stepDuration propagationDelay
        maxLifetime).2.deref effect).isSome = true
      rw [hderef]
      rcases hin with hlive | heq
      · have hne : effect ≠ slot := by
          intro heq
          subst heq
          exact hslotlive hlive
        rw [if_neg hne]
        exact h4 effect hlive
      · rw [if_pos heq]
        rfl
    · intro x hx
      show (m.effectPool_.create startKey color stepDuration propagationDelay
        maxLifetime).2.deref x = none ∧ x < MAX_ACTIVE_EFFECTS
      have hne : x ≠ slot := by
        intro heq
        subst heq
        exact hslotnew hx
      rw [hderef, if_neg hne]
      exact h5 x (hsub x hx)
    · show (m.effectPool_.create startKey color stepDuration propagationDelay
        maxLifetime).2.memoryPool_.length = MAX_ACTIVE_EFFECTS
      rw [hmem, List.length_set]
      exact h6

theorem LightingManager.disciplined_update (m : LightingManager) (hm : m.Disciplined) :
    m.update.Disciplined := by
  obtain ⟨h1, h2, h3, h4, h5, h6⟩ := hm
  cases hkb : m.keyboard_ with
  | none =>
    have : m.update = m := by simp [LightingManager.update, hkb]
    rw [this]
    exact ⟨h1, h2, h3, h4, h5, h6⟩
  | some kb =>
    obtain ⟨r1, r2, r3⟩ := LightingManager.retire_spec m.activeEffects_
      (LightingManager.tickAll kb.neighborsOf m.activeEffects_ m.effectPool_) h1
    have hact : m.update.activeEffects_ = (LightingManager.retire m.activeEffects_
        (LightingManager.tickAll kb.neighborsOf m.activeEffects_ m.effectPool_)).1 := by
      simp only [LightingManager.update, hkb]
    have hpool : m.update.effectPool_ = (LightingManager.retire m.activeEffects_
        (LightingManager.tickAll kb.neighborsOf m.activeEffects_ m.effectPool_)).2 := by
      simp only [LightingManager.update, hkb]
    have htick := LightingManager.deref_tickAll kb.neighborsOf m.activeEffects_ m.effectPool_ h1
    rw [LightingManager.freeSlots_tickAll] at r2
    unfold LightingManager.Disciplined
    rw [hact, hpool, r1, r2]
    refine ⟨List.Nodup.filter _ h1, ?_, ?_, ?_, ?_, ?_⟩
    · refine List.Nodup.append h2 (List.Nodup.filter _ h1) ?_
      intro x hx hx'
      exact h3 x (List.mem_filter.mp hx').1 hx
    · intro effect hin hfreein
      obtain ⟨hlive, hnot⟩ := List.mem_filter.mp hin
      rcases List.mem_append.mp hfreein with hf | hf
      · exact h3 effect hlive hf
      · have := (List.mem_filter.mp hf).2
        simp [this] at hnot
    · intro effect hin
      obtain ⟨hlive, hnot⟩ := List.mem_filter.mp hin
      have hnot' : (LightingManager.tickAll kb.neighborsOf m.activeEffects_
          m.effectPool_).isFinishedAt effect = false := by simpa using hnot
      rw [r3 effect, hnot', htick effect, if_pos hlive]
      have hs := h4 effect hlive
      cases hd : m.effectPool_.deref effect with
      | none => rw [hd] at hs; simp at hs
      | some e => simp
    · intro slot hin
      rcases List.mem_append.mp hin with hf | hf
      · have hnl : slot ∉ m.activeEffects_ := fun hl => h3 slot hl hf
        refine ⟨?_, (h5 slot hf).2⟩
        rw [r3 slot, htick slot]
        simp [hnl, (h5 slot hf).1]
      · obtain ⟨hlive, hfin⟩ := List.mem_filter.mp hf
        refine ⟨?_, ?_⟩
        · rw [r3 slot]
          simp [hlive, hfin]
        · rw [← h6]
          exact EffectPool.lt_of_deref_isSome _ _ (h4 slot hlive)
    · rw [LightingManager.length_retire, LightingManager.length_tickAll]
      exact h6

theorem LightingManager.disciplined_call (m : LightingManager) (c : LightingManager.Call)
    (hm : m.Disciplined) : (m.call c).Disciplined := by
  cases c with
  | addRippleEffect startKey color stepDuration propagationDelay maxLifetime =>
    exact LightingManager.disciplined_addRippleEffect m _ _ _ _ _ hm
  | update => exact LightingManager.disciplined_update m hm

/-- Every call of `destroy` in the loop of step 2, run on pairwise distinct
pointers to constructed effects that are not on the free list, is made on a
slot that then holds an object and is not on the free list. -/
theorem LightingManager.retireCalls_live (effects : List Nat) (pool : EffectPool)
    (hnodup : effects.Nodup)
    (hlive : ∀ effect ∈ effects, (pool.deref effect).isSome = true)
    (hfree : ∀ effect ∈ effects, effect ∉ pool.freeSlots_) :
    ∀ call ∈ LightingManager.retireCalls effects pool,
      call.1 ∈ effects ∧ (call.2.deref call.1).isSome = true
        ∧ call.1 ∉ call.2.freeSlots_ := by
  induction effects generalizing pool with
  | nil => intro call h; simp [LightingManager.retireCalls] at h
  | cons effect rest ih =>
    obtain ⟨hnotin, hrest⟩ := List.nodup_cons.mp hnodup
    intro call hcall
    by_cases hfin : pool.isFinishedAt effect = true
    · simp only [LightingManager.retireCalls, hfin, if_true, List.mem_cons] at hcall
      rcases hcall with heq | htail
      · subst heq
        exact ⟨List.mem_cons_self _ _, hlive effect (List.mem_cons_self _ _),
          hfree effect (List.mem_cons_self _ _)⟩
      · have h := ih (pool.destroy (some effect)) hrest
          (by
            intro x hx
            have hne : x ≠ effect := fun h => hnotin (h ▸ hx)
            rw [EffectPool.deref_destroy, if_neg hne]
            exact hlive x (List.mem_cons_of_mem _ hx))
          (by
            intro x hx hin
            have hne : x ≠ effect := fun h => hnotin (h ▸ hx)
            simp only [EffectPool.destroy, List.mem_append, List.mem_singleton] at hin
            rcases hin with hin | hin
            · exact hfree x (List.mem_cons_of_mem _ hx) hin
            · exact hne hin)
          call htail
        exact ⟨List.mem_cons_of_mem _ h.1, h.2⟩
    · have hfin' : pool.isFinishedAt effect = false := by simpa using hfin
      simp only [LightingManager.retireCalls, hfin', Bool.false_eq_true, if_false] at hcall
      have h := ih pool hrest
        (fun x hx => hlive x (List.mem_cons_of_mem _ hx))
        (fun x hx => hfree x (List.mem_cons_of_mem _ hx)) call hcall
      exact ⟨List.mem_cons_of_mem _ h.1, h.2⟩

theorem LightingManager.retireCalls_sublist (effects : List Nat) (pool : EffectPool) :
    ((LightingManager.retireCalls effects pool).map Prod.fst).Sublist effects := by
  induction effects generalizing pool with
  | nil => simp [LightingManager.retireCalls]
  | cons effect rest ih =>
    by_cases hfin : pool.isFinishedAt effect = true
    · simp only [LightingManager.retireCalls, hfin, if_true, List.map_cons]
      exact List.Sublist.cons₂ _ (ih _)
    · have hfin' : pool.isFinishedAt effect = false := by simpa using hfin
      simp only [LightingManager.retireCalls, hfin', Bool.false_eq_true, if_false]
      exact List.Sublist.cons _ (ih _)

/-- C12. Handle discipline of the compositor: in every state `m` of a manager
reached from its construction by a sequence of `addRippleEffect` and `update`
calls, the live pointers are pairwise distinct, the free slots are pairwise
distinct and no pointer is both live and free; every live pointer points to a
constructed effect in a slot of the pool and every free slot holds no object.
Therefore `create` only hands out a slot that is not live and holds no object,
and every call of `destroy` made by `update` is made on a live pointer whose
slot then holds an object and is not on the free list, no pointer being
destroyed twice. -/
theorem LightingManager.handle_discipline (keyboard : Option Keyboard)
    (calls : List LightingManager.Call) (m : LightingManager)
    (hm : m = (LightingManager.new keyboard).run calls) :
    m.activeEffects_.Nodup
      ∧ m.effectPool_.freeSlots_.Nodup
      ∧ (∀ effect ∈ m.activeEffects_, effect ∉ m.effectPool_.freeSlots_)
      ∧ (∀ effect ∈ m.activeEffects_,
          (m.effectPool_.deref effect).isSome = true ∧ effect < MAX_ACTIVE_EFFECTS)
      ∧ (∀ slot ∈ m.effectPool_.freeSlots_,
          m.effectPool_.deref slot = none ∧ slot < MAX_ACTIVE_EFFECTS)
      ∧ (∀ startKey color stepDuration propagationDelay maxLifetime slot,
          (m.effectPool_.create startKey color stepDuration propagationDelay maxLifetime).1
              = some slot →
            slot ∉ m.activeEffects_ ∧ m.effectPool_.deref slot = none
              ∧ slot < MAX_ACTIVE_EFFECTS)
      ∧ (∀ kb, m.keyboard_ = some kb →
          (∀ call ∈ LightingManager.retireCalls m.activeEffects_
                (LightingManager.tickAll kb.neighborsOf m.activeEffects_ m.effectPool_),
              call.1 ∈ m.activeEffects_ ∧ (call.2.deref call.1).isSome = true
                ∧ call.1 ∉ call.2.freeSlots_)
            ∧ ((LightingManager.retireCalls m.activeEffects_
                (LightingManager.tickAll kb.neighborsOf m.activeEffects_
                  m.effectPool_)).map Prod.fst).Nodup) := by
  have hd : m.Disciplined := by
    rw [hm]
    exact LightingManager.run_induction LightingManager.Disciplined
      LightingManager.disciplined_call (LightingManager.new keyboard) calls
      (LightingManager.disciplined_new keyboard)
  obtain ⟨h1, h2, h3, h4, h5, h6⟩ := hd
  refine ⟨h1, h2, h3, ?_, h5, ?_, ?_⟩
  · intro effect hin
    refine ⟨h4 effect hin, ?_⟩
    rw [← h6]
    exact EffectPool.lt_of_deref_isSome _ _ (h4 effect hin)
  · intro startKey color stepDuration propagationDelay maxLifetime slot hcreate
    have hfree : m.effectPool_.freeSlots_ ≠ [] := by
      intro hnil
      rw [EffectPool.create_of_nil m.effectPool_ startKey color stepDuration propagationDelay
        maxLifetime hnil] at hcreate
      simp at hcreate
    obtain ⟨slot', hslot', hfs, _, _⟩ := EffectPool.create_of_ne_nil m.effectPool_ startKey
      color stepDuration propagationDelay maxLifetime hfree
    rw [hslot'] at hcreate
    have heq : slot' = slot := by simpa using hcreate
    subst heq
    have hin : slot' ∈ m.effectPool_.freeSlots_ := by
      rw [hfs]; simp
    exact ⟨fun hlive => h3 slot' hlive hin, (h5 slot' hin).1, (h5 slot' hin).2⟩
  · intro kb _
    have htick := LightingManager.deref_tickAll kb.neighborsOf m.activeEffects_ m.effectPool_ h1
    constructor
    · apply LightingManager.retireCalls_live m.activeEffects_ _ h1
      · intro effect hin
        rw [htick effect, if_pos hin]
        have hs := h4 effect hin
        cases hde : m.effectPool_.deref effect with
        | none => rw [hde] at hs; simp at hs
        | some e => simp
      · intro effect hin
        rw [LightingManager.freeSlots_tickAll]
        exact h3 effect hin
    · exact List.Nodup.sublist (LightingManager.retireCalls_sublist _ _) h1

/-- Witness for C12: the manager with two ripples on the row of three keys
after two updates; the next update destroys the ripple of slot 18. -/
theorem LightingManager.handle_discipline_witness :
    Example.twoRipples.update.update
        = (LightingManager.new (some Example.rowKeyboard)).run
            [LightingManager.Call.addRippleEffect 0 (Color.new 100 0 0) 2 1 5,
              LightingManager.Call.addRippleEffect 1 (Color.new 200 10 0) 2 1 3,
              LightingManager.Call.update, LightingManager.Call.update]
      ∧ Example.twoRipples.update.update.activeEffects_.Nodup
      ∧ ((LightingManager.retireCalls Example.twoRipples.update.update.activeEffects_
          (LightingManager.tickAll Example.rowKeyboard.neighborsOf
            Example.twoRipples.update.update.activeEffects_
            Example.twoRipples.update.update.effectPool_)).map Prod.fst).Nodup :=
  ⟨by decide,
    (LightingManager.handle_discipline (some Example.rowKeyboard)
      [LightingManager.Call.addRippleEffect 0 (Color.new 100 0 0) 2 1 5,
        LightingManager.Call.addRippleEffect 1 (Color.new 200 10 0) 2 1 3,
        LightingManager.Call.update, LightingManager.Call.update]
      Example.twoRipples.update.update (by decide)).1,
    ((LightingManager.handle_discipline (some Example.rowKeyboard)
      [LightingManager.Call.addRippleEffect 0 (Color.new 100 0 0) 2 1 5,
        LightingManager.Call.addRippleEffect 1 (Color.new 200 10 0) 2 1 3,
        LightingManager.Call.update, LightingManager.Call.update]
      Example.twoRipples.update.update (by decide)).2.2.2.2.2.2
      Example.rowKeyboard (by decide)).2⟩

/-! ## Colour query -/

theorem Color.scale_channels (c : Color) (intensity : Nat) (hi : intensity < 256) :
    (c.scale intensity).red_ = c.red_ * (intensity : Int) / 256
      ∧ (c.scale intensity).green_ = c.green_ * (intensity : Int) / 256
      ∧ (c.scale intensity).blue_ = c.blue_ * (intensity : Int) / 256 := by
  have h1 := c.red_range
  have h2 := c.green_range
  have h3 := c.blue_range
  have hmod : intensity % 256 = intensity := Nat.mod_eq_of_lt hi
  have hI : (0 : Int) ≤ (intensity : Int) ∧ (intensity : Int) ≤ 255 := by omega
  have bound : ∀ x : Int, 0 ≤ x → x ≤ 255 →
      0 ≤ x * (intensity : Int) / 256 ∧ x * (intensity : Int) / 256 ≤ 255 := by
    intro x hx0 hx1
    have hnn : 0 ≤ x * (intensity : Int) := Int.mul_nonneg hx0 hI.1
    have hle : x * (intensity : Int) ≤ 255 * 255 :=
      Int.mul_le_mul hx1 hI.2 hI.1 (by decide)
    constructor
    · exact Int.ediv_nonneg hnn (by decide)
    · omega
  have hshift : ∀ x : Int, x >>> (8 : Nat) = x / 256 := by
    intro x
    rw [Int.shiftRight_eq_div_pow]
    norm_num
  have b1 := bound c.red_ h1.1 h1.2
  have b2 := bound c.green_ h2.1 h2.2
  have b3 := bound c.blue_ h3.1 h3.2
  simp only [Color.scale, Color.new, Color.clamp, hmod, hshift]
  omega

/-- C13. Colour query of an instance that is not finished: `getColorForKey` is
black for a key with no entry in the active set, the colour of the instance for
an `Ignited` key, and the colour with every channel `x` replaced by
`floor (x * 204 / 256)` for a `Fading_High` key and by `floor (x * 102 / 256)`
for a `Fading_Low` key. -/
theorem RippleEffect.getColorForKey_of_not_finished (e : RippleEffect) (k : Nat)
    (hnf : e.isFinished = false) :
    (e.activeKeys_.find k = none → e.getColorForKey k = Color.new 0 0 0)
      ∧ (∀ c, e.activeKeys_.find k = some ⟨State.Ignited, c⟩ → e.getColorForKey k = e.color_)
      ∧ (∀ c, e.activeKeys_.find k = some ⟨State.Fading_High, c⟩ →
          (e.getColorForKey k).red_ = e.color_.red_ * 204 / 256
            ∧ (e.getColorForKey k).green_ = e.color_.green_ * 204 / 256
            ∧ (e.getColorForKey k).blue_ = e.color_.blue_ * 204 / 256)
      ∧ (∀ c, e.activeKeys_.find k = some ⟨State.Fading_Low, c⟩ →
          (e.getColorForKey k).red_ = e.color_.red_ * 102 / 256
            ∧ (e.getColorForKey k).green_ = e.color_.green_ * 102 / 256
            ∧ (e.getColorForKey k).blue_ = e.color_.blue_ * 102 / 256) := by
  refine ⟨?_, ?_, ?_, ?_⟩
  · intro h
    simp [RippleEffect.getColorForKey, hnf, h]
  · intro c h
    simp [RippleEffect.getColorForKey, hnf, h]
  · intro c h
    have hs := Color.scale_channels e.color_ 204 (by decide)
    simpa [RippleEffect.getColorForKey, hnf, h] using hs
  · intro c h
    have hs := Color.scale_channels e.color_ 102 (by decide)
    simpa [RippleEffect.getColorForKey, hnf, h] using hs

/-- Witness for C13 on the row of three keys: after four calls of update the
seed is `Fading_Low`, key 1 is `Fading_High` and key 2 is `Ignited`. -/
theorem RippleEffect.getColorForKey_of_not_finished_witness :
    (Example.ripple.updateN Example.rowNeighbors 4).isFinished = false
      ∧ ((Example.ripple.updateN Example.rowNeighbors 4).getColorForKey 1).red_
        = (Example.ripple.updateN Example.rowNeighbors 4).color_.red_ * 204 / 256
      ∧ (Example.ripple.updateN Example.rowNeighbors 4).getColorForKey 2
        = (Example.ripple.updateN Example.rowNeighbors 4).color_ :=
  ⟨by decide,
    ((RippleEffect.getColorForKey_of_not_finished
      (Example.ripple.updateN Example.rowNeighbors 4) 1 (by decide)).2.2.1 0 (by decide)).1,
    (RippleEffect.getColorForKey_of_not_finished
      (Example.ripple.updateN Example.rowNeighbors 4) 2 (by decide)).2.1 0 (by decide)⟩

/-! ## The life of a key and of an instance -/

theorem RippleEffect.updateN_isFinished (neighbors : Nat → List Nat) (e : RippleEffect)
    (t : Nat) :
    (e.updateN neighbors t).isFinished = decide (e.framesLived_ + t ≥ e.maxLifetime_) := by
  obtain ⟨_, _, _, h4, h5⟩ := RippleEffect.updateN_fields neighbors e t
  simp only [RippleEffect.isFinished, h4, h5]

theorem RippleEffect.update_activeKeys_of_isFinished (neighbors : Nat → List Nat)
    (e : RippleEffect) (hfin : (e.update neighbors).isFinished = true) :
    (e.update neighbors).activeKeys_ = [] := by
  rw [RippleEffect.update_isFinished] at hfin
  unfold RippleEffect.update
  simp only [RippleEffect.isFinished, hfin, if_true]

/-- One step of the decay sequence: the entry of a key `j + 1` ticks after it
was ignited, from its entry `j` ticks after. -/
theorem RippleEffect.transition_ofStage (S j : Nat) (hpos : 0 < S) (hj : j + 1 < 3 * S) :
    RippleEffect.transition (S : Int) ⟨State.ofStage (j / S), ((j % S : Nat) : Int)⟩
      = some ⟨State.ofStage ((j + 1) / S), (((j + 1) % S : Nat) : Int)⟩ := by
  have hr : j % S < S := Nat.mod_lt _ hpos
  have hdm : S * (j / S) + j % S = j := Nat.div_add_mod j S
  by_cases hlt : j % S + 1 < S
  · have hu : (j + 1) / S = j / S ∧ (j + 1) % S = j % S + 1 :=
      (Nat.div_mod_unique hpos).mpr ⟨by linarith, hlt⟩
    have hnot : ¬ (((j % S : Nat) : Int) + 1 ≥ (S : Int)) := by omega
    unfold RippleEffect.transition
    rw [if_neg hnot, hu.1, hu.2]
    simp
  · have heq : j % S + 1 = S := by omega
    have hu : (j + 1) / S = j / S + 1 ∧ (j + 1) % S = 0 :=
      (Nat.div_mod_unique hpos).mpr ⟨by rw [Nat.mul_add]; linarith, hpos⟩
    have hge : ((j % S : Nat) : Int) + 1 ≥ (S : Int) := by omega
    have hq : j / S < 2 := by
      by_contra hcon
      have h2 : 2 ≤ j / S := by omega
      have h3 : S * 2 ≤ S * (j / S) := Nat.mul_le_mul_left S h2
      omega
    unfold RippleEffect.transition
    rw [if_pos hge, hu.1, hu.2]
    have hcases : j / S = 0 ∨ j / S = 1 := by
      generalize j / S = q at hq
      omega
    rcases hcases with h0 | h1
    · rw [h0]; rfl
    · rw [h1]; rfl

/-- The entry of a key `j` ticks after it was ignited, while the instance is
not finished. -/
theorem RippleEffect.find_updateN_ofStage (neighbors : Nat → List Nat) (e : RippleEffect)
    (hwf : e.activeKeys_.WF) (S : Nat) (hS : e.stepDuration_ = (S : Int)) (hpos : 0 < S)
    (n k : Nat)
    (hk : (e.updateN neighbors n).activeKeys_.find k = some ⟨State.Ignited, 0⟩)
    (j : Nat) (hj : j < 3 * S)
    (hnf : (e.updateN neighbors (n + j)).isFinished = false) :
    (e.updateN neighbors (n + j)).activeKeys_.find k
      = some ⟨State.ofStage (j / S), ((j % S : Nat) : Int)⟩ := by
  induction j with
  | zero =>
    rw [Nat.add_zero, hk]
    simp [State.ofStage]
  | succ j ih =>
    rw [RippleEffect.updateN_isFinished] at hnf
    have hlt : e.framesLived_ + ((n + j : Nat) : Int) + 1 < e.maxLifetime_ := by
      have h1 : ¬ (e.framesLived_ + ((n + (j + 1) : Nat) : Int) ≥ e.maxLifetime_) := by
        simpa using hnf
      push_cast at h1 ⊢
      omega
    have hnf' : (e.updateN neighbors (n + j)).isFinished = false := by
      rw [RippleEffect.updateN_isFinished]
      simp only [decide_eq_false_iff_not]
      omega
    have hprev := ih (by omega) hnf'
    have hstep := RippleEffect.find_updateN_succ_active neighbors e hwf (n + j) hlt k _ hprev
    rw [hS, RippleEffect.transition_ofStage S j hpos hj] at hstep
    exact hstep

/-- C14. Per-key life cycle: on an instance with step duration `S ≥ 1`, a key
that has the entry `(Ignited, 0)` after `n` updates has, after `n + j` updates
for every `j < 3 S` at which the instance is not finished, the entry whose
state is stage `floor (j / S)` of the sequence `Ignited`, `Fading_High`,
`Fading_Low` and whose counter is `j mod S`; after `n + 3 S` updates the key
has no entry. -/
theorem RippleEffect.key_life_cycle (neighbors : Nat → List Nat) (e : RippleEffect)
    (hwf : e.activeKeys_.WF) (S : Nat) (hS : e.stepDuration_ = (S : Int)) (hpos : 0 < S)
    (n k : Nat)
    (hk : (e.updateN neighbors n).activeKeys_.find k = some ⟨State.Ignited, 0⟩) :
    (∀ j, j < 3 * S → (e.updateN neighbors (n + j)).isFinished = false →
        (e.updateN neighbors (n + j)).activeKeys_.find k
          = some ⟨State.ofStage (j / S), ((j % S : Nat) : Int)⟩)
      ∧ (e.updateN neighbors (n + 3 * S)).activeKeys_.find k = none := by
  refine ⟨fun j hj hnf =>
    RippleEffect.find_updateN_ofStage neighbors e hwf S hS hpos n k hk j hj hnf, ?_⟩
  obtain ⟨p, hp⟩ : ∃ p, 3 * S = p + 1 := ⟨3 * S - 1, by omega⟩
  rw [hp, ← Nat.add_assoc]
  by_cases hfin : (e.updateN neighbors (n + p + 1)).isFinished = true
  · have hnil : (e.updateN neighbors (n + p + 1)).activeKeys_ = [] :=
      RippleEffect.update_activeKeys_of_isFinished neighbors _ hfin
    rw [hnil]
    rfl
  · rw [RippleEffect.updateN_isFinished] at hfin
    have h1 : ¬ (e.framesLived_ + ((n + p + 1 : Nat) : Int) ≥ e.maxLifetime_) := by
      simpa using hfin
    have hlt : e.framesLived_ + ((n + p : Nat) : Int) + 1 < e.maxLifetime_ := by
      push_cast at h1 ⊢
      omega
    have hnf' : (e.updateN neighbors (n + p)).isFinished = false := by
      rw [RippleEffect.updateN_isFinished]
      simp only [decide_eq_false_iff_not]
      omega
    have hprev := RippleEffect.find_updateN_ofStage neighbors e hwf S hS hpos n k hk p
      (by omega) hnf'
    have hstep := RippleEffect.find_updateN_succ_active neighbors e hwf (n + p) hlt k _ hprev
    rw [hstep, hS]
    have hdiv : p / S = 2 ∧ p % S = S - 1 :=
      (Nat.div_mod_unique hpos).mpr ⟨by rw [Nat.mul_comm]; omega, by omega⟩
    rw [hdiv.1, hdiv.2]
    have hge : (((S - 1 : Nat) : Int)) + 1 ≥ (S : Int) := by omega
    unfold RippleEffect.transition
    rw [if_pos hge]
    rfl

/-- Witness for C14 with step duration 4: the seed of the worked example is
`Ignited` with counter 3 after three updates and `Fading_High` with counter 0
after four. -/
theorem RippleEffect.key_life_cycle_witness :
    (Example.workedRipple.updateN Example.rowNeighbors 3).activeKeys_.find 0
        = some ⟨State.ofStage (3 / 4), ((3 % 4 : Nat) : Int)⟩
      ∧ (Example.workedRipple.updateN Example.rowNeighbors 4).activeKeys_.find 0
        = some ⟨State.ofStage (4 / 4), ((4 % 4 : Nat) : Int)⟩
      ∧ (Example.workedRipple.updateN Example.rowNeighbors 12).activeKeys_.find 0 = none :=
  ⟨(RippleEffect.key_life_cycle Example.rowNeighbors Example.workedRipple (by decide) 4
      (by decide) (by decide) 0 0 (by decide)).1 3 (by decide) (by decide),
    (RippleEffect.key_life_cycle Example.rowNeighbors Example.workedRipple (by decide) 4
      (by decide) (by decide) 0 0 (by decide)).1 4 (by decide) (by decide),
    (RippleEffect.key_life_cycle Example.rowNeighbors Example.workedRipple (by decide) 4
      (by decide) (by decide) 0 0 (by decide)).2⟩

/-- Before the seed has been `Ignited` for more than the propagation delay,
it is the only key of the active set: for `1 ≤ D < S`, after `t ≤ D` updates
on an instance that is not finished the seed has the entry `(Ignited, t)` and
no other key has an entry. -/
theorem RippleEffect.seed_alone (neighbors : Nat → List Nat) (K : Nat) (color : Color)
    (S D L : Int) (hD : 1 ≤ D) (hSD : D < S) (t : Nat) (ht : (t : Int) ≤ D)
    (hL : (t : Int) < L) :
    ((RippleEffect.new K color S D L).updateN neighbors t).activeKeys_.find K
        = some ⟨State.Ignited, (t : Int)⟩
      ∧ ∀ k, k ≠ K →
        ((RippleEffect.new K color S D L).updateN neighbors t).activeKeys_.find k = none := by
  have hwf := RippleEffect.WF_new K color S D L
  have hstep : (RippleEffect.new K color S D L).stepDuration_ = S := by
    have : S > 0 := by omega
    simp [RippleEffect.new, this]
  have hdelay : (RippleEffect.new K color S D L).propagationDelay_ = D := by
    have : D > 0 := by omega
    simp [RippleEffect.new, this]
  have hlived : (RippleEffect.new K color S D L).framesLived_ = 0 := rfl
  have hmax : (RippleEffect.new K color S D L).maxLifetime_ = L := rfl
  induction t with
  | zero =>
    constructor
    · simp [RippleEffect.updateN, RippleEffect.new, KeyMap.assign, KeyMap.find]
    · intro k hk
      simp [RippleEffect.updateN, RippleEffect.new, KeyMap.assign, KeyMap.find, Ne.symm hk]
  | succ t ih =>
    have ht' : (t : Int) + 1 ≤ D := by push_cast at ht; exact ht
    have hL' : (t : Int) + 1 < L := by push_cast at hL; exact hL
    obtain ⟨ihK, ihk⟩ := ih (by omega) (by omega)
    have hnf : (RippleEffect.new K color S D L).framesLived_ + (t : Int) + 1
        < (RippleEffect.new K color S D L).maxLifetime_ := by
      rw [hlived, hmax]; omega
    constructor
    · rw [RippleEffect.find_updateN_succ_active neighbors _ hwf t hnf K _ ihK, hstep]
      have hnot : ¬ ((t : Int) + 1 ≥ S) := by omega
      unfold RippleEffect.transition
      rw [if_neg hnot]
      simp
    · intro k hk
      apply RippleEffect.find_updateN_succ_unclaimed neighbors _ hwf t k (ihk k hk)
      intro j c hj hc
      rw [hdelay] at hc
      by_cases hjK : j = K
      · rw [hjK, ihK] at hj
        simp only [Option.some.injEq, KeyState.mk.injEq, true_and] at hj
        omega
      · rw [ihk j hjK] at hj
        simp at hj

/-- The first ring: for `1 ≤ D < S`, after exactly `D + 1` updates on an instance
that is not finished every neighbour of the seed, the seed apart, has the entry
`(Ignited, 0)`. -/
theorem RippleEffect.first_ring (neighbors : Nat → List Nat) (K : Nat) (color : Color)
    (S L : Int) (d : Nat) (hD : 1 ≤ d) (hSD : (d : Int) < S) (hL : (d : Int) + 1 < L)
    (n : Nat) (hn : n ∈ neighbors K) (hnK : n ≠ K) :
    ((RippleEffect.new K color S (d : Int) L).updateN neighbors (d + 1)).activeKeys_.find n
      = some ⟨State.Ignited, 0⟩ := by
  obtain ⟨hK, hk⟩ := RippleEffect.seed_alone neighbors K color S (d : Int) L (by omega) hSD d
    (le_refl _) (by omega)
  have hdelay : (RippleEffect.new K color S (d : Int) L).propagationDelay_ = (d : Int) := by
    have : (d : Int) > 0 := by omega
    simp [RippleEffect.new, this]
  exact RippleEffect.find_updateN_succ_claimed neighbors _ d
    (by show (0 : Int) + (d : Int) + 1 < L; omega) n (hk n hnK) K (d : Int) hK
    (by rw [hdelay]) hn

/-- Counterexample to C15 as stated, on the row of three keys: key 1 is an
immediate neighbour of the seed and has no entry after two calls of update of
the worked example, which is not finished then. -/
theorem RippleEffect.worked_example_neighbors_counterexample :
    1 ∈ Example.rowNeighbors 0
      ∧ (Example.workedRipple.updateN Example.rowNeighbors 2).isFinished = false
      ∧ (Example.workedRipple.updateN Example.rowNeighbors 2).activeKeys_.find 1 = none := by
  decide

/-- C15 (amended). Worked example with colour `(255, 0, 0)`, step duration 4,
propagation delay 2 and max lifetime 20, on any key graph and seed: after
exactly 2 calls of update no key other than the seed has an entry, and after
exactly 3 calls every immediate neighbour of the seed, the seed apart, has the
entry `(Ignited, 0)`. -/
theorem RippleEffect.worked_example_neighbors (neighbors : Nat → List Nat) (K : Nat) :
    (∀ k, k ≠ K →
        ((RippleEffect.new K (Color.new 255 0 0) 4 2 20).updateN neighbors 2).activeKeys_.find k
          = none)
      ∧ (∀ n ∈ neighbors K, n ≠ K →
        ((RippleEffect.new K (Color.new 255 0 0) 4 2 20).updateN neighbors 3).activeKeys_.find n
          = some ⟨State.Ignited, 0⟩) := by
  constructor
  · exact (RippleEffect.seed_alone neighbors K (Color.new 255 0 0) 4 2 20 (by decide)
      (by decide) 2 (by decide) (by decide)).2
  · intro n hn hnK
    exact RippleEffect.first_ring neighbors K (Color.new 255 0 0) 4 20 2 (by decide)
      (by decide) (by decide) n hn hnK

/-- Witness for the amended C15 on the row of three keys: key 1 has no entry
after two calls and is `Ignited` after three. -/
theorem RippleEffect.worked_example_neighbors_witness :
    (Example.workedRipple.updateN Example.rowNeighbors 2).activeKeys_.find 1 = none
      ∧ (Example.workedRipple.updateN Example.rowNeighbors 3).activeKeys_.find 1
        = some ⟨State.Ignited, 0⟩ :=
  ⟨(RippleEffect.worked_example_neighbors Example.rowNeighbors 0).1 1 (by decide),
    (RippleEffect.worked_example_neighbors Example.rowNeighbors 0).2 1 (by decide)
      (by decide)⟩

theorem RippleEffect.getColorForKey_of_entry (e : RippleEffect) (k : Nat) (entry : KeyState)
    (hnf : e.isFinished = false) (hk : e.activeKeys_.find k = some entry) :
    e.getColorForKey k
      = match entry.state with
        | State.Ignited => e.color_
        | State.Fading_High => e.color_.scale 204
        | State.Fading_Low => e.color_.scale 102 := by
  simp [RippleEffect.getColorForKey, hnf, hk]

theorem Color.ne_black_of_channel (c : Color)
    (h : 1 ≤ c.red_ ∨ 1 ≤ c.green_ ∨ 1 ≤ c.blue_) : c ≠ Color.new 0 0 0 := by
  intro heq
  have h1 : c.red_ = 0 := by rw [heq]; rfl
  have h2 : c.green_ = 0 := by rw [heq]; rfl
  have h3 : c.blue_ = 0 := by rw [heq]; rfl
  omega

/-- Counterexample to C16 as stated: the ripple of colour `(1, 0, 0)`, which
is not black, with step duration 1 and max lifetime `L = 2`: at tick
`L - 1 = 1 < 3` the seed is `Fading_High` and it is rendered black. -/
theorem RippleEffect.lifetime_round_trip_counterexample :
    Example.dimRipple.color_ ≠ Color.new 0 0 0
      ∧ Example.dimRipple.maxLifetime_ = 2 ∧ Example.dimRipple.stepDuration_ = 1
      ∧ (Example.dimRipple.updateN Example.rowNeighbors 1).isFinished = false
      ∧ (Example.dimRipple.updateN Example.rowNeighbors 1).activeKeys_.find 0
        = some ⟨State.Fading_High, 0⟩
      ∧ (Example.dimRipple.updateN Example.rowNeighbors 1).getColorForKey 0
        = Color.new 0 0 0 := by
  decide

/-- C16 (amended). Lifetime round trip for an instance with max lifetime
`L = t + 1 ≥ 1` whose seed has not decayed out at tick `t = L - 1`, that is
`t < 3 S` for the step duration `S` of the instance. After exactly `L - 1`
updates the colour of the seed is not black if the colour of the instance has
a channel of at least 3; a channel of at least 2 is enough while `t < 2 S`, and
any colour other than black while `t < S`. After exactly `L` updates every key
is black. -/
theorem RippleEffect.lifetime_round_trip (neighbors : Nat → List Nat) (K : Nat)
    (color : Color) (S D L : Int) (Sn t : Nat)
    (hS : (RippleEffect.new K color S D L).stepDuration_ = (Sn : Int))
    (hL : (t : Int) + 1 = L) (ht : t < 3 * Sn) :
    (t < Sn → color ≠ Color.new 0 0 0 →
        ((RippleEffect.new K color S D L).updateN neighbors t).getColorForKey K
          ≠ Color.new 0 0 0)
      ∧ (t < 2 * Sn → (2 ≤ color.red_ ∨ 2 ≤ color.green_ ∨ 2 ≤ color.blue_) →
        ((RippleEffect.new K color S D L).updateN neighbors t).getColorForKey K
          ≠ Color.new 0 0 0)
      ∧ ((3 ≤ color.red_ ∨ 3 ≤ color.green_ ∨ 3 ≤ color.blue_) →
        ((RippleEffect.new K color S D L).updateN neighbors t).getColorForKey K
          ≠ Color.new 0 0 0)
      ∧ ∀ k, ((RippleEffect.new K color S D L).updateN neighbors (t + 1)).getColorForKey k
          = Color.new 0 0 0 := by
  have hwf := RippleEffect.WF_new K color S D L
  have hpos : 0 < Sn := by omega
  have hlived : (RippleEffect.new K color S D L).framesLived_ = 0 := rfl
  have hmax : (RippleEffect.new K color S D L).maxLifetime_ = L := rfl
  have hnf : ((RippleEffect.new K color S D L).updateN neighbors t).isFinished = false := by
    rw [RippleEffect.updateN_isFinished, hlived, hmax]
    simp only [decide_eq_false_iff_not]
    omega
  have hseed : ((RippleEffect.new K color S D L).updateN neighbors 0).activeKeys_.find K
      = some ⟨State.Ignited, 0⟩ := by
    simp [RippleEffect.updateN, RippleEffect.new, KeyMap.assign, KeyMap.find]
  have hentry := RippleEffect.find_updateN_ofStage neighbors _ hwf Sn hS hpos 0 K hseed t ht
    (by rw [Nat.zero_add]; exact hnf)
  rw [Nat.zero_add] at hentry
  have hcolor : ((RippleEffect.new K color S D L).updateN neighbors t).color_ = color :=
    (RippleEffect.updateN_fields neighbors _ t).1
  have hget := RippleEffect.getColorForKey_of_entry _ K _ hnf hentry
  rw [hcolor] at hget
  have hq : t / Sn < 3 := (Nat.div_lt_iff_lt_mul hpos).mpr ht
  have h204 := Color.scale_channels color 204 (by decide)
  have h102 := Color.scale_channels color 102 (by decide)
  have hr := color.red_range
  have hg := color.green_range
  have hb := color.blue_range
  refine ⟨?_, ?_, ?_, ?_⟩
  · intro hlt hne
    have h0 : t / Sn = 0 := Nat.div_eq_of_lt hlt
    rw [h0] at hget
    rw [hget]
    exact hne
  · intro hlt hch
    have hq2 : t / Sn < 2 := (Nat.div_lt_iff_lt_mul hpos).mpr hlt
    rw [hget]
    have hcases : t / Sn = 0 ∨ t / Sn = 1 := by
      generalize t / Sn = q at hq2
      omega
    rcases hcases with h0 | h1
    · rw [h0]
      exact Color.ne_black_of_channel _ (by simp only [State.ofStage]; omega)
    · rw [h1]
      apply Color.ne_black_of_channel
      simp only [State.ofStage]
      rw [h204.1, h204.2.1, h204.2.2]
      omega
  · intro hch
    rw [hget]
    have hcases : t / Sn = 0 ∨ t / Sn = 1 ∨ t / Sn = 2 := by
      generalize t / Sn = q at hq
      omega
    rcases hcases with h0 | h1 | h2
    · rw [h0]
      exact Color.ne_black_of_channel _ (by simp only [State.ofStage]; omega)
    · rw [h1]
      apply Color.ne_black_of_channel
      simp only [State.ofStage]
      rw [h204.1, h204.2.1, h204.2.2]
      omega
    · rw [h2]
      apply Color.ne_black_of_channel
      simp only [State.ofStage]
      rw [h102.1, h102.2.1, h102.2.2]
      omega
  · intro k
    have hfin : ((RippleEffect.new K color S D L).updateN neighbors (t + 1)).isFinished
        = true := by
      rw [RippleEffect.updateN_isFinished, hlived, hmax]
      simp only [decide_eq_true_eq]
      push_cast
      omega
    unfold RippleEffect.getColorForKey
    rw [if_pos hfin]

/-- Witness for the amended C16: the worked example, of colour `(255, 0, 0)`,
step duration 4 and max lifetime 20, has a `Fading_High` seed at tick 7 when
it is given max lifetime 8. -/
theorem RippleEffect.lifetime_round_trip_witness :
    ((RippleEffect.new 0 (Color.new 255 0 0) 4 2 8).updateN Example.rowNeighbors
        7).getColorForKey 0 ≠ Color.new 0 0 0
      ∧ ((RippleEffect.new 0 (Color.new 255 0 0) 4 2 8).updateN Example.rowNeighbors
        (7 + 1)).getColorForKey 1 = Color.new 0 0 0 :=
  ⟨(RippleEffect.lifetime_round_trip Example.rowNeighbors 0 (Color.new 255 0 0) 4 2 8 4 7
      (by decide) (by decide) (by decide)).2.2.1 (by decide),
    (RippleEffect.lifetime_round_trip Example.rowNeighbors 0 (Color.new 255 0 0) 4 2 8 4 7
      (by decide) (by decide) (by decide)).2.2.2 1⟩

/-- Counterexample to C17 as stated: before any update the instance built with
max lifetime 0 is finished and renders its seed black, while the instance
built with max lifetime 1 is not finished and renders its seed in the colour
of the instance. -/
theorem RippleEffect.lifetime_coercion_counterexample :
    (RippleEffect.new 0 (Color.new 255 0 0) 4 2 0).maxLifetime_ = 0
      ∧ (RippleEffect.new 0 (Color.new 255 0 0) 4 2 0).isFinished = true
      ∧ (RippleEffect.new 0 (Color.new 255 0 0) 4 2 1).isFinished = false
      ∧ (RippleEffect.new 0 (Color.new 255 0 0) 4 2 0).getColorForKey 0 = Color.new 0 0 0
      ∧ (RippleEffect.new 0 (Color.new 255 0 0) 4 2 1).getColorForKey 0
        = Color.new 255 0 0 := by
  decide

/-- C17 (amended). The max lifetime is stored as given. An instance built with
max lifetime `L ≤ 0` is finished from its construction on: after every number
of updates, zero included, `isFinished` holds and every key is black. After
every number `t ≥ 1` of updates the instance built with max lifetime 1 is
finished and black as well; before the first update that instance is not
finished and renders its seed in the colour of the instance. -/
theorem RippleEffect.lifetime_not_coerced (neighbors : Nat → List Nat) (K : Nat)
    (color : Color) (S D L : Int) (hL : L ≤ 0) :
    (RippleEffect.new K color S D L).maxLifetime_ = L
      ∧ (∀ t k, ((RippleEffect.new K color S D L).updateN neighbors t).isFinished = true
          ∧ ((RippleEffect.new K color S D L).updateN neighbors t).getColorForKey k
            = Color.new 0 0 0)
      ∧ (∀ t k, 1 ≤ t →
          ((RippleEffect.new K color S D 1).updateN neighbors t).isFinished = true
            ∧ ((RippleEffect.new K color S D 1).updateN neighbors t).getColorForKey k
              = Color.new 0 0 0)
      ∧ (RippleEffect.new K color S D 1).isFinished = false
      ∧ (RippleEffect.new K color S D 1).getColorForKey K = color := by
  have black : ∀ (e : RippleEffect) (k : Nat), e.isFinished = true →
      e.getColorForKey k = Color.new 0 0 0 := by
    intro e k h
    unfold RippleEffect.getColorForKey
    rw [if_pos h]
  refine ⟨rfl, ?_, ?_, ?_, ?_⟩
  · intro t k
    have hfin : ((RippleEffect.new K color S D L).updateN neighbors t).isFinished = true := by
      rw [RippleEffect.updateN_isFinished]
      simp only [RippleEffect.new, decide_eq_true_eq]
      omega
    exact ⟨hfin, black _ k hfin⟩
  · intro t k ht
    have hfin : ((RippleEffect.new K color S D 1).updateN neighbors t).isFinished = true := by
      rw [RippleEffect.updateN_isFinished]
      simp only [RippleEffect.new, decide_eq_true_eq]
      omega
    exact ⟨hfin, black _ k hfin⟩
  · simp [RippleEffect.isFinished, RippleEffect.new]
  · simp [RippleEffect.getColorForKey, RippleEffect.isFinished, RippleEffect.new,
      KeyMap.assign, KeyMap.find]

/-- Witness for the amended C17 with max lifetime `-3`. -/
theorem RippleEffect.lifetime_not_coerced_witness :
    ((RippleEffect.new 0 (Color.new 255 0 0) 4 2 (-3)).updateN Example.rowNeighbors
        0).isFinished = true
      ∧ ((RippleEffect.new 0 (Color.new 255 0 0) 4 2 (-3)).updateN Example.rowNeighbors
        0).getColorForKey 0 = Color.new 0 0 0 :=
  (RippleEffect.lifetime_not_coerced Example.rowNeighbors 0 (Color.new 255 0 0) 4 2 (-3)
    (by decide)).2.1 0 0

/-- C18. Coercion of the tuning parameters: an instance constructed with a step
duration `S ≤ 0` is, after every number of updates, in the same state as the
one constructed with step duration 1, and an instance constructed with a
propagation delay `D ≤ 0` is in the same state as the one constructed with
propagation delay 1; hence the active set, `isFinished` and every colour
agree. The coerced members are 1. -/
theorem RippleEffect.tuning_coercion (neighbors : Nat → List Nat) (K : Nat) (color : Color)
    (S D L : Int) (t : Nat) :
    (S ≤ 0 →
        (RippleEffect.new K color S D L).stepDuration_ = 1
          ∧ (RippleEffect.new K color S D L).updateN neighbors t
            = (RippleEffect.new K color 1 D L).updateN neighbors t
          ∧ ((RippleEffect.new K color S D L).updateN neighbors t).isFinished
            = ((RippleEffect.new K color 1 D L).updateN neighbors t).isFinished
          ∧ ∀ k, ((RippleEffect.new K color S D L).updateN neighbors t).getColorForKey k
            = ((RippleEffect.new K color 1 D L).updateN neighbors t).getColorForKey k)
      ∧ (D ≤ 0 →
        (RippleEffect.new K color S D L).propagationDelay_ = 1
          ∧ (RippleEffect.new K color S D L).updateN neighbors t
            = (RippleEffect.new K color S 1 L).updateN neighbors t
          ∧ ((RippleEffect.new K color S D L).updateN neighbors t).isFinished
            = ((RippleEffect.new K color S 1 L).updateN neighbors t).isFinished
          ∧ ∀ k, ((RippleEffect.new K color S D L).updateN neighbors t).getColorForKey k
            = ((RippleEffect.new K color S 1 L).updateN neighbors t).getColorForKey k) := by
  constructor
  · intro hS
    have hnot : ¬ (S > 0) := by omega
    have hnew : RippleEffect.new K color S D L = RippleEffect.new K color 1 D L := by
      simp [RippleEffect.new, hnot]
    refine ⟨by simp [RippleEffect.new, hnot], by rw [hnew], by rw [hnew], ?_⟩
    intro k
    rw [hnew]
  · intro hD
    have hnot : ¬ (D > 0) := by omega
    have hnew : RippleEffect.new K color S D L = RippleEffect.new K color S 1 L := by
      simp [RippleEffect.new, hnot]
    refine ⟨by simp [RippleEffect.new, hnot], by rw [hnew], by rw [hnew], ?_⟩
    intro k
    rw [hnew]

/-- Witness for C18: step duration `-2` and propagation delay 0 on the row of
three keys, after five updates. -/
theorem RippleEffect.tuning_coercion_witness :
    (RippleEffect.new 0 (Color.new 255 0 0) (-2) 1 100).updateN Example.rowNeighbors 5
        = (RippleEffect.new 0 (Color.new 255 0 0) 1 1 100).updateN Example.rowNeighbors 5
      ∧ (RippleEffect.new 0 (Color.new 255 0 0) 4 0 100).updateN Example.rowNeighbors 5
        = (RippleEffect.new 0 (Color.new 255 0 0) 4 1 100).updateN Example.rowNeighbors 5 :=
  ⟨((RippleEffect.tuning_coercion Example.rowNeighbors 0 (Color.new 255 0 0) (-2) 1 100 5).1
      (by decide)).2.1,
    ((RippleEffect.tuning_coercion Example.rowNeighbors 0 (Color.new 255 0 0) 4 0 100 5).2
      (by decide)).2.1⟩

/-- C19. Elapsed-tick counter: `framesLived_` is 0 at construction and equals
`t` after exactly `t` calls of update; every call of update, whether the instance
is finished or not, increases it by exactly 1, so it never decreases. -/
theorem RippleEffect.framesLived_after_updates (neighbors : Nat → List Nat) (K : Nat)
    (color : Color) (S D L : Int) (t : Nat) (e : RippleEffect) :
    (RippleEffect.new K color S D L).framesLived_ = 0
      ∧ ((RippleEffect.new K color S D L).updateN neighbors t).framesLived_ = (t : Int)
      ∧ (e.update neighbors).framesLived_ = e.framesLived_ + 1
      ∧ (e.updateN neighbors t).framesLived_ = e.framesLived_ + (t : Int)
      ∧ e.framesLived_ ≤ (e.updateN neighbors t).framesLived_ := by
  have h1 := (RippleEffect.updateN_fields neighbors (RippleEffect.new K color S D L) t).2.2.2.2
  have h2 := (RippleEffect.update_fields neighbors e).2.2.2.2
  have h3 := (RippleEffect.updateN_fields neighbors e t).2.2.2.2
  refine ⟨rfl, ?_, h2, h3, ?_⟩
  · rw [h1]
    simp [RippleEffect.new]
  · rw [h3]
    omega

/-- C20. Finished is terminal: if `isFinished` holds after a call of update,
then after every further number of updates `isFinished` still holds, the
active set is empty and every key is black. -/
theorem RippleEffect.finished_is_terminal (neighbors : Nat → List Nat) (e : RippleEffect)
    (m : Nat) (hfin : (e.update neighbors).isFinished = true) :
    ((e.update neighbors).updateN neighbors m).isFinished = true
      ∧ ((e.update neighbors).updateN neighbors m).activeKeys_ = []
      ∧ ∀ k, ((e.update neighbors).updateN neighbors m).getColorForKey k
          = Color.new 0 0 0 := by
  have hstill : ((e.update neighbors).updateN neighbors m).isFinished = true := by
    rw [RippleEffect.updateN_isFinished]
    simp only [RippleEffect.isFinished, decide_eq_true_eq] at hfin ⊢
    omega
  refine ⟨hstill, ?_, ?_⟩
  · cases m with
    | zero => exact RippleEffect.update_activeKeys_of_isFinished neighbors e hfin
    | succ m => exact RippleEffect.update_activeKeys_of_isFinished neighbors _ hstill
  · intro k
    unfold RippleEffect.getColorForKey
    rw [if_pos hstill]

/-- Witness for C20: the ripple of max lifetime 2 is finished after its second
update and is still finished, empty and black five updates later. -/
theorem RippleEffect.finished_is_terminal_witness :
    ((Example.dimRipple.updateN Example.rowNeighbors 1).update Example.rowNeighbors).isFinished
        = true
      ∧ (((Example.dimRipple.updateN Example.rowNeighbors 1).update
          Example.rowNeighbors).updateN Example.rowNeighbors 5).activeKeys_ = [] :=
  ⟨by decide,
    (RippleEffect.finished_is_terminal Example.rowNeighbors
      (Example.dimRipple.updateN Example.rowNeighbors 1) 5 (by decide)).2.1⟩

/-! ## Construction of an instance, colours -/

/-- C22. Initial state: right after construction with seed `K` the active set
is the single entry of `K`, `Ignited` with counter 0, and the elapsed counter
is 0; when the max lifetime is positive, `getColorForKey` gives the colour of
the instance for `K` and black for every other key. -/
theorem RippleEffect.initial_state (K : Nat) (color : Color) (S D L : Int) :
    (RippleEffect.new K color S D L).activeKeys_ = [(K, ⟨State.Ignited, 0⟩)]
      ∧ (RippleEffect.new K color S D L).framesLived_ = 0
      ∧ (L > 0 →
          (RippleEffect.new K color S D L).getColorForKey K = color
            ∧ ∀ k, k ≠ K →
              (RippleEffect.new K color S D L).getColorForKey k = Color.new 0 0 0) := by
  refine ⟨rfl, rfl, ?_⟩
  intro hL
  have hnf : ¬ ((0 : Int) ≥ L) := by omega
  constructor
  · simp [RippleEffect.getColorForKey, RippleEffect.isFinished, RippleEffect.new,
      KeyMap.assign, KeyMap.find, hnf]
  · intro k hk
    simp [RippleEffect.getColorForKey, RippleEffect.isFinished, RippleEffect.new,
      KeyMap.assign, KeyMap.find, hnf, Ne.symm hk]

/-- Witness for C22: the worked example, seeded at key 0 with max lifetime 20. -/
theorem RippleEffect.initial_state_witness :
    Example.workedRipple.getColorForKey 0 = Color.new 255 0 0
      ∧ Example.workedRipple.getColorForKey 1 = Color.new 0 0 0 :=
  ⟨((RippleEffect.initial_state 0 (Color.new 255 0 0) 4 2 20).2.2 (by decide)).1,
    ((RippleEffect.initial_state 0 (Color.new 255 0 0) 4 2 20).2.2 (by decide)).2 1
      (by decide)⟩

/-- C30. Colour channel range: every channel of `Color(r, g, b)` is
`max(0, min(255, input))`; every channel of every colour lies in `[0, 255]`,
those of the results of `add` and `scale` among them. -/
theorem Color.channel_range (r g b : Int) (c other : Color) (intensity : Nat) :
    ((Color.new r g b).red_ = max 0 (min 255 r)
        ∧ (Color.new r g b).green_ = max 0 (min 255 g)
        ∧ (Color.new r g b).blue_ = max 0 (min 255 b))
      ∧ ((0 ≤ c.red_ ∧ c.red_ ≤ 255) ∧ (0 ≤ c.green_ ∧ c.green_ ≤ 255)
        ∧ (0 ≤ c.blue_ ∧ c.blue_ ≤ 255))
      ∧ ((0 ≤ (c.add other).red_ ∧ (c.add other).red_ ≤ 255)
        ∧ (0 ≤ (c.add other).green_ ∧ (c.add other).green_ ≤ 255)
        ∧ (0 ≤ (c.add other).blue_ ∧ (c.add other).blue_ ≤ 255))
      ∧ ((0 ≤ (c.scale intensity).red_ ∧ (c.scale intensity).red_ ≤ 255)
        ∧ (0 ≤ (c.scale intensity).green_ ∧ (c.scale intensity).green_ ≤ 255)
        ∧ (0 ≤ (c.scale intensity).blue_ ∧ (c.scale intensity).blue_ ≤ 255)) :=
  ⟨⟨rfl, rfl, rfl⟩, ⟨c.red_range, c.green_range, c.blue_range⟩,
    ⟨(c.add other).red_range, (c.add other).green_range, (c.add other).blue_range⟩,
    ⟨(c.scale intensity).red_range, (c.scale intensity).green_range,
      (c.scale intensity).blue_range⟩⟩

/-- C25. Saturating additive blend: every channel of `a.add(b)` is the sum of
the two channels capped at 255; `(100, 0, 0).add((200, 0, 0))` is
`(255, 0, 0)`; and when exactly two effects survive an update of a manager
with a keyboard and colour a key `(100, 0, 0)` and `(200, 0, 0)`, the entry of
the key in the frame buffer is `(255, 0, 0)`. -/
theorem Color.add_saturates (a b : Color) (m : LightingManager) (kb : Keyboard)
    (first second i : Nat) :
    ((a.add b).red_ = min 255 (a.red_ + b.red_)
        ∧ (a.add b).green_ = min 255 (a.green_ + b.green_)
        ∧ (a.add b).blue_ = min 255 (a.blue_ + b.blue_))
      ∧ (Color.new 100 0 0).add (Color.new 200 0 0) = Color.new 255 0 0
      ∧ (m.keyboard_ = some kb → i < kb.getKeys.length →
          m.update.activeEffects_ = [first, second] →
          m.update.effectPool_.getColorForKeyAt first i = Color.new 100 0 0 →
          m.update.effectPool_.getColorForKeyAt second i = Color.new 200 0 0 →
          m.update.getFrameBuffer[i]? = some (Color.new 255 0 0)) := by
  refine ⟨⟨Color.add_red a b, Color.add_green a b, Color.add_blue a b⟩, by decide, ?_⟩
  intro hkb hi hlive h1 h2
  have hfb : m.update.getFrameBuffer
      = LightingManager.render m.update.effectPool_ m.update.activeEffects_ kb.getKeys.length := by
    simp only [LightingManager.update, LightingManager.getFrameBuffer, hkb]
  rw [hfb, (LightingManager.render_spec _ _ _).2 i hi, hlive]
  simp only [List.map_cons, List.map_nil, List.foldl_cons, List.foldl_nil, h1, h2]
  decide

/-- Witness for C25: two ripples seeded at key 0 of the row of three keys, of
the colours `(100, 0, 0)` and `(200, 0, 0)`; after one update key 0 is
`(255, 0, 0)` in the frame. -/
theorem Color.add_saturates_witness :
    Example.blendManager.update.activeEffects_ = [19, 18]
      ∧ Example.blendManager.update.getFrameBuffer[0]? = some (Color.new 255 0 0) :=
  ⟨by decide,
    (Color.add_saturates (Color.new 100 0 0) (Color.new 200 0 0) Example.blendManager
      Example.rowKeyboard 19 18 0).2.2 (by decide) (by decide) (by decide) (by decide)
      (by decide)⟩

/-! ## Release of a slot, shape of the frame buffer, a new ripple -/

/-- C24. Release makes capacity available: on a pool with an empty free list,
after `destroy` of a live pointer the next `create` succeeds, in the slot just
released, and the `create` after that returns null. In every pool `destroy` of
a pointer other than null puts exactly that slot on the free list, which so
grows by exactly one. -/
theorem EffectPool.release_makes_capacity (p : EffectPool) (effect : Nat)
    (startKey1 : Nat) (color1 : Color) (S1 D1 L1 : Int)
    (startKey2 : Nat) (color2 : Color) (S2 D2 L2 : Int)
    (hfull : p.freeSlots_ = []) (hlive : (p.deref effect).isSome = true) :
    ((p.destroy (some effect)).create startKey1 color1 S1 D1 L1).1 = some effect
      ∧ ((p.destroy (some effect)).create startKey1 color1 S1 D1 L1).2.deref effect
        = some (RippleEffect.new startKey1 color1 S1 D1 L1)
      ∧ (((p.destroy (some effect)).create startKey1 color1 S1 D1 L1).2.create
          startKey2 color2 S2 D2 L2).1 = none
      ∧ ∀ (q : EffectPool) (other : Nat),
          (q.destroy (some other)).freeSlots_ = q.freeSlots_ ++ [other]
            ∧ (q.destroy (some other)).freeSlots_.length = q.freeSlots_.length + 1 := by
  have hlt := EffectPool.lt_of_deref_isSome p effect hlive
  have hcreate : (p.destroy (some effect)).create startKey1 color1 S1 D1 L1
      = (some effect,
          { memoryPool_ := (p.memoryPool_.set effect none).set effect
              (some (RippleEffect.new startKey1 color1 S1 D1 L1))
            freeSlots_ := [] }) := by
    simp [EffectPool.destroy, EffectPool.create, hfull]
  refine ⟨by rw [hcreate], ?_, ?_, ?_⟩
  · rw [hcreate]
    simp [EffectPool.deref, List.getElem?_set, hlt]
  · rw [hcreate]
    simp [EffectPool.create]
  · intro q other
    simp [EffectPool.destroy]

/-- Witness for C24: the full pool of the manager after `MAX_ACTIVE_EFFECTS`
requests, releasing slot 7. -/
theorem EffectPool.release_makes_capacity_witness :
    Example.fullManager.effectPool_.freeSlots_ = []
      ∧ ((Example.fullManager.effectPool_.destroy (some 7)).create 1 (Color.new 0 255 0) 3 1
          50).1 = some 7
      ∧ (((Example.fullManager.effectPool_.destroy (some 7)).create 1 (Color.new 0 255 0) 3 1
          50).2.create 2 (Color.new 0 0 255) 3 1 50).1 = none :=
  ⟨by decide,
    (EffectPool.release_makes_capacity Example.fullManager.effectPool_ 7 1
      (Color.new 0 255 0) 3 1 50 2 (Color.new 0 0 255) 3 1 50 (by decide) (by decide)).1,
    (EffectPool.release_makes_capacity Example.fullManager.effectPool_ 7 1
      (Color.new 0 255 0) 3 1 50 2 (Color.new 0 0 255) 3 1 50 (by decide) (by decide)).2.2.1⟩

theorem LightingManager.call_frameBuffer (kb : Keyboard) (m : LightingManager)
    (c : LightingManager.Call)
    (hm : m.keyboard_ = some kb ∧ m.frameBuffer_.length = kb.getKeys.length) :
    (m.call c).keyboard_ = some kb ∧ (m.call c).frameBuffer_.length = kb.getKeys.length := by
  obtain ⟨hkb, hlen⟩ := hm
  cases c with
  | addRippleEffect startKey color stepDuration propagationDelay maxLifetime =>
    simp only [LightingManager.call, LightingManager.addRippleEffect]
    split <;> exact ⟨hkb, hlen⟩
  | update =>
    simp only [LightingManager.call, LightingManager.update, hkb]
    exact ⟨trivial, (LightingManager.render_spec _ _ _).1⟩

/-- C28. Frame-buffer shape: for a manager constructed with a keyboard the
frame buffer has one black entry per key right after construction, and its
length is the number of keys after every sequence of `addRippleEffect` and
`update` calls. -/
theorem LightingManager.frameBuffer_shape (kb : Keyboard)
    (calls : List LightingManager.Call) :
    (LightingManager.new (some kb)).getFrameBuffer
        = List.replicate kb.getKeys.length (Color.new 0 0 0)
      ∧ ((LightingManager.new (some kb)).run calls).getFrameBuffer.length
        = kb.getKeys.length := by
  refine ⟨rfl, ?_⟩
  exact (LightingManager.run_induction
    (fun m => m.keyboard_ = some kb ∧ m.frameBuffer_.length = kb.getKeys.length)
    (LightingManager.call_frameBuffer kb) (LightingManager.new (some kb)) calls
    ⟨rfl, by simp [LightingManager.new]⟩).2

/-- C23. A new ripple is not retroactive: on a manager reached from its
construction by a sequence of calls, whose pool has a free slot,
`addRippleEffect` leaves the keyboard, the frame buffer and every effect that
is already live unchanged, takes exactly one slot off the free list and
appends it to the list of live effects; the slot holds the instance as
constructed, with elapsed counter 0 and the seed `Ignited` with counter 0, and
step 1 of the next `update` is the first to call `update` on it. -/
theorem LightingManager.addRippleEffect_not_retroactive (keyboard : Option Keyboard)
    (calls : List LightingManager.Call) (m : LightingManager)
    (hm : m = (LightingManager.new keyboard).run calls)
    (startKey : Nat) (color : Color) (stepDuration propagationDelay maxLifetime : Int)
    (hfree : m.effectPool_.freeSlots_ ≠ []) :
    ∃ slot,
      (m.addRippleEffect startKey color stepDuration propagationDelay
          maxLifetime).activeEffects_ = m.activeEffects_ ++ [slot]
        ∧ m.effectPool_.freeSlots_
          = (m.addRippleEffect startKey color stepDuration propagationDelay
              maxLifetime).effectPool_.freeSlots_ ++ [slot]
        ∧ (m.addRippleEffect startKey color stepDuration propagationDelay
            maxLifetime).frameBuffer_ = m.frameBuffer_
        ∧ (m.addRippleEffect startKey color stepDuration propagationDelay
            maxLifetime).keyboard_ = m.keyboard_
        ∧ (∀ effect ∈ m.activeEffects_,
            (m.addRippleEffect startKey color stepDuration propagationDelay
              maxLifetime).effectPool_.deref effect = m.effectPool_.deref effect)
        ∧ (m.addRippleEffect startKey color stepDuration propagationDelay
            maxLifetime).effectPool_.deref slot
          = some (RippleEffect.new startKey color stepDuration propagationDelay maxLifetime)
        ∧ (RippleEffect.new startKey color stepDuration propagationDelay
            maxLifetime).framesLived_ = 0
        ∧ (RippleEffect.new startKey color stepDuration propagationDelay
            maxLifetime).activeKeys_ = [(startKey, ⟨State.Ignited, 0⟩)]
        ∧ ∀ kb, m.keyboard_ = some kb →
            (LightingManager.tickAll kb.neighborsOf
              (m.addRippleEffect startKey color stepDuration propagationDelay
                maxLifetime).activeEffects_
              (m.addRippleEffect startKey color stepDuration propagationDelay
                maxLifetime).effectPool_).deref slot
            = some ((RippleEffect.new startKey color stepDuration propagationDelay
                maxLifetime).update kb.neighborsOf) := by
  have hd : m.Disciplined := by
    rw [hm]
    exact LightingManager.run_induction LightingManager.Disciplined
      LightingManager.disciplined_call (LightingManager.new keyboard) calls
      (LightingManager.disciplined_new keyboard)
  have hd' := LightingManager.disciplined_addRippleEffect m startKey color stepDuration
    propagationDelay maxLifetime hd
  obtain ⟨h1, h2, h3, h4, h5, h6⟩ := hd
  obtain ⟨slot, hslot, hfs, hderef, hmem⟩ := EffectPool.create_of_ne_nil m.effectPool_ startKey
    color stepDuration propagationDelay maxLifetime hfree
  have hadd : m.addRippleEffect startKey color stepDuration propagationDelay maxLifetime
      = { m with
          effectPool_ := (m.effectPool_.create startKey color stepDuration propagationDelay
            maxLifetime).2
          activeEffects_ := m.activeEffects_ ++ [slot] } := by
    unfold LightingManager.addRippleEffect
    simp only [hslot]
  have hslotfree : slot ∈ m.effectPool_.freeSlots_ := by
    rw [hfs]; simp
  have hlt : slot < m.effectPool_.memoryPool_.length := by
    rw [h6]; exact (h5 slot hslotfree).2
  have hnew : (m.effectPool_.create startKey color stepDuration propagationDelay
      maxLifetime).2.deref slot
        = some (RippleEffect.new startKey color stepDuration propagationDelay maxLifetime) := by
    rw [hderef, if_pos hlt]
  refine ⟨slot, by rw [hadd], by rw [hadd]; exact hfs, by rw [hadd], by rw [hadd], ?_,
    by rw [hadd]; exact hnew, rfl, rfl, ?_⟩
  · intro effect hin
    have hne : slot ≠ effect := by
      intro heq
      rw [← heq] at hin
      exact h3 slot hin hslotfree
    rw [hadd]
    simp only [EffectPool.deref, hmem, List.getD_eq_getElem?_getD, List.getElem?_set, hne,
      if_false]
  · intro kb _
    rw [LightingManager.deref_tickAll kb.neighborsOf _ _ hd'.1, hadd]
    simp only [List.mem_append, List.mem_singleton, or_true, if_true, hnew, Option.map_some']

/-- Witness for C23: a third ripple requested on the manager with two
ripples. -/
theorem LightingManager.addRippleEffect_not_retroactive_witness :
    ∃ slot,
      (Example.twoRipples.addRippleEffect 2 (Color.new 0 0 255) 3 1 9).activeEffects_
          = Example.twoRipples.activeEffects_ ++ [slot]
        ∧ Example.twoRipples.effectPool_.freeSlots_
          = (Example.twoRipples.addRippleEffect 2 (Color.new 0 0 255) 3 1
              9).effectPool_.freeSlots_ ++ [slot]
        ∧ (Example.twoRipples.addRippleEffect 2 (Color.new 0 0 255) 3 1 9).frameBuffer_
          = Example.twoRipples.frameBuffer_ := by
  obtain ⟨slot, h1, h2, h3, _⟩ := LightingManager.addRippleEffect_not_retroactive
    (some Example.rowKeyboard)
    [LightingManager.Call.addRippleEffect 0 (Color.new 100 0 0) 2 1 5,
      LightingManager.Call.addRippleEffect 1 (Color.new 200 10 0) 2 1 3]
    Example.twoRipples (by decide) 2 (Color.new 0 0 255) 3 1 9 (by decide)
  exact ⟨slot, h1, h2, h3⟩

/-! ## Construction of the key graph -/

theorem Keyboard.positions_of_fixed {ks keys : List Key}
    (h : ks.map Key.fixed = keys.map Key.fixed) :
    ks.map Key.position_ = keys.map Key.position_ := by
  have h1 : (ks.map Key.fixed).map (fun t => t.2.1) = (keys.map Key.fixed).map (fun t => t.2.1) := by
    rw [h]
  simpa [List.map_map, Function.comp_def, Key.fixed] using h1

theorem Keyboard.neighborsOf_eq (ks : List Key) (i : Nat) :
    (Keyboard.mk ks).neighborsOf i = ((ks[i]?).map Key.neighbors).getD [] := by
  unfold Keyboard.neighborsOf
  simp only [List.get?_eq_getElem?]
  cases ks[i]? <;> rfl

/-- One test of the double loop: the members that are not written stay, and
the pointer `j` is pushed onto the neighbours of key `i` exactly when `i ≠ j`
and the test succeeds. -/
theorem Keyboard.visitPair_spec (fl : ℚ → ℚ) (i j : Nat) (ks : List Key) :
    (Keyboard.visitPair fl i j ks).map Key.fixed = ks.map Key.fixed
      ∧ ∀ other, (Keyboard.mk (Keyboard.visitPair fl i j ks)).neighborsOf other
          = if other = i ∧ i < ks.length ∧ i ≠ j
                ∧ Keyboard.near fl (ks.map Key.position_) i j = true
            then (Keyboard.mk ks).neighborsOf other ++ [j]
            else (Keyboard.mk ks).neighborsOf other := by
  unfold Keyboard.visitPair
  by_cases hij : i = j
  · simp [hij]
  · simp only [hij, if_false, List.get?_eq_getElem?, Keyboard.near, List.getElem?_map]
    cases hi : ks[i]? with
    | none =>
      have hge : ¬ i < ks.length := by
        intro hlt
        rw [List.getElem?_eq_getElem hlt] at hi
        exact Option.noConfusion hi
      simp [hge]
    | some a =>
      have hlt : i < ks.length := by
        by_contra hge
        rw [List.getElem?_eq_none (by omega)] at hi
        exact Option.noConfusion hi
      cases hj : ks[j]? with
      | none => simp
      | some b =>
        by_cases hnear : a.getPosition.distanceManhattan fl b.getPosition
            < Keyboard.NEIGHBOR_DISTANCE_THRESHOLD fl
        · have hnear' : a.position_.distanceManhattan fl b.position_
              < Keyboard.NEIGHBOR_DISTANCE_THRESHOLD fl := hnear
          simp only [hnear, if_true, Option.map_some', hnear', decide_True, ne_eq,
            not_false_eq_true, and_true, hlt, true_and]
          constructor
          · apply List.ext_getElem?
            intro n
            simp only [List.getElem?_map, List.getElem?_set, hlt, if_true]
            by_cases hn : i = n
            · subst hn
              simp [hi, Key.fixed]
            · simp [hn]
          · intro other
            rw [Keyboard.neighborsOf_eq, Keyboard.neighborsOf_eq, List.getElem?_set]
            by_cases ho : other = i
            · subst ho
              simp [hlt, hi, hij]
            · simp [ho, Ne.symm ho]
        · have hnear' : ¬ a.position_.distanceManhattan fl b.position_
              < Keyboard.NEIGHBOR_DISTANCE_THRESHOLD fl := hnear
          simp [hnear, hnear']

/-- The inner loop for key `i` over the indices `js`: the pointers of `js` that
pass the test are pushed onto the neighbours of key `i`, in order. -/
theorem Keyboard.inner_spec (fl : ℚ → ℚ) (i : Nat) (js : List Nat) (ks : List Key) :
    (js.foldl (fun ks j => Keyboard.visitPair fl i j ks) ks).map Key.fixed = ks.map Key.fixed
      ∧ ∀ other,
          (Keyboard.mk (js.foldl (fun ks j => Keyboard.visitPair fl i j ks) ks)).neighborsOf other
          = if other = i ∧ i < ks.length then
              (Keyboard.mk ks).neighborsOf other
                ++ js.filter (fun j => decide (i ≠ j)
                    && Keyboard.near fl (ks.map Key.position_) i j)
            else (Keyboard.mk ks).neighborsOf other := by
  induction js generalizing ks with
  | nil =>
    refine ⟨rfl, ?_⟩
    intro other
    simp
  | cons j rest ih =>
    obtain ⟨v1, v2⟩ := Keyboard.visitPair_spec fl i j ks
    obtain ⟨i1, i2⟩ := ih (Keyboard.visitPair fl i j ks)
    have hpos := Keyboard.positions_of_fixed v1
    have hlen : (Keyboard.visitPair fl i j ks).length = ks.length := by
      have := congrArg List.length v1
      simpa using this
    refine ⟨by rw [List.foldl_cons, i1, v1], ?_⟩
    intro other
    rw [List.foldl_cons, i2 other, v2 other, hpos, hlen]
    by_cases ho : other = i ∧ i < ks.length
    · obtain ⟨ho1, ho2⟩ := ho
      by_cases hp : i ≠ j ∧ Keyboard.near fl (ks.map Key.position_) i j = true
      · simp [ho1, ho2, hp.1, hp.2, List.filter_cons]
      · have hp' : (decide (i ≠ j) && Keyboard.near fl (ks.map Key.position_) i j) = false := by
          by_cases h1 : i = j
          · simp [h1]
          · have h2 : Keyboard.near fl (ks.map Key.position_) i j = false := by
              cases hn : Keyboard.near fl (ks.map Key.position_) i j with
              | false => rfl
              | true => exact absurd ⟨h1, hn⟩ hp
            simp [h2]
        have hp'' : ¬ (i = i ∧ i < ks.length ∧ i ≠ j
            ∧ Keyboard.near fl (ks.map Key.position_) i j = true) := by
          rintro ⟨_, _, h1, h2⟩
          exact hp ⟨h1, h2⟩
        rw [ho1, if_pos ⟨rfl, ho2⟩, if_neg hp'', List.filter_cons, hp']
        simp [ho2]
    · have ho' : ¬ (other = i ∧ i < ks.length ∧ i ≠ j
          ∧ Keyboard.near fl (ks.map Key.position_) i j = true) := by
        rintro ⟨h1, h2, _⟩
        exact ho ⟨h1, h2⟩
      rw [if_neg ho, if_neg ho', if_neg ho]

/-- The outer loop over pairwise distinct indices `rows`, the inner loop
running over `cols`. -/
theorem Keyboard.outer_spec (fl : ℚ → ℚ) (rows cols : List Nat) (hnodup : rows.Nodup)
    (ks : List Key) :
    (rows.foldl (fun ks i => cols.foldl (fun ks j => Keyboard.visitPair fl i j ks) ks)
        ks).map Key.fixed = ks.map Key.fixed
      ∧ ∀ other,
          (Keyboard.mk (rows.foldl
            (fun ks i => cols.foldl (fun ks j => Keyboard.visitPair fl i j ks) ks)
            ks)).neighborsOf other
          = if other ∈ rows ∧ other < ks.length then
              (Keyboard.mk ks).neighborsOf other
                ++ cols.filter (fun j => decide (other ≠ j)
                    && Keyboard.near fl (ks.map Key.position_) other j)
            else (Keyboard.mk ks).neighborsOf other := by
  induction rows generalizing ks with
  | nil =>
    refine ⟨rfl, ?_⟩
    intro other
    simp
  | cons i rest ih =>
    obtain ⟨hnotin, hrest⟩ := List.nodup_cons.mp hnodup
    obtain ⟨n1, n2⟩ := Keyboard.inner_spec fl i cols ks
    obtain ⟨o1, o2⟩ := ih hrest (cols.foldl (fun ks j => Keyboard.visitPair fl i j ks) ks)
    have hpos := Keyboard.positions_of_fixed n1
    have hlen : (cols.foldl (fun ks j => Keyboard.visitPair fl i j ks) ks).length
        = ks.length := by
      have := congrArg List.length n1
      simpa using this
    refine ⟨by rw [List.foldl_cons, o1, n1], ?_⟩
    intro other
    rw [List.foldl_cons, o2 other, n2 other, hpos, hlen]
    by_cases ho : other = i
    · subst ho
      by_cases hlt : other < ks.length
      · simp [hnotin, hlt]
      · simp [hnotin, hlt]
    · by_cases hmem : other ∈ rest
      · simp [ho, hmem]
      · simp [ho, hmem]

/-- The neighbour list of every key after `buildNeighborMaps`, on keys whose
neighbour lists are empty before. -/
theorem Keyboard.neighborsOf_buildNeighborMaps (fl : ℚ → ℚ) (keys : List Key)
    (hempty : ∀ key ∈ keys, key.neighbors = []) (i : Nat) :
    (Keyboard.mk (Keyboard.buildNeighborMaps fl keys)).neighborsOf i
      = if i < keys.length then
          (List.range keys.length).filter
            (fun j => decide (i ≠ j) && Keyboard.near fl (keys.map Key.position_) i j)
        else [] := by
  have hnil : (Keyboard.mk keys).neighborsOf i = [] := by
    unfold Keyboard.neighborsOf
    simp only [List.get?_eq_getElem?]
    cases hk : keys[i]? with
    | none => rfl
    | some key => exact hempty key (List.getElem?_mem hk)
  unfold Keyboard.buildNeighborMaps
  rw [(Keyboard.outer_spec fl (List.range keys.length) (List.range keys.length)
    (List.nodup_range _) keys).2 i, hnil]
  by_cases hlt : i < keys.length
  · simp [hlt]
  · simp [hlt]

theorem Keyboard.near_iff (fl : ℚ → ℚ) (keys : List Key) (i j : Nat) :
    Keyboard.near fl (keys.map Key.position_) i j = true
      ↔ ∃ a b, keys.get? i = some a ∧ keys.get? j = some b
          ∧ a.getPosition.distanceManhattan fl b.getPosition
            < Keyboard.NEIGHBOR_DISTANCE_THRESHOLD fl := by
  simp only [Keyboard.near, List.get?_eq_getElem?, List.getElem?_map, Key.getPosition]
  cases keys[i]? with
  | none => simp
  | some a =>
    cases keys[j]? with
    | none => simp
    | some b => simp

theorem Keyboard.mem_neighborsOf_buildNeighborMaps (fl : ℚ → ℚ) (keys : List Key)
    (hempty : ∀ key ∈ keys, key.neighbors = []) (i j : Nat) :
    j ∈ (Keyboard.mk (Keyboard.buildNeighborMaps fl keys)).neighborsOf i
      ↔ i ≠ j ∧ ∃ a b, keys.get? i = some a ∧ keys.get? j = some b
          ∧ a.getPosition.distanceManhattan fl b.getPosition
            < Keyboard.NEIGHBOR_DISTANCE_THRESHOLD fl := by
  rw [Keyboard.neighborsOf_buildNeighborMaps fl keys hempty i, ← Keyboard.near_iff]
  by_cases hlt : i < keys.length
  · rw [if_pos hlt]
    simp only [List.mem_filter, List.mem_range, Bool.and_eq_true, decide_eq_true_eq]
    constructor
    · rintro ⟨_, h1, h2⟩
      exact ⟨h1, h2⟩
    · rintro ⟨h1, h2⟩
      refine ⟨?_, h1, h2⟩
      by_contra hge
      have hnone : (keys.map Key.position_)[j]? = none :=
        List.getElem?_eq_none (by simpa using hge)
      simp only [Keyboard.near, List.get?_eq_getElem?, hnone] at h2
      split at h2 <;> simp_all
  · rw [if_neg hlt]
    have hnone : (keys.map Key.position_)[i]? = none :=
      List.getElem?_eq_none (by simpa using hlt)
    have hfalse : Keyboard.near fl (keys.map Key.position_) i j = false := by
      simp only [Keyboard.near, List.get?_eq_getElem?, hnone]
    simp [hfalse]

theorem Float32.log_eq (q : ℚ) (e : Int) (hq : 0 < q) (he1 : (2 : ℚ) ^ e ≤ q)
    (he2 : q < (2 : ℚ) ^ (e + 1)) : Int.log 2 q = e := by
  have h1 : e ≤ Int.log 2 q := by
    apply (Int.zpow_le_iff_le_log (by norm_num) hq).mp
    simpa using he1
  have h2 : Int.log 2 q < e + 1 := by
    apply (Int.lt_zpow_iff_log_lt (by norm_num) hq).mp
    simpa using he2
  omega

/-- The value of the rounding when the binade of the number and the nearest
integer multiple of the unit in the last place are known. -/
theorem Float32.round_eq (q : ℚ) (e r : Int) (he1 : (2 : ℚ) ^ e ≤ |q|)
    (he2 : |q| < (2 : ℚ) ^ (e + 1)) (hmin : -126 ≤ e)
    (hr1 : (r : ℚ) - 1 / 2 < q / 2 ^ (e - 23)) (hr2 : q / 2 ^ (e - 23) < r + 1 / 2) :
    Float32.round q = r * 2 ^ (e - 23) := by
  have hpos : (0 : ℚ) < 2 ^ e := by positivity
  have habs : 0 < |q| := lt_of_lt_of_le hpos he1
  have hq : q ≠ 0 := abs_pos.mp habs
  have hlog := Float32.log_eq |q| e habs he1 he2
  unfold Float32.round
  rw [if_neg hq]
  simp only [hlog, max_eq_left hmin]
  by_cases hge : (r : ℚ) ≤ q / 2 ^ (e - 23)
  · have hfloor : ⌊q / (2 : ℚ) ^ (e - 23)⌋ = r := by
      rw [Int.floor_eq_iff]
      constructor
      · exact hge
      · linarith
    rw [hfloor, if_pos (by linarith)]
  · have hfloor : ⌊q / (2 : ℚ) ^ (e - 23)⌋ = r - 1 := by
      rw [Int.floor_eq_iff]
      push_cast
      constructor
      · linarith
      · linarith
    rw [hfloor]
    push_cast
    rw [if_neg (by linarith), if_pos (by linarith)]
    ring

/-- A dyadic number with a numerator of at most 24 bits is a `float`: the
rounding leaves it as it is. -/
theorem Float32.round_dyadic (n : Int) (k : Nat) (hn : |n| < 2 ^ 24) (hk : k ≤ 149) :
    Float32.round ((n : ℚ) / 2 ^ k) = (n : ℚ) / 2 ^ k := by
  by_cases hn0 : n = 0
  · simp [hn0, Float32.round]
  have hq : (n : ℚ) / 2 ^ k ≠ 0 := by
    have : (n : ℚ) ≠ 0 := by exact_mod_cast hn0
    positivity
  have habs : 0 < |(n : ℚ) / 2 ^ k| := abs_pos.mpr hq
  have hlt : |(n : ℚ) / 2 ^ k| < (2 : ℚ) ^ ((24 : Int) - k) := by
    rw [abs_div, abs_of_pos (by positivity : (0 : ℚ) < 2 ^ k), zpow_sub₀ (by norm_num),
      zpow_natCast]
    apply div_lt_div_of_pos_right _ (by positivity)
    have : ((|n| : Int) : ℚ) < 2 ^ (24 : Nat) := by exact_mod_cast hn
    rw [Int.cast_abs] at this
    rw [show ((24 : Int)) = ((24 : Nat) : Int) from rfl, zpow_natCast]
    exact this
  have hlog : Int.log 2 |(n : ℚ) / 2 ^ k| < 24 - k := by
    apply (Int.lt_zpow_iff_log_lt (by norm_num) habs).mp
    simpa using hlt
  unfold Float32.round
  rw [if_neg hq]
  simp only
  generalize he : max (Int.log 2 |(n : ℚ) / 2 ^ k|) (-126) = e
  have hle : e ≤ 23 - k := by
    rw [← he]
    apply max_le
    · omega
    · omega
  obtain ⟨J, hJ⟩ : ∃ J : Nat, (J : Int) = 23 - k - e := ⟨(23 - k - e).toNat, by omega⟩
  have hm : (n : ℚ) / 2 ^ k / 2 ^ (e - 23) = ((n * 2 ^ J : Int) : ℚ) := by
    have he' : e - 23 = -((J : Int) + k) := by omega
    rw [he', zpow_neg, div_div, ← zpow_natCast (2 : ℚ) k]
    push_cast
    rw [zpow_add₀ (by norm_num), zpow_natCast, zpow_natCast]
    field_simp
    ring
  rw [hm, Int.floor_intCast, sub_self, if_pos (by norm_num), ← hm]
  have hu : (2 : ℚ) ^ (e - 23) ≠ 0 := by positivity
  field_simp
  ring

theorem Float32.threshold : Float32.round (8 / 5) = 13421773 / 8388608 := by
  rw [Float32.round_eq (8 / 5) 0 13421773 (by norm_num [abs_of_pos])
    (by norm_num [abs_of_pos]) (by norm_num) (by norm_num) (by norm_num)]
  norm_num

/-- On positions whose coordinates are multiples of `1/8` of magnitude at most
`2 ^ 20 / 8`, no operation of `distanceManhattan` rounds in single
precision. -/
theorem Float32.distance_grid (a b c d : Int) (ha : |a| ≤ 2 ^ 20) (hb : |b| ≤ 2 ^ 20)
    (hc : |c| ≤ 2 ^ 20) (hd : |d| ≤ 2 ^ 20) :
    (Position.mk ((a : ℚ) / 8) ((b : ℚ) / 8)).distanceManhattan Float32.round
        (Position.mk ((c : ℚ) / 8) ((d : ℚ) / 8))
      = ((|c - a| + |d - b| : Int) : ℚ) / 8 := by
  have ha' := abs_le.mp ha
  have hb' := abs_le.mp hb
  have hc' := abs_le.mp hc
  have hd' := abs_le.mp hd
  have hx : |c - a| ≤ 2 ^ 21 := abs_le.mpr ⟨by omega, by omega⟩
  have hy : |d - b| ≤ 2 ^ 21 := abs_le.mpr ⟨by omega, by omega⟩
  have hx0 := abs_nonneg (c - a)
  have hy0 := abs_nonneg (d - b)
  have ex : (c : ℚ) / 8 - (a : ℚ) / 8 = ((c - a : Int) : ℚ) / 2 ^ 3 := by
    push_cast
    ring
  have ey : (d : ℚ) / 8 - (b : ℚ) / 8 = ((d - b : Int) : ℚ) / 2 ^ 3 := by
    push_cast
    ring
  have esum : |((c - a : Int) : ℚ) / 2 ^ 3| + |((d - b : Int) : ℚ) / 2 ^ 3|
      = ((|c - a| + |d - b| : Int) : ℚ) / 2 ^ 3 := by
    rw [abs_div, abs_div, abs_of_pos (by norm_num : (0 : ℚ) < 2 ^ 3), ← Int.cast_abs,
      ← Int.cast_abs]
    push_cast
    ring
  simp only [Position.distanceManhattan]
  rw [ex, ey, Float32.round_dyadic (c - a) 3 (by omega) (by norm_num),
    Float32.round_dyadic (d - b) 3 (by omega) (by norm_num), esum,
    Float32.round_dyadic (|c - a| + |d - b|) 3
      (by rw [abs_of_nonneg (by omega)]; omega) (by norm_num)]
  norm_num

/-- C26, counterexample. In single precision the test of
`Keyboard::buildNeighborMaps` is not the test `|x_i - x_j| + |y_i - y_j| < 1.6`,
in either direction. The keys at `(0, 0)` and `(1.5, 3355443 / 2 ^ 25)` are at
a distance below `1.6`, but the sum rounds to `1.6f`, which is not below the
threshold `1.6f`: key 1 is not a neighbour of key 0. The keys at
`(-3 / 2 ^ 26, 0)` and `(1.5, 13421767 / 2 ^ 27)` are at a distance of at
least `1.6`, but the difference of the abscissas rounds to `1.5` and the sum
to a number below `1.6f`: key 1 is a neighbour of key 0. All coordinates are
numbers of type `float`. -/
theorem Keyboard.buildNeighborMaps_graph_counterexample :
    (|(0 : ℚ) - 3 / 2| + |(0 : ℚ) - 3355443 / 33554432| < 8 / 5
        ∧ 1 ∉ (Keyboard.mk (Keyboard.buildNeighborMaps Float32.round
            [Key.new 10 ⟨0, 0⟩, Key.new 11 ⟨3 / 2, 3355443 / 33554432⟩])).neighborsOf 0)
      ∧ (¬ (|(-3 / 67108864 : ℚ) - 3 / 2| + |(0 : ℚ) - 13421767 / 134217728| < 8 / 5)
        ∧ 1 ∈ (Keyboard.mk (Keyboard.buildNeighborMaps Float32.round
            [Key.new 10 ⟨-3 / 67108864, 0⟩,
              Key.new 11 ⟨3 / 2, 13421767 / 134217728⟩])).neighborsOf 0) := by
  have r1 : Float32.round (3 / 2) = 3 / 2 := by
    have h := Float32.round_dyadic 3 1 (by norm_num) (by norm_num)
    norm_num at h
    exact h
  have r2 : Float32.round (3355443 / 33554432) = 3355443 / 33554432 := by
    have h := Float32.round_dyadic 3355443 25 (by norm_num) (by norm_num)
    norm_num at h
    exact h
  have r3 : Float32.round (53687091 / 33554432) = 13421773 / 8388608 := by
    rw [Float32.round_eq (53687091 / 33554432) 0 13421773 (by norm_num [abs_of_pos])
      (by norm_num [abs_of_pos]) (by norm_num) (by norm_num) (by norm_num)]
    norm_num
  have r4 : Float32.round (100663299 / 67108864) = 3 / 2 := by
    rw [Float32.round_eq (100663299 / 67108864) 0 12582912 (by norm_num [abs_of_pos])
      (by norm_num [abs_of_pos]) (by norm_num) (by norm_num) (by norm_num)]
    norm_num
  have r5 : Float32.round (13421767 / 134217728) = 13421767 / 134217728 := by
    have h := Float32.round_dyadic 13421767 27 (by norm_num) (by norm_num)
    norm_num at h
    exact h
  have r6 : Float32.round (214748359 / 134217728) = 13421772 / 8388608 := by
    rw [Float32.round_eq (214748359 / 134217728) 0 13421772 (by norm_num [abs_of_pos])
      (by norm_num [abs_of_pos]) (by norm_num) (by norm_num) (by norm_num)]
    norm_num
  have d1 : (Position.mk 0 0).distanceManhattan Float32.round
      (Position.mk (3 / 2) (3355443 / 33554432)) = 13421773 / 8388608 := by
    simp only [Position.distanceManhattan, sub_zero]
    rw [r1, r2, abs_of_pos (by norm_num), abs_of_pos (by norm_num)]
    norm_num
    exact r3
  have d2 : (Position.mk (-3 / 67108864) 0).distanceManhattan Float32.round
      (Position.mk (3 / 2) (13421767 / 134217728)) = 13421772 / 8388608 := by
    simp only [Position.distanceManhattan, sub_zero]
    rw [show (3 / 2 : ℚ) - -3 / 67108864 = 100663299 / 67108864 by norm_num, r4, r5,
      abs_of_pos (by norm_num), abs_of_pos (by norm_num)]
    rw [show (3 / 2 : ℚ) + 13421767 / 134217728 = 214748359 / 134217728 by norm_num]
    exact r6
  refine ⟨⟨by norm_num [abs_of_neg], ?_⟩, ⟨by norm_num [abs_of_neg], ?_⟩⟩
  · intro hmem
    obtain ⟨_, a, b, ha, hb, hlt⟩ := (Keyboard.mem_neighborsOf_buildNeighborMaps Float32.round
      [Key.new 10 ⟨0, 0⟩, Key.new 11 ⟨3 / 2, 3355443 / 33554432⟩] (by decide) 0 1).mp hmem
    have ha' : a = Key.new 10 ⟨0, 0⟩ := by
      simpa using ha.symm
    have hb' : b = Key.new 11 ⟨3 / 2, 3355443 / 33554432⟩ := by
      simpa using hb.symm
    rw [ha', hb'] at hlt
    simp only [Key.getPosition, Key.new, Keyboard.NEIGHBOR_DISTANCE_THRESHOLD] at hlt
    rw [d1, Float32.threshold] at hlt
    exact lt_irrefl _ hlt
  · apply (Keyboard.mem_neighborsOf_buildNeighborMaps Float32.round
      [Key.new 10 ⟨-3 / 67108864, 0⟩, Key.new 11 ⟨3 / 2, 13421767 / 134217728⟩] (by decide)
      0 1).mpr
    refine ⟨by decide, Key.new 10 ⟨-3 / 67108864, 0⟩,
      Key.new 11 ⟨3 / 2, 13421767 / 134217728⟩, rfl, rfl, ?_⟩
    simp only [Key.getPosition, Key.new, Keyboard.NEIGHBOR_DISTANCE_THRESHOLD]
    rw [d2, Float32.threshold]
    norm_num

/-- C26, amended. Key-graph construction: after `Keyboard::buildNeighborMaps`
on keys whose neighbour lists are empty before, identifiers, positions and
indices are as before; key `j` is in the neighbour list of key `i` if and only
if `i ≠ j` and the distance as the code computes it, every subtraction and the
sum rounded to `float`, is below the threshold `1.6f`; no key is twice in a
neighbour list and no key is its own neighbour; an empty list of keys stays
empty. This holds for every rounding `fl`, the rounding to `float` among them,
for which the threshold `1.6f` is `13421773 / 2 ^ 23`. For keys whose
coordinates are multiples of `1/8` of magnitude at most `2 ^ 20 / 8` no
operation rounds, and the test is `|x_i - x_j| + |y_i - y_j| < 1.6`. -/
theorem Keyboard.buildNeighborMaps_graph (fl : ℚ → ℚ) (keys : List Key)
    (hempty : ∀ key ∈ keys, key.neighbors = []) :
    (Keyboard.buildNeighborMaps fl keys).map Key.fixed = keys.map Key.fixed
      ∧ (∀ i j, j ∈ (Keyboard.mk (Keyboard.buildNeighborMaps fl keys)).neighborsOf i
          ↔ i ≠ j ∧ ∃ a b, keys.get? i = some a ∧ keys.get? j = some b
              ∧ a.getPosition.distanceManhattan fl b.getPosition
                < Keyboard.NEIGHBOR_DISTANCE_THRESHOLD fl)
      ∧ (∀ i, ((Keyboard.mk (Keyboard.buildNeighborMaps fl keys)).neighborsOf i).Nodup)
      ∧ (∀ i, i ∉ (Keyboard.mk (Keyboard.buildNeighborMaps fl keys)).neighborsOf i)
      ∧ Keyboard.buildNeighborMaps fl [] = []
      ∧ Keyboard.NEIGHBOR_DISTANCE_THRESHOLD Float32.round = 13421773 / 8388608
      ∧ (∀ a b c d : Int, |a| ≤ 2 ^ 20 → |b| ≤ 2 ^ 20 → |c| ≤ 2 ^ 20 → |d| ≤ 2 ^ 20 →
          ((Position.mk ((a : ℚ) / 8) ((b : ℚ) / 8)).distanceManhattan Float32.round
              (Position.mk ((c : ℚ) / 8) ((d : ℚ) / 8))
              < Keyboard.NEIGHBOR_DISTANCE_THRESHOLD Float32.round
            ↔ |(a : ℚ) / 8 - (c : ℚ) / 8| + |(b : ℚ) / 8 - (d : ℚ) / 8| < 8 / 5)) := by
  refine ⟨?_, Keyboard.mem_neighborsOf_buildNeighborMaps fl keys hempty, ?_, ?_, rfl,
    Float32.threshold, ?_⟩
  · exact (Keyboard.outer_spec fl (List.range keys.length) (List.range keys.length)
      (List.nodup_range _) keys).1
  · intro i
    rw [Keyboard.neighborsOf_buildNeighborMaps fl keys hempty i]
    split
    · exact List.Nodup.filter _ (List.nodup_range _)
    · exact List.nodup_nil
  · intro i hmem
    exact ((Keyboard.mem_neighborsOf_buildNeighborMaps fl keys hempty i i).mp hmem).1 rfl
  · intro a b c d ha hb hc hd
    have hexact : |(a : ℚ) / 8 - (c : ℚ) / 8| + |(b : ℚ) / 8 - (d : ℚ) / 8|
        = ((|c - a| + |d - b| : Int) : ℚ) / 8 := by
      rw [abs_sub_comm ((a : ℚ) / 8), abs_sub_comm ((b : ℚ) / 8), ← sub_div, ← sub_div,
        abs_div, abs_div, abs_of_pos (by norm_num : (0 : ℚ) < 8)]
      push_cast
      ring
    rw [Float32.distance_grid a b c d ha hb hc hd, hexact]
    simp only [Keyboard.NEIGHBOR_DISTANCE_THRESHOLD]
    rw [Float32.threshold]
    by_cases hN : |c - a| + |d - b| ≤ 12
    · have hq : ((|c - a| + |d - b| : Int) : ℚ) ≤ 12 := by exact_mod_cast hN
      constructor <;> intro _ <;> linarith
    · have hN' : 13 ≤ |c - a| + |d - b| := by omega
      have hq : (13 : ℚ) ≤ ((|c - a| + |d - b| : Int) : ℚ) := by exact_mod_cast hN'
      constructor <;> intro h <;> linarith

/-- Witness for C26: three keys in a row at distance 1, in single precision;
key 1 is a neighbour of key 0. -/
theorem Keyboard.buildNeighborMaps_graph_witness :
    1 ∈ (Keyboard.mk (Keyboard.buildNeighborMaps Float32.round
        [Key.new 10 ⟨0, 0⟩, Key.new 11 ⟨1, 0⟩, Key.new 12 ⟨2, 0⟩])).neighborsOf 0 :=
  ((Keyboard.buildNeighborMaps_graph Float32.round
      [Key.new 10 ⟨0, 0⟩, Key.new 11 ⟨1, 0⟩, Key.new 12 ⟨2, 0⟩] (by decide)).2.1 0 1).mpr
    ⟨by decide, Key.new 10 ⟨0, 0⟩, Key.new 11 ⟨1, 0⟩, rfl, rfl, by
      have h := Float32.distance_grid 0 0 8 0 (by norm_num) (by norm_num) (by norm_num)
        (by norm_num)
      norm_num at h
      simp only [Key.getPosition, Key.new, Keyboard.NEIGHBOR_DISTANCE_THRESHOLD]
      rw [h, Float32.threshold]
      norm_num⟩

theorem Position.distanceManhattan_comm (fl : ℚ → ℚ) (hodd : ∀ q, fl (-q) = -fl q)
    (p q : Position) : p.distanceManhattan fl q = q.distanceManhattan fl p := by
  unfold Position.distanceManhattan
  have hx : fl (q.x_ - p.x_) = -fl (p.x_ - q.x_) := by
    rw [← hodd]
    congr 1
    ring
  have hy : fl (q.y_ - p.y_) = -fl (p.y_ - q.y_) := by
    rw [← hodd]
    congr 1
    ring
  rw [hx, hy, abs_neg, abs_neg]

theorem Keyboard.assignIndex_spec (ks : List Key) (i : Nat) :
    (Keyboard.assignIndex ks i).length = ks.length
      ∧ ∀ j, (Keyboard.assignIndex ks i)[j]?
        = if i = j then (ks[j]?).map (fun key => { key with index_ := i }) else ks[j]? := by
  unfold Keyboard.assignIndex
  simp only [List.get?_eq_getElem?]
  cases hi : ks[i]? with
  | none =>
    refine ⟨rfl, ?_⟩
    intro j
    by_cases hij : i = j
    · subst hij
      simp [hi]
    · simp [hij]
  | some key =>
    have hlt : i < ks.length := by
      by_contra hge
      rw [List.getElem?_eq_none (by omega)] at hi
      exact Option.noConfusion hi
    refine ⟨by simp, ?_⟩
    intro j
    simp only [List.getElem?_set]
    by_cases hij : i = j
    · subst hij
      simp [hi, hlt]
    · simp [hij]

theorem Keyboard.assignIndices_loop (keys : List Key) (m : Nat) :
    ((List.range m).foldl Keyboard.assignIndex keys).length = keys.length
      ∧ ∀ i, ((List.range m).foldl Keyboard.assignIndex keys)[i]?
        = if i < m then (keys[i]?).map (fun key => { key with index_ := i }) else keys[i]? := by
  induction m with
  | zero => simp
  | succ m ih =>
    obtain ⟨hlen, hget⟩ := ih
    obtain ⟨slen, sget⟩ := Keyboard.assignIndex_spec
      ((List.range m).foldl Keyboard.assignIndex keys) m
    rw [List.range_succ, List.foldl_append, List.foldl_cons, List.foldl_nil]
    refine ⟨by rw [slen, hlen], ?_⟩
    intro i
    rw [sget i, hget i]
    by_cases hi : m = i
    · subst hi
      simp
    · by_cases h1 : i < m
      · simp [hi, h1, Nat.lt_succ_of_lt h1]
      · have h2 : ¬ i < m + 1 := by omega
        simp [hi, h1, h2]

theorem Keyboard.length_buildNeighborMaps (fl : ℚ → ℚ) (keys : List Key) :
    (Keyboard.buildNeighborMaps fl keys).length = keys.length := by
  have h := congrArg List.length (Keyboard.outer_spec fl (List.range keys.length)
    (List.range keys.length) (List.nodup_range _) keys).1
  simp only [List.length_map] at h
  exact h

theorem Keyboard.length_assignIndices (keys : List Key) :
    (Keyboard.assignIndices keys).length = keys.length :=
  (Keyboard.assignIndices_loop keys keys.length).1

theorem Keyboard.getElem?_assignIndices (keys : List Key) (i : Nat) :
    (Keyboard.assignIndices keys)[i]? = (keys[i]?).map (fun key => { key with index_ := i }) := by
  unfold Keyboard.assignIndices
  rw [(Keyboard.assignIndices_loop keys keys.length).2 i]
  by_cases hlt : i < keys.length
  · rw [if_pos hlt]
  · rw [if_neg hlt, List.getElem?_eq_none (by omega)]
    rfl

theorem Keyboard.neighbors_assignIndices (keys : List Key)
    (hempty : ∀ key ∈ keys, key.neighbors = []) :
    ∀ key ∈ Keyboard.assignIndices keys, key.neighbors = [] := by
  intro key hmem
  obtain ⟨i, hi⟩ := List.mem_iff_getElem?.mp hmem
  rw [Keyboard.getElem?_assignIndices] at hi
  cases hk : keys[i]? with
  | none => rw [hk] at hi; simp at hi
  | some k =>
    rw [hk] at hi
    simp only [Option.map_some', Option.some.injEq] at hi
    rw [← hi]
    exact hempty k (List.getElem?_mem hk)

/-- C27. Neighbour symmetry: after `Keyboard::buildNeighborMaps` on keys whose
neighbour lists are empty before, as they are in the constructor of
`Keyboard`, key `j` is in the neighbour list of key `i` if and only if key `i`
is in the neighbour list of key `j`, for every rounding that commutes with
negation. -/
theorem Keyboard.neighbors_symmetric (fl : ℚ → ℚ) (hodd : ∀ q, fl (-q) = -fl q)
    (keys : List Key) (hempty : ∀ key ∈ keys, key.neighbors = [])
    (layout : List (Nat × Position)) (i j : Nat) :
    (j ∈ (Keyboard.mk (Keyboard.buildNeighborMaps fl keys)).neighborsOf i
        ↔ i ∈ (Keyboard.mk (Keyboard.buildNeighborMaps fl keys)).neighborsOf j)
      ∧ (j ∈ (Keyboard.new fl layout).neighborsOf i
        ↔ i ∈ (Keyboard.new fl layout).neighborsOf j) := by
  have hsym : ∀ (ks : List Key), (∀ key ∈ ks, key.neighbors = []) → ∀ a b,
      b ∈ (Keyboard.mk (Keyboard.buildNeighborMaps fl ks)).neighborsOf a
        → a ∈ (Keyboard.mk (Keyboard.buildNeighborMaps fl ks)).neighborsOf b := by
    intro ks hks a b hmem
    obtain ⟨hne, ka, kb, ha, hb, hd⟩ :=
      (Keyboard.mem_neighborsOf_buildNeighborMaps fl ks hks a b).mp hmem
    refine (Keyboard.mem_neighborsOf_buildNeighborMaps fl ks hks b a).mpr
      ⟨Ne.symm hne, kb, ka, hb, ha, ?_⟩
    rw [Position.distanceManhattan_comm fl hodd]
    exact hd
  have hlayout : ∀ key ∈ Keyboard.assignIndices
      (layout.map (fun entry => Key.new entry.1 entry.2)), key.neighbors = [] := by
    apply Keyboard.neighbors_assignIndices
    intro key hmem
    obtain ⟨entry, _, hentry⟩ := List.mem_map.mp hmem
    rw [← hentry]
    rfl
  exact ⟨⟨hsym keys hempty i j, hsym keys hempty j i⟩,
    ⟨hsym _ hlayout i j, hsym _ hlayout j i⟩⟩

/-- Witness for C27: three keys in a row, exact arithmetic. -/
theorem Keyboard.neighbors_symmetric_witness :
    1 ∈ (Keyboard.new id [(10, ⟨0, 0⟩), (11, ⟨1, 0⟩), (12, ⟨2, 0⟩)]).neighborsOf 0
      ↔ 0 ∈ (Keyboard.new id [(10, ⟨0, 0⟩), (11, ⟨1, 0⟩), (12, ⟨2, 0⟩)]).neighborsOf 1 :=
  (Keyboard.neighbors_symmetric id (fun _ => rfl)
    [Key.new 10 ⟨0, 0⟩, Key.new 11 ⟨1, 0⟩, Key.new 12 ⟨2, 0⟩] (by decide)
    [(10, ⟨0, 0⟩), (11, ⟨1, 0⟩), (12, ⟨2, 0⟩)] 0 1).2

theorem Keyboard.getIndex_of_get? (fl : ℚ → ℚ) (layout : List (Nat × Position)) (i : Nat)
    (key : Key) (hkey : (Keyboard.new fl layout).getKeys.get? i = some key)
    (m : LightingManager) (hm : m.keyboard_ = some (Keyboard.new fl layout)) :
    key.getIndex = i
      ∧ (Keyboard.new fl layout).getKeys.length = layout.length
      ∧ layout.get? i = some (key.getId, key.getPosition)
      ∧ m.update.getFrameBuffer[i]?
        = some ((m.update.activeEffects_.map
            (fun effect => m.update.effectPool_.getColorForKeyAt effect key.getIndex)).foldl
            Color.add (Color.new 0 0 0)) := by
  have hfixed := (Keyboard.outer_spec fl
    (List.range (Keyboard.assignIndices
      (layout.map (fun entry => Key.new entry.1 entry.2))).length)
    (List.range (Keyboard.assignIndices
      (layout.map (fun entry => Key.new entry.1 entry.2))).length)
    (List.nodup_range _)
    (Keyboard.assignIndices (layout.map (fun entry => Key.new entry.1 entry.2)))).1
  have hkeys : (Keyboard.new fl layout).getKeys
      = Keyboard.buildNeighborMaps fl
          (Keyboard.assignIndices (layout.map (fun entry => Key.new entry.1 entry.2))) := rfl
  have hget : ((Keyboard.new fl layout).getKeys.map Key.fixed)[i]?
      = ((Keyboard.assignIndices
          (layout.map (fun entry => Key.new entry.1 entry.2))).map Key.fixed)[i]? := by
    rw [hkeys]
    unfold Keyboard.buildNeighborMaps
    rw [hfixed]
  have hkey' : (Keyboard.new fl layout).getKeys[i]? = some key := by
    simpa using hkey
  rw [List.getElem?_map, List.getElem?_map, hkey', Keyboard.getElem?_assignIndices,
    List.getElem?_map] at hget
  have hlen : (Keyboard.new fl layout).getKeys.length = layout.length := by
    rw [hkeys, Keyboard.length_buildNeighborMaps, Keyboard.length_assignIndices,
      List.length_map]
  have hilt : i < (Keyboard.new fl layout).getKeys.length := by
    by_contra hge
    rw [List.getElem?_eq_none (by omega)] at hkey'
    exact Option.noConfusion hkey'
  cases hl : layout[i]? with
  | none =>
    rw [hl] at hget
    simp at hget
  | some entry =>
    rw [hl] at hget
    simp only [Option.map_some', Option.some.injEq, Key.fixed, Key.new, Prod.mk.injEq] at hget
    obtain ⟨h1, h2, h3⟩ := hget
    have hidx : key.getIndex = i := h3
    refine ⟨hidx, hlen, ?_, ?_⟩
    · simp only [List.get?_eq_getElem?, hl, Key.getId, Key.getPosition, h1, h2]
    · have hfb : m.update.getFrameBuffer
          = LightingManager.render m.update.effectPool_ m.update.activeEffects_
              (Keyboard.new fl layout).getKeys.length := by
        simp only [LightingManager.update, LightingManager.getFrameBuffer, hm]
      rw [hfb, (LightingManager.render_spec _ _ _).2 i hilt, hidx]

/-- C29. Stable key index: after the construction of a keyboard there is a key
at every position `i` of `getKeys()`, as many as the layout has entries; it
has `getIndex() = i`, and its identifier and position are those of entry `i`
of the layout. Hence after an update of a manager on that keyboard, entry `i`
of the frame buffer is the blend of the colours of the live effects for the
key whose `getIndex()` is `i`. -/
theorem Keyboard.stable_index (fl : ℚ → ℚ) (layout : List (Nat × Position)) (i : Nat)
    (hi : i < layout.length) (m : LightingManager)
    (hm : m.keyboard_ = some (Keyboard.new fl layout)) :
    (Keyboard.new fl layout).getKeys.length = layout.length
      ∧ ∃ key, (Keyboard.new fl layout).getKeys.get? i = some key
        ∧ key.getIndex = i
        ∧ layout.get? i = some (key.getId, key.getPosition)
        ∧ m.update.getFrameBuffer[i]?
          = some ((m.update.activeEffects_.map
              (fun effect => m.update.effectPool_.getColorForKeyAt effect key.getIndex)).foldl
              Color.add (Color.new 0 0 0)) := by
  have hlen : (Keyboard.new fl layout).getKeys.length = layout.length := by
    show (Keyboard.buildNeighborMaps fl
      (Keyboard.assignIndices (layout.map (fun entry => Key.new entry.1 entry.2)))).length
        = layout.length
    rw [Keyboard.length_buildNeighborMaps, Keyboard.length_assignIndices, List.length_map]
  have hlt : i < (Keyboard.new fl layout).getKeys.length := by omega
  have hkey : (Keyboard.new fl layout).getKeys.get? i
      = some ((Keyboard.new fl layout).getKeys.get ⟨i, hlt⟩) := List.get?_eq_get hlt
  obtain ⟨h1, _, h3, h4⟩ := Keyboard.getIndex_of_get? fl layout i _ hkey m hm
  exact ⟨hlen, _, hkey, h1, h3, h4⟩

/-- Witness for C29: three keys in a row; position 1 of the keyboard. -/
theorem Keyboard.stable_index_witness :
    ∃ key, (Keyboard.new id [(10, ⟨0, 0⟩), (11, ⟨1, 0⟩), (12, ⟨2, 0⟩)]).getKeys.get? 1
        = some key ∧ key.getIndex = 1 := by
  obtain ⟨_, key, h1, h2, _⟩ := Keyboard.stable_index id
    [(10, ⟨0, 0⟩), (11, ⟨1, 0⟩), (12, ⟨2, 0⟩)] 1 (by decide)
    (LightingManager.new (some (Keyboard.new id [(10, ⟨0, 0⟩), (11, ⟨1, 0⟩), (12, ⟨2, 0⟩)])))
    rfl
  exact ⟨key, h1, h2⟩

/-! ## Single wavefront -/

theorem RippleEffect.find_updateN_succ_cases (neighbors : Nat → List Nat) (e : RippleEffect)
    (hwf : e.activeKeys_.WF) (t : Nat) (hnf : e.framesLived_ + t + 1 < e.maxLifetime_)
    (k : Nat) (next : KeyState) (h : e.entryAt neighbors (t + 1) k = some next) :
    (∃ cs, e.entryAt neighbors t k = some cs
        ∧ RippleEffect.transition e.stepDuration_ cs = some next)
      ∨ (e.entryAt neighbors t k = none ∧ next = ⟨State.Ignited, 0⟩
        ∧ ∃ j c, e.entryAt neighbors t j = some ⟨State.Ignited, c⟩
            ∧ c ≥ e.propagationDelay_ ∧ k ∈ neighbors j) := by
  unfold RippleEffect.entryAt at *
  cases hk : (e.updateN neighbors t).activeKeys_.find k with
  | some cs =>
    left
    refine ⟨cs, rfl, ?_⟩
    rw [← RippleEffect.find_updateN_succ_active neighbors e hwf t hnf k cs hk]
    exact h
  | none =>
    right
    by_cases hex : ∃ j c, (e.updateN neighbors t).activeKeys_.find j = some ⟨State.Ignited, c⟩
        ∧ c ≥ e.propagationDelay_ ∧ k ∈ neighbors j
    · obtain ⟨j, c, hj, hc, hn⟩ := hex
      have hclaimed := RippleEffect.find_updateN_succ_claimed neighbors e t hnf k hk j c hj hc hn
      rw [hclaimed] at h
      exact ⟨rfl, (Option.some.inj h).symm, j, c, hj, hc, hn⟩
    · have hnot := RippleEffect.find_updateN_succ_unclaimed neighbors e hwf t k hk
        (fun j c hj hc hn => hex ⟨j, c, hj, hc, hn⟩)
      rw [hnot] at h
      exact Option.noConfusion h

theorem RippleEffect.entryAt_succ_of_finished (neighbors : Nat → List Nat) (e : RippleEffect)
    (t : Nat) (hfin : ¬ (e.framesLived_ + t + 1 < e.maxLifetime_)) (k : Nat) :
    e.entryAt neighbors (t + 1) k = none := by
  have hf : ((e.updateN neighbors t).update neighbors).isFinished = true := by
    obtain ⟨_, _, _, h4, h5⟩ := RippleEffect.updateN_fields neighbors e t
    rw [RippleEffect.update_isFinished, h4, h5]
    simp only [decide_eq_true_eq]
    omega
  unfold RippleEffect.entryAt
  simp only [RippleEffect.updateN]
  rw [RippleEffect.update_activeKeys_of_isFinished neighbors _ hf]
  rfl

theorem RippleEffect.transition_bound (S : Int) (hS : 1 ≤ S) (cs next : KeyState)
    (hb : 0 ≤ cs.framesInState ∧ cs.framesInState < S)
    (h : RippleEffect.transition S cs = some next) :
    (0 ≤ next.framesInState ∧ next.framesInState < S) ∧ next.age S = cs.age S + 1 := by
  obtain ⟨s, c⟩ := cs
  simp only at hb
  unfold RippleEffect.transition at h
  by_cases hc : c + 1 ≥ S
  · simp only [hc, if_true] at h
    cases s with
    | Ignited =>
      simp only [Option.some.injEq] at h
      rw [← h]
      simp only [KeyState.age, State.index]
      constructor <;> omega
    | Fading_High =>
      simp only [Option.some.injEq] at h
      rw [← h]
      simp only [KeyState.age, State.index]
      constructor <;> omega
    | Fading_Low => exact Option.noConfusion h
  · simp only [hc, if_false, Option.some.injEq] at h
    rw [← h]
    simp only [KeyState.age]
    constructor <;> omega

theorem RippleEffect.transition_none_age (S : Int) (cs : KeyState)
    (hb : 0 ≤ cs.framesInState ∧ cs.framesInState < S)
    (h : RippleEffect.transition S cs = none) : cs.age S = 3 * S - 1 := by
  obtain ⟨s, c⟩ := cs
  simp only at hb
  unfold RippleEffect.transition at h
  by_cases hc : c + 1 ≥ S
  · simp only [hc, if_true] at h
    cases s with
    | Ignited => exact Option.noConfusion h
    | Fading_High => exact Option.noConfusion h
    | Fading_Low =>
      simp only [KeyState.age, State.index]
      omega
  · simp only [hc, if_false] at h
    exact Option.noConfusion h

theorem KeyState.age_nonneg (S : Int) (hS : 1 ≤ S) (cs : KeyState)
    (hb : 0 ≤ cs.framesInState) : 0 ≤ cs.age S := by
  obtain ⟨s, c⟩ := cs
  simp only at hb
  cases s <;> simp only [KeyState.age, State.index] <;> omega

/-- Every counter of the active set stays within `[0, stepDuration_)` in a run
that starts with such counters. -/
theorem RippleEffect.counter_bound (neighbors : Nat → List Nat) (e : RippleEffect)
    (hwf : e.activeKeys_.WF) (hS : 1 ≤ e.stepDuration_)
    (hb0 : ∀ k cs, e.activeKeys_.find k = some cs →
      0 ≤ cs.framesInState ∧ cs.framesInState < e.stepDuration_)
    (t k : Nat) (cs : KeyState) (h : e.entryAt neighbors t k = some cs) :
    0 ≤ cs.framesInState ∧ cs.framesInState < e.stepDuration_ := by
  induction t generalizing k cs with
  | zero => exact hb0 k cs h
  | succ t ih =>
    by_cases hnf : e.framesLived_ + t + 1 < e.maxLifetime_
    · rcases RippleEffect.find_updateN_succ_cases neighbors e hwf t hnf k cs h with
        ⟨prev, hprev, htr⟩ | ⟨_, hnew, _⟩
      · exact (RippleEffect.transition_bound _ hS prev cs (ih k prev hprev) htr).1
      · rw [hnew]
        simp only
        omega
    · rw [RippleEffect.entryAt_succ_of_finished neighbors e t hnf k] at h
      exact Option.noConfusion h

theorem RippleEffect.visited_succ (neighbors : Nat → List Nat) (e : RippleEffect) (t x : Nat)
    (h : e.Visited neighbors t x) : e.Visited neighbors (t + 1) x := by
  obtain ⟨t', ht', hne⟩ := h
  exact ⟨t', Nat.le_succ_of_le ht', hne⟩

theorem RippleEffect.visited_of_entry (neighbors : Nat → List Nat) (e : RippleEffect) (t x : Nat)
    (h : e.entryAt neighbors t x ≠ none) : e.Visited neighbors t x :=
  ⟨t, Nat.le_refl t, h⟩

theorem RippleEffect.visited_pred (neighbors : Nat → List Nat) (e : RippleEffect) (t x : Nat)
    (h : e.Visited neighbors (t + 1) x) (hnone : e.entryAt neighbors (t + 1) x = none) :
    e.Visited neighbors t x := by
  obtain ⟨t', ht', hne⟩ := h
  by_cases heq : t' = t + 1
  · rw [heq] at hne
    exact absurd hnone hne
  · exact ⟨t', by omega, hne⟩

/-- Under the wavefront invariant a key that has been visited and has left the
active set is not claimed by the next update. -/
theorem RippleEffect.not_reclaimed (neighbors : Nat → List Nat)
    (hsym : ∀ a b, b ∈ neighbors a → a ∈ neighbors b) (e : RippleEffect)
    (hwf : e.activeKeys_.WF) (hS : 1 ≤ e.stepDuration_)
    (hb0 : ∀ k cs, e.activeKeys_.find k = some cs →
      0 ≤ cs.framesInState ∧ cs.framesInState < e.stepDuration_)
    (hDS : e.propagationDelay_ < e.stepDuration_) (t : Nat) (hP : e.Wave neighbors t)
    (x : Nat) (hvis : e.Visited neighbors t x) (hnone : e.entryAt neighbors t x = none) :
    e.entryAt neighbors (t + 1) x = none := by
  apply RippleEffect.find_updateN_succ_unclaimed neighbors e hwf t x hnone
  intro j c hj hc hmem
  have hjx : j ∈ neighbors x := hsym j x hmem
  obtain ⟨_, hlag⟩ := (hP x j hjx).2 hvis hnone
  have h1 := hlag ⟨State.Ignited, c⟩ hj
  have hb := RippleEffect.counter_bound neighbors e hwf hS hb0 t j ⟨State.Ignited, c⟩ hj
  simp only [KeyState.age, State.index] at h1 hb
  omega

theorem RippleEffect.lag_succ (neighbors : Nat → List Nat) (e : RippleEffect)
    (hwf : e.activeKeys_.WF) (hS : 1 ≤ e.stepDuration_)
    (hb0 : ∀ k cs, e.activeKeys_.find k = some cs →
      0 ≤ cs.framesInState ∧ cs.framesInState < e.stepDuration_)
    (t : Nat) (hnf : e.framesLived_ + t + 1 < e.maxLifetime_)
    (hstay : ∀ x, e.Visited neighbors t x → e.entryAt neighbors t x = none →
      e.entryAt neighbors (t + 1) x = none)
    (j : Nat) (a : Int) (h : e.Lag neighbors t j a) : e.Lag neighbors (t + 1) j (a + 1) := by
  obtain ⟨hvis, hlag⟩ := h
  refine ⟨RippleEffect.visited_succ neighbors e t j hvis, ?_⟩
  intro next hnext
  rcases RippleEffect.find_updateN_succ_cases neighbors e hwf t hnf j next hnext with
    ⟨prev, hprev, htr⟩ | ⟨hnone, _, _⟩
  · have hb := RippleEffect.counter_bound neighbors e hwf hS hb0 t j prev hprev
    have hage := (RippleEffect.transition_bound _ hS prev next hb htr).2
    have := hlag prev hprev
    omega
  · rw [hstay j hvis hnone] at hnext
    exact Option.noConfusion hnext

theorem RippleEffect.lag_mono (neighbors : Nat → List Nat) (e : RippleEffect) (t j : Nat)
    (a b : Int) (hab : b ≤ a) (h : e.Lag neighbors t j a) : e.Lag neighbors t j b :=
  ⟨h.1, fun cj hcj => le_trans hab (h.2 cj hcj)⟩

/-- The wavefront invariant is kept by an update that leaves the instance
unfinished, on a symmetric key graph and with a propagation delay below the
step duration. -/
theorem RippleEffect.wave_succ (neighbors : Nat → List Nat)
    (hsym : ∀ a b, b ∈ neighbors a → a ∈ neighbors b) (e : RippleEffect)
    (hwf : e.activeKeys_.WF) (hS : 1 ≤ e.stepDuration_) (hD : 0 ≤ e.propagationDelay_)
    (hb0 : ∀ k cs, e.activeKeys_.find k = some cs →
      0 ≤ cs.framesInState ∧ cs.framesInState < e.stepDuration_)
    (hDS : e.propagationDelay_ < e.stepDuration_) (t : Nat)
    (hnf : e.framesLived_ + t + 1 < e.maxLifetime_) (hP : e.Wave neighbors t) :
    e.Wave neighbors (t + 1) := by
  have hstay := RippleEffect.not_reclaimed neighbors hsym e hwf hS hb0 hDS t hP
  have hlagsucc := RippleEffect.lag_succ neighbors e hwf hS hb0 t hnf hstay
  intro k j hjk
  obtain ⟨P1, P2⟩ := hP k j hjk
  constructor
  · intro next hnext hold
    rcases RippleEffect.find_updateN_succ_cases neighbors e hwf t hnf k next hnext with
      ⟨prev, hprev, htr⟩ | ⟨_, hnew, _⟩
    · have hb := RippleEffect.counter_bound neighbors e hwf hS hb0 t k prev hprev
      have hage := (RippleEffect.transition_bound _ hS prev next hb htr).2
      by_cases hbig : e.propagationDelay_ + 1 ≤ prev.age e.stepDuration_
      · rw [hage]
        exact hlagsucc j _ (P1 prev hprev hbig)
      · have hageD : prev.age e.stepDuration_ = e.propagationDelay_ := by omega
        have hready : prev = ⟨State.Ignited, e.propagationDelay_⟩ := by
          obtain ⟨s, c⟩ := prev
          simp only at hb
          cases s with
          | Ignited =>
            simp only [KeyState.age, State.index] at hageD
            have : c = e.propagationDelay_ := by omega
            rw [this]
          | Fading_High =>
            simp only [KeyState.age, State.index] at hageD
            omega
          | Fading_Low =>
            simp only [KeyState.age, State.index] at hageD
            omega
        rw [hready] at hprev
        have hvisj : e.Visited neighbors (t + 1) j := by
          cases hj : e.entryAt neighbors t j with
          | some cj =>
            exact RippleEffect.visited_succ neighbors e t j
              (RippleEffect.visited_of_entry neighbors e t j (by rw [hj]; simp))
          | none =>
            have hclaimed := RippleEffect.find_updateN_succ_claimed neighbors e t hnf j hj k
              e.propagationDelay_ hprev (le_refl _) hjk
            exact RippleEffect.visited_of_entry neighbors e (t + 1) j (by
              unfold RippleEffect.entryAt
              rw [hclaimed]
              simp)
        refine ⟨hvisj, ?_⟩
        intro cj hcj
        have hbj := RippleEffect.counter_bound neighbors e hwf hS hb0 (t + 1) j cj hcj
        have hnn := KeyState.age_nonneg e.stepDuration_ hS cj hbj.1
        omega
    · rw [hnew] at hold
      simp only [KeyState.age, State.index] at hold
      omega
  · intro hvis hnone
    have hvis' := RippleEffect.visited_pred neighbors e t k hvis hnone
    cases hk : e.entryAt neighbors t k with
    | none =>
      exact RippleEffect.lag_mono neighbors e (t + 1) j _ _ (by omega)
        (hlagsucc j _ (P2 hvis' hk))
    | some prev =>
      have hb := RippleEffect.counter_bound neighbors e hwf hS hb0 t k prev hk
      have htr : RippleEffect.transition e.stepDuration_ prev = none := by
        have := RippleEffect.find_updateN_succ_active neighbors e hwf t hnf k prev hk
        unfold RippleEffect.entryAt at hnone
        rw [← this]
        exact hnone
      have hage := RippleEffect.transition_none_age _ prev hb htr
      have hl := hlagsucc j _ (P1 prev hk (by omega))
      rw [hage] at hl
      exact RippleEffect.lag_mono neighbors e (t + 1) j _ _ (by omega) hl

theorem RippleEffect.entryAt_new_zero (neighbors : Nat → List Nat) (K : Nat) (color : Color)
    (S D L : Int) (k : Nat) :
    (RippleEffect.new K color S D L).entryAt neighbors 0 k
      = if K = k then some ⟨State.Ignited, 0⟩ else none := by
  simp [RippleEffect.entryAt, RippleEffect.updateN, RippleEffect.new, KeyMap.assign,
    KeyMap.find]

theorem RippleEffect.new_params (K : Nat) (color : Color) (S D L : Int) :
    1 ≤ (RippleEffect.new K color S D L).stepDuration_
      ∧ 1 ≤ (RippleEffect.new K color S D L).propagationDelay_
      ∧ (∀ k cs, (RippleEffect.new K color S D L).activeKeys_.find k = some cs →
          0 ≤ cs.framesInState
            ∧ cs.framesInState < (RippleEffect.new K color S D L).stepDuration_) := by
  have h1 : 1 ≤ (RippleEffect.new K color S D L).stepDuration_ := by
    simp only [RippleEffect.new]
    split <;> omega
  have h2 : 1 ≤ (RippleEffect.new K color S D L).propagationDelay_ := by
    simp only [RippleEffect.new]
    split <;> omega
  refine ⟨h1, h2, ?_⟩
  intro k cs hk
  have h0 := RippleEffect.entryAt_new_zero (fun _ => []) K color S D L k
  unfold RippleEffect.entryAt at h0
  simp only [RippleEffect.updateN] at h0
  rw [h0] at hk
  by_cases hKk : K = k
  · rw [if_pos hKk] at hk
    rw [← Option.some.inj hk]
    simp only
    omega
  · rw [if_neg hKk] at hk
    exact Option.noConfusion hk

/-- The wavefront invariant holds at every tick at which an instance, as
constructed, is not finished. -/
theorem RippleEffect.wave_new (neighbors : Nat → List Nat)
    (hsym : ∀ a b, b ∈ neighbors a → a ∈ neighbors b) (K : Nat) (color : Color)
    (S D L : Int)
    (hDS : (RippleEffect.new K color S D L).propagationDelay_
      < (RippleEffect.new K color S D L).stepDuration_)
    (t : Nat) (hnf : (RippleEffect.new K color S D L).framesLived_ + t
      < (RippleEffect.new K color S D L).maxLifetime_) :
    (RippleEffect.new K color S D L).Wave neighbors t := by
  obtain ⟨hS, hD, hb0⟩ := RippleEffect.new_params K color S D L
  have hwf := RippleEffect.WF_new K color S D L
  induction t with
  | zero =>
    intro k j _
    constructor
    · intro cs hcs hold
      rw [RippleEffect.entryAt_new_zero] at hcs
      by_cases hKk : K = k
      · rw [if_pos hKk] at hcs
        rw [← Option.some.inj hcs] at hold
        simp only [KeyState.age, State.index] at hold
        omega
      · rw [if_neg hKk] at hcs
        exact Option.noConfusion hcs
    · intro hvis hnone
      obtain ⟨t', ht', hne⟩ := hvis
      have : t' = 0 := by omega
      rw [this] at hne
      exact absurd hnone hne
  | succ t ih =>
    have hnf' : (RippleEffect.new K color S D L).framesLived_ + (t : Int) + 1
        < (RippleEffect.new K color S D L).maxLifetime_ := by
      push_cast at hnf
      omega
    exact RippleEffect.wave_succ neighbors hsym _ hwf hS (by omega) hb0 hDS t hnf'
      (ih (by omega))

/-- A key that has been visited and is not in the active set is not in the
active set after the next update either. -/
theorem RippleEffect.stays_out (neighbors : Nat → List Nat)
    (hsym : ∀ a b, b ∈ neighbors a → a ∈ neighbors b) (K : Nat) (color : Color)
    (S D L : Int) (t x : Nat)
    (hvis : (RippleEffect.new K color S D L).Visited neighbors t x)
    (hnone : (RippleEffect.new K color S D L).entryAt neighbors t x = none) :
    (RippleEffect.new K color S D L).entryAt neighbors (t + 1) x = none := by
  obtain ⟨hS, hD, hb0⟩ := RippleEffect.new_params K color S D L
  have hwf := RippleEffect.WF_new K color S D L
  by_cases hnf : (RippleEffect.new K color S D L).framesLived_ + (t : Int) + 1
      < (RippleEffect.new K color S D L).maxLifetime_
  · by_cases hDS : (RippleEffect.new K color S D L).propagationDelay_
        < (RippleEffect.new K color S D L).stepDuration_
    · exact RippleEffect.not_reclaimed neighbors hsym _ hwf hS hb0 hDS t
        (RippleEffect.wave_new neighbors hsym K color S D L hDS t (by omega)) x hvis hnone
    · apply RippleEffect.find_updateN_succ_unclaimed neighbors _ hwf t x hnone
      intro j c hj hc _
      have hb := RippleEffect.counter_bound neighbors _ hwf hS hb0 t j ⟨State.Ignited, c⟩ hj
      simp only at hb
      omega
  · exact RippleEffect.entryAt_succ_of_finished neighbors _ t hnf x

/-- C21. No re-ignition on an undirected graph: on a key graph whose neighbour
relation is symmetric, for every seed and all parameters, a key that is in the
active set after `t1` updates and is not in it after `t2 ≥ t1` updates is not
in it after any number `t3 ≥ t2` of updates: every key is lit at most once by
an instance. -/
theorem RippleEffect.no_reignition (neighbors : Nat → List Nat)
    (hsym : ∀ a b, b ∈ neighbors a → a ∈ neighbors b) (K : Nat) (color : Color)
    (S D L : Int) (k t1 t2 t3 : Nat) (h12 : t1 ≤ t2) (h23 : t2 ≤ t3)
    (hin : ((RippleEffect.new K color S D L).updateN neighbors t1).activeKeys_.find k ≠ none)
    (hout : ((RippleEffect.new K color S D L).updateN neighbors t2).activeKeys_.find k = none) :
    ((RippleEffect.new K color S D L).updateN neighbors t3).activeKeys_.find k = none := by
  have hgen : ∀ d, (RippleEffect.new K color S D L).entryAt neighbors (t2 + d) k = none := by
    intro d
    induction d with
    | zero => exact hout
    | succ d ih =>
      have hvis : (RippleEffect.new K color S D L).Visited neighbors (t2 + d) k :=
        ⟨t1, by omega, hin⟩
      exact RippleEffect.stays_out neighbors hsym K color S D L (t2 + d) k hvis ih
  have h := hgen (t3 - t2)
  rw [Nat.add_sub_cancel' h23] at h
  exact h

theorem Example.rowNeighbors_symm :
    ∀ a b, b ∈ Example.rowNeighbors a → a ∈ Example.rowNeighbors b := by
  intro a b h
  rcases a with _ | _ | _ | a
  · have hb : b = 1 := by
      simpa [Example.rowNeighbors, Keyboard.neighborsOf, Example.rowKeyboard] using h
    rw [hb]
    decide
  · have hb : b = 0 ∨ b = 2 := by
      simpa [Example.rowNeighbors, Keyboard.neighborsOf, Example.rowKeyboard] using h
    rcases hb with hb | hb <;> rw [hb] <;> decide
  · have hb : b = 1 := by
      simpa [Example.rowNeighbors, Keyboard.neighborsOf, Example.rowKeyboard] using h
    rw [hb]
    decide
  · simp [Example.rowNeighbors, Keyboard.neighborsOf, Example.rowKeyboard] at h

/-- Witness for C21 on the row of three keys: the seed of the ripple with step
duration 2 is in the active set at the start, has left it after 6 updates and
is not in it after 9. -/
theorem RippleEffect.no_reignition_witness :
    (Example.ripple.updateN Example.rowNeighbors 0).activeKeys_.find 0 ≠ none
      ∧ (Example.ripple.updateN Example.rowNeighbors 6).activeKeys_.find 0 = none
      ∧ (Example.ripple.updateN Example.rowNeighbors 9).activeKeys_.find 0 = none :=
  ⟨by decide, by decide,
    RippleEffect.no_reignition Example.rowNeighbors Example.rowNeighbors_symm 0
      (Color.new 255 0 0) 2 1 100 0 0 6 9 (by decide) (by decide) (by decide) (by decide)⟩

/-! ## Endpoints and monotonicity of `Color::scale` -/

theorem Color.eq_of_channels (a b : Color) (hr : a.red_ = b.red_) (hg : a.green_ = b.green_)
    (hb : a.blue_ = b.blue_) : a = b := by
  cases a
  cases b
  simp only at hr hg hb
  subst hr hg hb
  rfl

/-- A channel of `scale(255)`: one less than the channel when it is positive. -/
theorem Color.scale_full_channel (x : Int) (h0 : 0 ≤ x) (h1 : x ≤ 255) :
    x * 255 / 256 = x - (if 0 < x then 1 else 0) := by
  split <;> omega

/-- C31. The code at the failing input: `(255, 0, 0).scale(255)` is
`(254, 0, 0)` and not the colour itself, although the documentation of `scale`
names the intensity 255 full brightness; `(255, 0, 0).scale(0)` is black. -/
theorem Color.scale_full_brightness :
    (Color.new 255 0 0).scale 255 = Color.new 254 0 0
      ∧ (Color.new 255 0 0).scale 255 ≠ Color.new 255 0 0
      ∧ (Color.new 255 0 0).scale 0 = Color.new 0 0 0 := by
  decide

/-- The extent of the loss at intensity 255: the formula `(channel * 255) >> 8`
takes one off every positive channel, so `c.scale(255)` is `c` for black only;
at intensity 0 the result is black. -/
theorem Color.scale_255_loses_one (c : Color) :
    c.scale 0 = Color.new 0 0 0
      ∧ (c.scale 255).red_ = c.red_ - (if 0 < c.red_ then 1 else 0)
      ∧ (c.scale 255).green_ = c.green_ - (if 0 < c.green_ then 1 else 0)
      ∧ (c.scale 255).blue_ = c.blue_ - (if 0 < c.blue_ then 1 else 0)
      ∧ (c.scale 255 = c ↔ c = Color.new 0 0 0) := by
  have h0 := Color.scale_channels c 0 (by decide)
  have h255 := Color.scale_channels c 255 (by decide)
  have hr := c.red_range
  have hg := c.green_range
  have hb := c.blue_range
  have e1 := Color.scale_full_channel c.red_ hr.1 hr.2
  have e2 := Color.scale_full_channel c.green_ hg.1 hg.2
  have e3 := Color.scale_full_channel c.blue_ hb.1 hb.2
  have r1 : (c.scale 255).red_ = c.red_ - (if 0 < c.red_ then 1 else 0) := by
    rw [h255.1]; exact e1
  have r2 : (c.scale 255).green_ = c.green_ - (if 0 < c.green_ then 1 else 0) := by
    rw [h255.2.1]; exact e2
  have r3 : (c.scale 255).blue_ = c.blue_ - (if 0 < c.blue_ then 1 else 0) := by
    rw [h255.2.2]; exact e3
  refine ⟨?_, r1, r2, r3, ?_⟩
  · apply Color.eq_of_channels
    · rw [h0.1]; simp [Color.new, Color.clamp]
    · rw [h0.2.1]; simp [Color.new, Color.clamp]
    · rw [h0.2.2]; simp [Color.new, Color.clamp]
  · constructor
    · intro h
      have q1 : (c.scale 255).red_ = c.red_ := by rw [h]
      have q2 : (c.scale 255).green_ = c.green_ := by rw [h]
      have q3 : (c.scale 255).blue_ = c.blue_ := by rw [h]
      rw [r1] at q1
      rw [r2] at q2
      rw [r3] at q3
      apply Color.eq_of_channels
      · simp only [Color.new, Color.clamp]
        split at q1 <;> omega
      · simp only [Color.new, Color.clamp]
        split at q2 <;> omega
      · simp only [Color.new, Color.clamp]
        split at q3 <;> omega
    · intro h
      rw [h]
      decide

theorem Color.scale_channel_mono (x : Int) (i j : Int) (h0 : 0 ≤ x)
    (hij : i ≤ j) : x * i / 256 ≤ x * j / 256 :=
  Int.ediv_le_ediv (by decide) (Int.mul_le_mul_of_nonneg_left hij h0)

theorem Color.scale_channel_le (x : Int) (i : Int) (h0 : 0 ≤ x) (hi : i ≤ 255) :
    x * i / 256 ≤ x := by
  have h1 : x * i ≤ x * 255 := Int.mul_le_mul_of_nonneg_left hi h0
  have h2 : x * i / 256 ≤ x * 255 / 256 := Int.ediv_le_ediv (by decide) h1
  omega

/-- C39. Fading only dims: every channel of `c.scale(204)` is at most the
channel of `c` and at least the channel of `c.scale(102)`; `scale` never
increases a channel and is monotone in the intensity; so the colour
`getColorForKey` gives for a key in a later state of the sequence `Ignited`,
`Fading_High`, `Fading_Low` has no channel above the one it gives for a key in
an earlier state, for instances of the same colour that are not finished. -/
theorem Color.scale_only_dims (c : Color) :
    ((c.scale 204).red_ ≤ c.red_ ∧ (c.scale 102).red_ ≤ (c.scale 204).red_
        ∧ (c.scale 204).green_ ≤ c.green_ ∧ (c.scale 102).green_ ≤ (c.scale 204).green_
        ∧ (c.scale 204).blue_ ≤ c.blue_ ∧ (c.scale 102).blue_ ≤ (c.scale 204).blue_)
      ∧ (∀ j : Nat, j < 256 →
          (c.scale j).red_ ≤ c.red_ ∧ (c.scale j).green_ ≤ c.green_
            ∧ (c.scale j).blue_ ≤ c.blue_)
      ∧ (∀ i j : Nat, i ≤ j → j < 256 →
          (c.scale i).red_ ≤ (c.scale j).red_ ∧ (c.scale i).green_ ≤ (c.scale j).green_
            ∧ (c.scale i).blue_ ≤ (c.scale j).blue_)
      ∧ (∀ (e1 e2 : RippleEffect) (key1 key2 : Nat) (s1 s2 : KeyState),
          e1.color_ = c → e2.color_ = c → e1.isFinished = false → e2.isFinished = false →
          e1.activeKeys_.find key1 = some s1 → e2.activeKeys_.find key2 = some s2 →
          s1.state.index ≤ s2.state.index →
          (e2.getColorForKey key2).red_ ≤ (e1.getColorForKey key1).red_
            ∧ (e2.getColorForKey key2).green_ ≤ (e1.getColorForKey key1).green_
            ∧ (e2.getColorForKey key2).blue_ ≤ (e1.getColorForKey key1).blue_) := by
  have hr := c.red_range
  have hg := c.green_range
  have hb := c.blue_range
  have le : ∀ n : Nat, n < 256 → (c.scale n).red_ ≤ c.red_ ∧ (c.scale n).green_ ≤ c.green_
      ∧ (c.scale n).blue_ ≤ c.blue_ := by
    intro n hn
    have h := Color.scale_channels c n hn
    rw [h.1, h.2.1, h.2.2]
    have hn' : (n : Int) ≤ 255 := by omega
    exact ⟨Color.scale_channel_le _ _ hr.1 hn', Color.scale_channel_le _ _ hg.1 hn',
      Color.scale_channel_le _ _ hb.1 hn'⟩
  have mono : ∀ a b : Nat, a ≤ b → b < 256 → (c.scale a).red_ ≤ (c.scale b).red_
      ∧ (c.scale a).green_ ≤ (c.scale b).green_ ∧ (c.scale a).blue_ ≤ (c.scale b).blue_ := by
    intro a b hab hb256
    have ha := Color.scale_channels c a (by omega)
    have hb' := Color.scale_channels c b hb256
    rw [ha.1, ha.2.1, ha.2.2, hb'.1, hb'.2.1, hb'.2.2]
    have h1 : (a : Int) ≤ b := by omega
    exact ⟨Color.scale_channel_mono _ _ _ hr.1 h1, Color.scale_channel_mono _ _ _ hg.1 h1,
      Color.scale_channel_mono _ _ _ hb.1 h1⟩
  have l204 := le 204 (by decide)
  have l102 := le 102 (by decide)
  have m12 := mono 102 204 (by decide) (by decide)
  refine ⟨⟨l204.1, m12.1, l204.2.1, m12.2.1, l204.2.2, m12.2.2⟩, le, mono, ?_⟩
  intro e1 e2 key1 key2 s1 s2 hcolor1 hcolor2 hnf1 hnf2 hs1 hs2 hstage
  have g1 : e1.getColorForKey key1 = match s1.state with
      | State.Ignited => c
      | State.Fading_High => c.scale 204
      | State.Fading_Low => c.scale 102 := by
    simp only [RippleEffect.getColorForKey, hnf1, hs1, hcolor1]
    rfl
  have g2 : e2.getColorForKey key2 = match s2.state with
      | State.Ignited => c
      | State.Fading_High => c.scale 204
      | State.Fading_Low => c.scale 102 := by
    simp only [RippleEffect.getColorForKey, hnf2, hs2, hcolor2]
    rfl
  rw [g1, g2]
  obtain ⟨st1, c1⟩ := s1
  obtain ⟨st2, c2⟩ := s2
  cases st1 <;> cases st2 <;> simp only [State.index] at hstage <;>
    first
      | exact ⟨le_refl _, le_refl _, le_refl _⟩
      | exact l204
      | exact l102
      | exact m12
      | omega

/-- Witness for C39: the worked ripple of colour `(255, 0, 0)`; its seed is
`Ignited` at the start and `Fading_High` after 4 updates. -/
theorem Color.scale_only_dims_witness :
    ((Example.workedRipple.updateN Example.rowNeighbors 4).getColorForKey 0).red_
      ≤ (Example.workedRipple.getColorForKey 0).red_ :=
  ((Color.scale_only_dims (Color.new 255 0 0)).2.2.2
    Example.workedRipple (Example.workedRipple.updateN Example.rowNeighbors 4) 0 0
    ⟨State.Ignited, 0⟩ ⟨State.Fading_High, 0⟩ (by decide) (by decide) (by decide) (by decide)
    (by decide) (by decide) (by decide)).1

/-! ## Counters, and instances that do not spread -/

/-- C36. Counter bound invariant: after every number of updates of a
constructed instance, every entry of the active set has a counter that is at
least 0 and below `stepDuration_`, the step duration as the constructor
coerced it. -/
theorem RippleEffect.counter_invariant (neighbors : Nat → List Nat) (K : Nat) (color : Color)
    (S D L : Int) (t k : Nat) (cs : KeyState)
    (h : ((RippleEffect.new K color S D L).updateN neighbors t).activeKeys_.find k = some cs) :
    (0 ≤ cs.framesInState
        ∧ cs.framesInState < ((RippleEffect.new K color S D L).updateN neighbors t).stepDuration_)
      ∧ ((RippleEffect.new K color S D L).updateN neighbors t).stepDuration_
        = (if S > 0 then S else 1) := by
  obtain ⟨hS, _, hb0⟩ := RippleEffect.new_params K color S D L
  have hf := (RippleEffect.updateN_fields neighbors (RippleEffect.new K color S D L) t).2.1
  rw [hf]
  exact ⟨RippleEffect.counter_bound neighbors _ (RippleEffect.WF_new K color S D L) hS hb0 t k
    cs h, rfl⟩

/-- Witness for C36: key 1 of the row after 3 updates of the ripple of step
duration 2. -/
theorem RippleEffect.counter_invariant_witness :
    (Example.ripple.updateN Example.rowNeighbors 3).activeKeys_.find 1
        = some ⟨State.Ignited, 1⟩
      ∧ (0 : Int) ≤ 1 ∧ (1 : Int) < (Example.ripple.updateN Example.rowNeighbors 3).stepDuration_ :=
  ⟨by decide,
    (RippleEffect.counter_invariant Example.rowNeighbors 0 (Color.new 255 0 0) 2 1 100 3 1
      ⟨State.Ignited, 1⟩ (by decide)).1⟩

/-- An instance whose step duration is not above its propagation delay never
claims a key: a key other than the seed is never in the active set. -/
theorem RippleEffect.seed_only (neighbors : Nat → List Nat) (K : Nat) (color : Color)
    (S D L : Int)
    (hSD : (RippleEffect.new K color S D L).stepDuration_
      ≤ (RippleEffect.new K color S D L).propagationDelay_)
    (t k : Nat) (hk : k ≠ K) :
    ((RippleEffect.new K color S D L).updateN neighbors t).activeKeys_.find k = none := by
  obtain ⟨hS, _, hb0⟩ := RippleEffect.new_params K color S D L
  have hwf := RippleEffect.WF_new K color S D L
  induction t with
  | zero =>
    have h0 := RippleEffect.entryAt_new_zero neighbors K color S D L k
    unfold RippleEffect.entryAt at h0
    rw [h0, if_neg (Ne.symm hk)]
  | succ t ih =>
    apply RippleEffect.find_updateN_succ_unclaimed neighbors _ hwf t k ih
    intro j c hj hc _
    have hb := RippleEffect.counter_bound neighbors _ hwf hS hb0 t j ⟨State.Ignited, c⟩ hj
    simp only at hb
    omega

/-- C33. No propagation when the step is not longer than the delay: for every
key graph, seed and lifetime, if the step duration the constructor stored is
at most the propagation delay it stored, then after every number of updates
the active set has no entry for a key other than the seed. -/
theorem RippleEffect.no_spread (neighbors : Nat → List Nat) (K : Nat) (color : Color)
    (S D L : Int)
    (hSD : (RippleEffect.new K color S D L).stepDuration_
      ≤ (RippleEffect.new K color S D L).propagationDelay_)
    (t k : Nat) (hk : k ≠ K) :
    ((RippleEffect.new K color S D L).updateN neighbors t).activeKeys_.find k = none :=
  RippleEffect.seed_only neighbors K color S D L hSD t k hk

/-- Witness for C33: step duration and propagation delay both 1, on the row of
three keys; key 1, a neighbour of the seed, after 2 updates. -/
theorem RippleEffect.no_spread_witness :
    (Example.shortRipple.updateN Example.rowNeighbors 2).activeKeys_.find 1 = none :=
  RippleEffect.no_spread Example.rowNeighbors 0 (Color.new 255 0 0) 1 1 100 (by decide) 2 1
    (by decide)

/-! ## The parameters derived by the main loop -/

theorem Main.derived (t : Int) :
    Main.lifetime_ms t = max 500 (min 7000 (2 * t))
      ∧ Main.maxLifetime t = max 500 (min 7000 (2 * t)) / 16
      ∧ Main.stepDuration t = max 1 (max 500 (min 7000 (2 * t)) / 16 / 8) := by
  have hl : t <<< (1 : Int) = 2 * t := by
    have h := Int.shiftLeft_eq_mul_pow t 1
    simp only [Nat.cast_one] at h
    rw [h]
    norm_num
    ring
  have h4 : ∀ x : Int, x >>> (4 : Nat) = x / 16 := by
    intro x
    rw [Int.shiftRight_eq_div_pow]
    norm_num
  have h3 : ∀ x : Int, x >>> (3 : Nat) = x / 8 := by
    intro x
    rw [Int.shiftRight_eq_div_pow]
    norm_num
  simp only [Main.lifetime_ms, Main.maxLifetime, Main.stepDuration, hl, h4, h3]
  exact ⟨trivial, trivial, trivial⟩

/-- C38, counterexample. A key pressed 250 ms after the last press gets step
duration 3 and propagation delay 3: the step duration is not above the
delay. -/
theorem Main.parameters_counterexample :
    Main.stepDuration 250 = 3 ∧ Main.propagationDelay 250 = 3
      ∧ ¬ (Main.stepDuration 250 > Main.propagationDelay 250) := by
  decide

/-- C38, amended. For every time `t` since the last press the derived
values satisfy `31 ≤ maxLifetime ≤ 437`, `3 * stepDuration < maxLifetime` and
`stepDuration ≥ propagationDelay`; the step duration is above the propagation
delay exactly when `t` is not in `250 .. 255`. For `t` in `250 .. 255` both are
3, and the ripple requested never reaches a key other than the one pressed. -/
theorem Main.parameters (t : Int) :
    (31 ≤ Main.maxLifetime t ∧ Main.maxLifetime t ≤ 437)
      ∧ 3 * Main.stepDuration t < Main.maxLifetime t
      ∧ Main.propagationDelay t ≤ Main.stepDuration t
      ∧ (Main.propagationDelay t < Main.stepDuration t ↔ ¬ (250 ≤ t ∧ t ≤ 255))
      ∧ (250 ≤ t ∧ t ≤ 255 →
          Main.stepDuration t = 3 ∧ Main.propagationDelay t = 3
            ∧ ∀ (neighbors : Nat → List Nat) (K : Nat) (color : Color) (n k : Nat), k ≠ K →
              ((Main.requested K color t).updateN neighbors n).activeKeys_.find k = none) := by
  obtain ⟨_, hL, hS⟩ := Main.derived t
  have hD : Main.propagationDelay t
      = if t < 150 then 1 else if t < 250 then 2 else if t < 350 then 3
        else if t < 500 then 4 else 5 := rfl
  have a1 : 31 ≤ Main.maxLifetime t ∧ Main.maxLifetime t ≤ 437 := by
    rw [hL]; omega
  have a2 : 3 * Main.stepDuration t < Main.maxLifetime t := by
    rw [hS, hL]; omega
  have a3 : Main.propagationDelay t ≤ Main.stepDuration t := by
    rw [hS, hD]; split_ifs <;> omega
  have a4 : Main.propagationDelay t < Main.stepDuration t ↔ ¬ (250 ≤ t ∧ t ≤ 255) := by
    rw [hS, hD]; split_ifs <;> omega
  refine ⟨a1, a2, a3, a4, ?_⟩
  intro hr
  have b1 : Main.stepDuration t = 3 := by
    rw [hS]; omega
  have b2 : Main.propagationDelay t = 3 := by
    rw [hD]; split_ifs <;> omega
  refine ⟨b1, b2, ?_⟩
  intro neighbors K color n k hk
  apply RippleEffect.seed_only neighbors K color _ _ _ _ n k hk
  simp only [RippleEffect.new, b1, b2]
  decide

/-- Witness for C38: a press 100 ms after the last one. -/
theorem Main.parameters_witness :
    Main.propagationDelay 100 < Main.stepDuration 100 :=
  (Main.parameters 100).2.2.2.1.mpr (by decide)

/-! ## Lookup of a key by its identifier -/

theorem Keyboard.find_if_spec (pred : Key → Bool) (keys : List Key) :
    Keyboard.find_if pred keys ≤ keys.length
      ∧ (∀ j key, j < Keyboard.find_if pred keys → keys.get? j = some key → pred key = false)
      ∧ (Keyboard.find_if pred keys < keys.length →
          ∃ key, keys.get? (Keyboard.find_if pred keys) = some key ∧ pred key = true)
      ∧ (Keyboard.find_if pred keys = keys.length ↔ ∀ key ∈ keys, pred key = false) := by
  induction keys with
  | nil => simp [Keyboard.find_if]
  | cons key rest ih =>
    obtain ⟨h1, h2, h3, h4⟩ := ih
    by_cases hp : pred key = true
    · simp only [Keyboard.find_if, hp, if_true]
      refine ⟨by simp, ?_, ?_, ?_⟩
      · intro j k hj
        omega
      · intro _
        exact ⟨key, rfl, hp⟩
      · constructor
        · intro h
          simp at h
        · intro h
          have := h key (List.mem_cons_self _ _)
          rw [hp] at this
          exact Bool.noConfusion this
    · have hp' : pred key = false := by simpa using hp
      simp only [Keyboard.find_if, hp', Bool.false_eq_true, if_false]
      refine ⟨by simp; exact h1, ?_, ?_, ?_⟩
      · intro j k hj hk
        cases j with
        | zero =>
          simp at hk
          rw [← hk]
          exact hp'
        | succ j =>
          simp at hk
          exact h2 j k (by omega) (by simpa using hk)
      · intro hlt
        simp only [List.length_cons, Nat.add_lt_add_iff_right] at hlt
        obtain ⟨k, hk, hpk⟩ := h3 hlt
        exact ⟨k, by simpa using hk, hpk⟩
      · simp only [List.length_cons, Nat.add_right_cancel_iff, List.mem_cons, forall_eq_or_imp,
          hp', true_and]
        exact h4

/-- C32. The lookup `Keyboard::findKeyById`: for every list of keys and every
key code, the result is null if and only if no key of the list has `getId()`
equal to the code; otherwise it points to the first key, in list order, whose
`getId()` equals the code; and the const and the non-const overload return the
same key. -/
theorem Keyboard.findKeyById_spec (kb : Keyboard) (id : Nat) (hid : id < 65536) :
    (kb.findKeyById id = none ↔ ∀ key ∈ kb.getKeys, key.getId ≠ id)
      ∧ (∀ i, kb.findKeyById id = some i →
          (∃ key, kb.getKeys.get? i = some key ∧ key.getId = id)
            ∧ ∀ j key, j < i → kb.getKeys.get? j = some key → key.getId ≠ id)
      ∧ kb.findKeyByIdConst id = kb.findKeyById id := by
  have hmod : id % 65536 = id := Nat.mod_eq_of_lt hid
  obtain ⟨h1, h2, h3, h4⟩ :=
    Keyboard.find_if_spec (fun key => decide (key.getId = id % 65536)) kb.keys_
  refine ⟨?_, ?_, rfl⟩
  · simp only [Keyboard.findKeyById, Keyboard.getKeys]
    constructor
    · intro h
      have heq : Keyboard.find_if (fun key => decide (key.getId = id % 65536)) kb.keys_
          = kb.keys_.length := by
        by_contra hne
        rw [if_pos hne] at h
        exact Option.noConfusion h
      intro key hkey
      have := h4.mp heq key hkey
      rw [hmod] at this
      simpa using this
    · intro h
      have heq : Keyboard.find_if (fun key => decide (key.getId = id % 65536)) kb.keys_
          = kb.keys_.length := by
        apply h4.mpr
        intro key hkey
        rw [hmod]
        simpa using h key hkey
      rw [if_neg (by simpa using heq)]
  · intro i hi
    simp only [Keyboard.findKeyById] at hi
    split at hi
    · rename_i hne
      have hi' := Option.some.inj hi
      subst hi'
      have hlt : Keyboard.find_if (fun key => decide (key.getId = id % 65536)) kb.keys_
          < kb.keys_.length := by omega
      obtain ⟨key, hk, hp⟩ := h3 hlt
      refine ⟨⟨key, hk, ?_⟩, ?_⟩
      · rw [hmod] at hp
        simpa using hp
      · intro j k hj hk'
        have := h2 j k hj hk'
        rw [hmod] at this
        simpa using this
    · exact Option.noConfusion hi

/-- Witness for C32: the key with identifier 11 on the row of three keys. -/
theorem Keyboard.findKeyById_spec_witness :
    Example.rowKeyboard.findKeyById 11 = some 1
      ∧ ∃ key, Example.rowKeyboard.getKeys.get? 1 = some key ∧ key.getId = 11 :=
  ⟨by decide,
    ((Keyboard.findKeyById_spec Example.rowKeyboard 11 (by decide)).2.1 1 (by decide)).1⟩

/-! ## Wavefront timing -/

/-- An entry of the active set stands at the end of a path from the seed that
the wave has had the time to travel: a path of `m` hops takes
`m * (propagationDelay_ + 1)` ticks, and the entry has its age on top. -/
theorem RippleEffect.path_of_entry (neighbors : Nat → List Nat) (K : Nat) (color : Color)
    (S D L : Int) (t X : Nat) (cs : KeyState)
    (h : (RippleEffect.new K color S D L).entryAt neighbors t X = some cs) :
    ∃ m : Nat, RippleEffect.Path neighbors K m X
      ∧ (m : Int) * ((RippleEffect.new K color S D L).propagationDelay_ + 1)
          + cs.age (RippleEffect.new K color S D L).stepDuration_ ≤ t := by
  obtain ⟨hS, hD, hb0⟩ := RippleEffect.new_params K color S D L
  have hwf := RippleEffect.WF_new K color S D L
  induction t generalizing X cs with
  | zero =>
    rw [RippleEffect.entryAt_new_zero] at h
    by_cases hKX : K = X
    · rw [if_pos hKX] at h
      rw [← Option.some.inj h]
      refine ⟨0, hKX.symm, ?_⟩
      simp [KeyState.age, State.index]
    · rw [if_neg hKX] at h
      exact Option.noConfusion h
  | succ t ih =>
    by_cases hnf : (RippleEffect.new K color S D L).framesLived_ + (t : Int) + 1
        < (RippleEffect.new K color S D L).maxLifetime_
    · rcases RippleEffect.find_updateN_succ_cases neighbors _ hwf t hnf X cs h with
        ⟨prev, hprev, htr⟩ | ⟨_, hnew, j, c, hj, hc, hmem⟩
      · obtain ⟨m, hpath, hle⟩ := ih X prev hprev
        have hb := RippleEffect.counter_bound neighbors _ hwf hS hb0 t X prev hprev
        have hage := (RippleEffect.transition_bound _ hS prev cs hb htr).2
        refine ⟨m, hpath, ?_⟩
        rw [hage]
        push_cast
        omega
      · obtain ⟨m, hpath, hle⟩ := ih j ⟨State.Ignited, c⟩ hj
        refine ⟨m + 1, ⟨j, hpath, hmem⟩, ?_⟩
        rw [hnew]
        simp only [KeyState.age, State.index] at hle ⊢
        push_cast
        have hexp : ((m : Int) + 1) * ((RippleEffect.new K color S D L).propagationDelay_ + 1)
            = (m : Int) * ((RippleEffect.new K color S D L).propagationDelay_ + 1)
              + ((RippleEffect.new K color S D L).propagationDelay_ + 1) := by ring
        rw [hexp]
        omega
    · rw [RippleEffect.entryAt_succ_of_finished neighbors _ t hnf X] at h
      exact Option.noConfusion h

/-- A key at graph distance `k` from the seed is not in the active set before
tick `k * (d + 1)`, where `d` is the propagation delay. -/
theorem RippleEffect.dark_before (neighbors : Nat → List Nat) (K : Nat) (color : Color)
    (S D L : Int) (d : Nat) (hd : (RippleEffect.new K color S D L).propagationDelay_ = (d : Int))
    (k X : Nat) (hdist : RippleEffect.Dist neighbors K k X) (n : Nat) (hn : n < k * (d + 1)) :
    (RippleEffect.new K color S D L).entryAt neighbors n X = none := by
  obtain ⟨hS, hD, hb0⟩ := RippleEffect.new_params K color S D L
  have hwf := RippleEffect.WF_new K color S D L
  cases hX : (RippleEffect.new K color S D L).entryAt neighbors n X with
  | none => rfl
  | some cs =>
    exfalso
    obtain ⟨m, hpath, hle⟩ := RippleEffect.path_of_entry neighbors K color S D L n X cs hX
    have hb := RippleEffect.counter_bound neighbors _ hwf hS hb0 n X cs hX
    have hnn := KeyState.age_nonneg _ hS cs hb.1
    rw [hd] at hle
    have hle' : m * (d + 1) ≤ n := by
      have : ((m * (d + 1) : Nat) : Int) ≤ n := by
        push_cast
        omega
      exact_mod_cast this
    have hmk : m < k := by
      by_contra hge
      have : k * (d + 1) ≤ m * (d + 1) := Nat.mul_le_mul_right _ (by omega)
      omega
    exact hdist.2 m hmk hpath

/-- C34. Wavefront timing: for every key graph, seed `K` and parameters whose
stored step duration is above the stored propagation delay `d`, and every key
`X` at graph distance `k` from `K` (the length of a shortest path along the
neighbour lists) with `k * (d + 1) < maxLifetime`: `X` is not in the active
set after any number `n < k * (d + 1)` of updates, and after exactly
`k * (d + 1)` updates its entry is `Ignited` with counter 0. -/
theorem RippleEffect.wavefront_timing (neighbors : Nat → List Nat) (K : Nat) (color : Color)
    (S D L : Int) (d : Nat)
    (hd : (RippleEffect.new K color S D L).propagationDelay_ = (d : Int))
    (hSD : (d : Int) < (RippleEffect.new K color S D L).stepDuration_)
    (k X : Nat) (hdist : RippleEffect.Dist neighbors K k X)
    (hL : ((k * (d + 1) : Nat) : Int) < L) :
    (∀ n, n < k * (d + 1) →
        ((RippleEffect.new K color S D L).updateN neighbors n).activeKeys_.find X = none)
      ∧ ((RippleEffect.new K color S D L).updateN neighbors (k * (d + 1))).activeKeys_.find X
        = some ⟨State.Ignited, 0⟩ := by
  refine ⟨fun n hn => RippleEffect.dark_before neighbors K color S D L d hd k X hdist n hn, ?_⟩
  obtain ⟨hS, hD, hb0⟩ := RippleEffect.new_params K color S D L
  have hwf := RippleEffect.WF_new K color S D L
  have hSnat : (RippleEffect.new K color S D L).stepDuration_
      = (((RippleEffect.new K color S D L).stepDuration_.toNat : Nat) : Int) := by
    rw [Int.toNat_of_nonneg (by omega)]
  have hdS : d < (RippleEffect.new K color S D L).stepDuration_.toNat := by omega
  induction k generalizing X with
  | zero =>
    obtain ⟨hpath, _⟩ := hdist
    have hXK : X = K := hpath
    have h0 := RippleEffect.entryAt_new_zero neighbors K color S D L X
    unfold RippleEffect.entryAt at h0
    rw [Nat.zero_mul, h0, if_pos hXK.symm]
  | succ k ih =>
    obtain ⟨⟨Y, hpathY, hmem⟩, hmin⟩ := hdist
    have hdistY : RippleEffect.Dist neighbors K k Y := by
      refine ⟨hpathY, ?_⟩
      intro m hm hpm
      exact hmin (m + 1) (by omega) ⟨Y, hpm, hmem⟩
    have hTk : (k + 1) * (d + 1) = k * (d + 1) + d + 1 := by ring
    have hLk : ((k * (d + 1) : Nat) : Int) < L := by
      rw [hTk] at hL
      push_cast at hL ⊢
      omega
    have hY := ih Y hdistY hLk
    have hL' : ((k * (d + 1) + d + 1 : Nat) : Int) < L := by
      rw [← hTk]
      exact hL
    have hnfd : ((RippleEffect.new K color S D L).updateN neighbors
        (k * (d + 1) + d)).isFinished = false := by
      rw [RippleEffect.updateN_isFinished]
      have hfl : (RippleEffect.new K color S D L).framesLived_ = 0 := rfl
      have hml : (RippleEffect.new K color S D L).maxLifetime_ = L := rfl
      rw [hfl, hml]
      push_cast at hL' ⊢
      simp only [decide_eq_false_iff_not]
      omega
    have hYd := RippleEffect.find_updateN_ofStage neighbors _ hwf _ hSnat (by omega)
      (k * (d + 1)) Y hY d (by omega) hnfd
    rw [Nat.div_eq_of_lt hdS, Nat.mod_eq_of_lt hdS] at hYd
    have hXnone := RippleEffect.dark_before neighbors K color S D L d hd (k + 1) X
      ⟨⟨Y, hpathY, hmem⟩, hmin⟩ (k * (d + 1) + d) (by omega)
    have hnf : (RippleEffect.new K color S D L).framesLived_ + ((k * (d + 1) + d : Nat) : Int) + 1
        < (RippleEffect.new K color S D L).maxLifetime_ := by
      have hfl : (RippleEffect.new K color S D L).framesLived_ = 0 := rfl
      have hml : (RippleEffect.new K color S D L).maxLifetime_ = L := rfl
      rw [hfl, hml]
      push_cast at hL' ⊢
      omega
    have hclaim := RippleEffect.find_updateN_succ_claimed neighbors _ (k * (d + 1) + d) hnf X
      hXnone Y (d : Int) hYd (by rw [hd]) hmem
    rw [hTk]
    exact hclaim

theorem Example.rowNeighbors_dist : RippleEffect.Dist Example.rowNeighbors 0 2 2 := by
  have n0 : Example.rowNeighbors 0 = [1] := by decide
  have n1 : Example.rowNeighbors 1 = [0, 2] := by decide
  refine ⟨⟨1, ⟨0, rfl, by rw [n0]; simp⟩, by rw [n1]; simp⟩, ?_⟩
  intro m hm
  rcases m with _ | _ | m
  · intro h
    have h20 : (2 : Nat) = 0 := h
    omega
  · rintro ⟨Y, hY, hmem⟩
    have hY0 : Y = 0 := hY
    rw [hY0, n0] at hmem
    simp at hmem
  · omega

/-- Witness for C34: on the row of three keys, key 2 is at distance 2 from the
seed 0; with delay 1 and step duration 2 it is lit after exactly 4 updates. -/
theorem RippleEffect.wavefront_timing_witness :
    (Example.ripple.updateN Example.rowNeighbors 3).activeKeys_.find 2 = none
      ∧ (Example.ripple.updateN Example.rowNeighbors 4).activeKeys_.find 2
        = some ⟨State.Ignited, 0⟩ :=
  ⟨(RippleEffect.wavefront_timing Example.rowNeighbors 0 (Color.new 255 0 0) 2 1 100 1
      (by decide) (by decide) 2 2 Example.rowNeighbors_dist (by decide)).1 3 (by decide),
    (RippleEffect.wavefront_timing Example.rowNeighbors 0 (Color.new 255 0 0) 2 1 100 1
      (by decide) (by decide) 2 2 Example.rowNeighbors_dist (by decide)).2⟩

/-! ## The blend does not depend on the order of the live effects -/

theorem Color.add_comm (a b : Color) : a.add b = b.add a := by
  apply Color.eq_of_channels
  · rw [Color.add_red, Color.add_red, Int.add_comm]
  · rw [Color.add_green, Color.add_green, Int.add_comm]
  · rw [Color.add_blue, Color.add_blue, Int.add_comm]

theorem Color.add_assoc (a b c : Color) : (a.add b).add c = a.add (b.add c) := by
  have ha1 := a.red_range
  have ha2 := a.green_range
  have ha3 := a.blue_range
  have hb1 := b.red_range
  have hb2 := b.green_range
  have hb3 := b.blue_range
  have hc1 := c.red_range
  have hc2 := c.green_range
  have hc3 := c.blue_range
  apply Color.eq_of_channels
  · rw [Color.add_red, Color.add_red, Color.add_red, Color.add_red]
    omega
  · rw [Color.add_green, Color.add_green, Color.add_green, Color.add_green]
    omega
  · rw [Color.add_blue, Color.add_blue, Color.add_blue, Color.add_blue]
    omega

theorem Color.add_black (a : Color) : a.add (Color.new 0 0 0) = a := by
  have ha1 := a.red_range
  have ha2 := a.green_range
  have ha3 := a.blue_range
  have z1 : (Color.new 0 0 0).red_ = 0 := rfl
  have z2 : (Color.new 0 0 0).green_ = 0 := rfl
  have z3 : (Color.new 0 0 0).blue_ = 0 := rfl
  apply Color.eq_of_channels
  · rw [Color.add_red, z1]
    omega
  · rw [Color.add_green, z2]
    omega
  · rw [Color.add_blue, z3]
    omega

theorem Color.add_right_comm (z x y : Color) : (z.add x).add y = (z.add y).add x := by
  rw [Color.add_assoc, Color.add_assoc, Color.add_comm x y]

theorem EffectPool.isFinishedAt_congr (p q : EffectPool)
    (h : ∀ other, p.deref other = q.deref other) (effect : Nat) :
    p.isFinishedAt effect = q.isFinishedAt effect := by
  unfold EffectPool.isFinishedAt
  rw [h effect]

theorem EffectPool.getColorForKeyAt_congr (p q : EffectPool)
    (h : ∀ other, p.deref other = q.deref other) (effect key : Nat) :
    p.getColorForKeyAt effect key = q.getColorForKeyAt effect key := by
  unfold EffectPool.getColorForKeyAt
  rw [h effect]

/-- The frame rendered from two pools that hold the same objects, for two
orders of the same live effects, is the same. -/
theorem LightingManager.render_perm (p q : EffectPool)
    (h : ∀ other, p.deref other = q.deref other) (l1 l2 : List Nat) (hperm : l1.Perm l2)
    (size : Nat) :
    LightingManager.render p l1 size = LightingManager.render q l2 size := by
  apply List.ext_getElem?
  intro j
  by_cases hj : j < size
  · rw [(LightingManager.render_spec p l1 size).2 j hj,
      (LightingManager.render_spec q l2 size).2 j hj]
    have hfun : (fun effect => p.getColorForKeyAt effect j)
        = (fun effect => q.getColorForKeyAt effect j) := by
      funext effect
      exact EffectPool.getColorForKeyAt_congr p q h effect j
    rw [hfun]
    congr 1
    exact List.Perm.foldl_eq' (hperm.map _) (fun x _ y _ z => Color.add_right_comm z x y) _
  · rw [List.getElem?_eq_none (by rw [(LightingManager.render_spec p l1 size).1]; omega),
      List.getElem?_eq_none (by rw [(LightingManager.render_spec q l2 size).1]; omega)]

/-- C37. Blend order independence: `Color::add` is commutative and
associative and black is its identity; and the frame buffer that
`LightingManager::update` produces is the same for every ordering of the list
of live effects, the live pointers being pairwise distinct. -/
theorem LightingManager.blend_order_independent (a b c : Color) (m : LightingManager)
    (order : List Nat) :
    a.add b = b.add a
      ∧ (a.add b).add c = a.add (b.add c)
      ∧ a.add (Color.new 0 0 0) = a
      ∧ (Color.new 0 0 0).add a = a
      ∧ (m.activeEffects_.Nodup → order.Perm m.activeEffects_ →
          ({ m with activeEffects_ := order }).update.getFrameBuffer
            = m.update.getFrameBuffer) := by
  refine ⟨Color.add_comm a b, Color.add_assoc a b c, Color.add_black a, ?_, ?_⟩
  · rw [Color.add_comm]
    exact Color.add_black a
  · intro hnodup hperm
    have hnodup' : order.Nodup := hperm.nodup_iff.mpr hnodup
    cases hkb : m.keyboard_ with
    | none => simp only [LightingManager.update, LightingManager.getFrameBuffer, hkb]
    | some kb =>
      simp only [LightingManager.update, LightingManager.getFrameBuffer, hkb]
      have hderef : ∀ other,
          (LightingManager.tickAll kb.neighborsOf order m.effectPool_).deref other
            = (LightingManager.tickAll kb.neighborsOf m.activeEffects_ m.effectPool_).deref
              other := by
        intro other
        rw [LightingManager.deref_tickAll _ _ _ hnodup', LightingManager.deref_tickAll _ _ _ hnodup]
        by_cases hmem : other ∈ m.activeEffects_
        · rw [if_pos hmem, if_pos (hperm.mem_iff.mpr hmem)]
        · rw [if_neg hmem, if_neg (fun h => hmem (hperm.mem_iff.mp h))]
      have hfin := EffectPool.isFinishedAt_congr _ _ hderef
      obtain ⟨r1, _, r3⟩ := LightingManager.retire_spec order
        (LightingManager.tickAll kb.neighborsOf order m.effectPool_) hnodup'
      obtain ⟨s1, _, s3⟩ := LightingManager.retire_spec m.activeEffects_
        (LightingManager.tickAll kb.neighborsOf m.activeEffects_ m.effectPool_) hnodup
      apply LightingManager.render_perm
      · intro other
        rw [r3 other, s3 other, hfin other, hderef other]
        by_cases hmem : other ∈ m.activeEffects_
        · simp only [hmem, hperm.mem_iff.mpr hmem]
        · simp only [hmem, fun h => hmem (hperm.mem_iff.mp h), false_and, if_false]
          rw [if_neg]
          intro hc
          exact hmem (hperm.mem_iff.mp hc.1)
      · rw [r1, s1]
        have hpred : (fun effect =>
            !(LightingManager.tickAll kb.neighborsOf order m.effectPool_).isFinishedAt effect)
            = (fun effect =>
              !(LightingManager.tickAll kb.neighborsOf m.activeEffects_
                m.effectPool_).isFinishedAt effect) := by
          funext effect
          rw [hfin effect]
        rw [hpred]
        exact hperm.filter _

/-- Witness for C37: the two live effects of the manager with two ripples,
ticked and rendered in the order 18, 19 and in the order 19, 18. -/
theorem LightingManager.blend_order_independent_witness :
    Example.twoRipples.activeEffects_ = [19, 18]
      ∧ ({ Example.twoRipples with activeEffects_ := [18, 19] }).update.getFrameBuffer
        = Example.twoRipples.update.getFrameBuffer :=
  ⟨by decide,
    (LightingManager.blend_order_independent (Color.new 100 0 0) (Color.new 200 0 0)
      (Color.new 0 0 0) Example.twoRipples [18, 19]).2.2.2.2 (by decide) (by decide)⟩

/-! ## The visible life of an effect -/

theorem LightingManager.update_keyboard (m : LightingManager) :
    m.update.keyboard_ = m.keyboard_ := by
  unfold LightingManager.update
  split
  · rfl
  · rfl

/-- One `update` of the compositor, seen from one live effect: it is ticked
once, and it stays in the list of live effects exactly when it is not finished
after the tick. -/
theorem LightingManager.update_live (m : LightingManager) (kb : Keyboard)
    (hkb : m.keyboard_ = some kb) (hnodup : m.activeEffects_.Nodup) (slot : Nat)
    (e : RippleEffect) (hmem : slot ∈ m.activeEffects_)
    (hderef : m.effectPool_.deref slot = some e) :
    (slot ∈ m.update.activeEffects_ ↔ (e.update kb.neighborsOf).isFinished = false)
      ∧ ((e.update kb.neighborsOf).isFinished = false →
          m.update.effectPool_.deref slot = some (e.update kb.neighborsOf)) := by
  obtain ⟨r1, _, r3⟩ := LightingManager.retire_spec m.activeEffects_
    (LightingManager.tickAll kb.neighborsOf m.activeEffects_ m.effectPool_) hnodup
  have htick : (LightingManager.tickAll kb.neighborsOf m.activeEffects_ m.effectPool_).deref slot
      = some (e.update kb.neighborsOf) := by
    rw [LightingManager.deref_tickAll _ _ _ hnodup, if_pos hmem, hderef]
    rfl
  have hfin : (LightingManager.tickAll kb.neighborsOf m.activeEffects_
      m.effectPool_).isFinishedAt slot = (e.update kb.neighborsOf).isFinished := by
    unfold EffectPool.isFinishedAt
    rw [htick]
  have hact : m.update.activeEffects_
      = (LightingManager.retire m.activeEffects_
          (LightingManager.tickAll kb.neighborsOf m.activeEffects_ m.effectPool_)).1 := by
    simp only [LightingManager.update, hkb]
  have hpool : m.update.effectPool_
      = (LightingManager.retire m.activeEffects_
          (LightingManager.tickAll kb.neighborsOf m.activeEffects_ m.effectPool_)).2 := by
    simp only [LightingManager.update, hkb]
  constructor
  · rw [hact, r1, List.mem_filter, hfin]
    constructor
    · intro h
      simpa using h.2
    · intro h
      exact ⟨hmem, by simp [h]⟩
  · intro hnf
    rw [hpool, r3 slot, hfin, hnf]
    simp [htick]

theorem LightingManager.update_not_live (m : LightingManager) (hnodup : m.activeEffects_.Nodup)
    (slot : Nat) (hmem : slot ∉ m.activeEffects_) : slot ∉ m.update.activeEffects_ := by
  cases hkb : m.keyboard_ with
  | none =>
    have : m.update = m := by
      simp only [LightingManager.update, hkb]
    rw [this]
    exact hmem
  | some kb =>
    have hact : m.update.activeEffects_
        = (LightingManager.retire m.activeEffects_
            (LightingManager.tickAll kb.neighborsOf m.activeEffects_ m.effectPool_)).1 := by
      simp only [LightingManager.update, hkb]
    rw [hact, (LightingManager.retire_spec _ _ hnodup).1, List.mem_filter]
    intro h
    exact hmem h.1

/-- A live effect through `k` updates of the compositor: it is ticked `k`
times, and it is live after the `k`-th update, `k ≥ 1`, exactly when its
elapsed counter is then below its max lifetime. -/
theorem LightingManager.updateN_live (m : LightingManager) (kb : Keyboard)
    (hkb : m.keyboard_ = some kb) (hd : m.Disciplined) (slot : Nat) (e : RippleEffect)
    (hmem : slot ∈ m.activeEffects_) (hderef : m.effectPool_.deref slot = some e) (k : Nat) :
    (m.updateN k).keyboard_ = some kb ∧ (m.updateN k).Disciplined
      ∧ (if k = 0 ∨ e.framesLived_ + (k : Int) < e.maxLifetime_ then
          slot ∈ (m.updateN k).activeEffects_
            ∧ (m.updateN k).effectPool_.deref slot = some (e.updateN kb.neighborsOf k)
        else slot ∉ (m.updateN k).activeEffects_) := by
  induction k with
  | zero => exact ⟨hkb, hd, by simp [LightingManager.updateN, RippleEffect.updateN, hmem, hderef]⟩
  | succ k ih =>
    obtain ⟨ihkb, ihd, ihlive⟩ := ih
    have hkb' : (m.updateN (k + 1)).keyboard_ = some kb := by
      simp only [LightingManager.updateN]
      rw [LightingManager.update_keyboard, ihkb]
    have hd' : (m.updateN (k + 1)).Disciplined :=
      LightingManager.disciplined_update _ ihd
    refine ⟨hkb', hd', ?_⟩
    have hfin : ((e.updateN kb.neighborsOf k).update kb.neighborsOf).isFinished
        = decide (e.framesLived_ + ((k + 1 : Nat) : Int) ≥ e.maxLifetime_) :=
      RippleEffect.updateN_isFinished kb.neighborsOf e (k + 1)
    by_cases hprev : k = 0 ∨ e.framesLived_ + (k : Int) < e.maxLifetime_
    · rw [if_pos hprev] at ihlive
      obtain ⟨hin, hde⟩ := ihlive
      obtain ⟨u1, u2⟩ := LightingManager.update_live (m.updateN k) kb ihkb ihd.1 slot _ hin hde
      by_cases hnext : e.framesLived_ + ((k + 1 : Nat) : Int) < e.maxLifetime_
      · have hnf : ((e.updateN kb.neighborsOf k).update kb.neighborsOf).isFinished = false := by
          rw [hfin]
          simp only [decide_eq_false_iff_not]
          omega
        rw [if_pos (Or.inr hnext)]
        exact ⟨u1.mpr hnf, u2 hnf⟩
      · have hf : ((e.updateN kb.neighborsOf k).update kb.neighborsOf).isFinished = true := by
          rw [hfin]
          simp only [decide_eq_true_eq]
          omega
        rw [if_neg (by
          intro h
          rcases h with h | h
          · omega
          · exact hnext h)]
        intro hin'
        have := u1.mp hin'
        rw [hf] at this
        exact Bool.noConfusion this
    · rw [if_neg hprev] at ihlive
      rw [if_neg (by
        intro h
        rcases h with h | h
        · omega
        · apply hprev
          right
          push_cast at h
          omega)]
      exact LightingManager.update_not_live _ ihd.1 slot ihlive

theorem LightingManager.count_frames (P : Nat → Bool) (L : Int)
    (hP : ∀ j, 1 ≤ j → (P j = true ↔ (j : Int) < L)) (n : Nat) :
    ((List.range' 1 n).filter P).length = min n (L - 1).toNat := by
  induction n with
  | zero => simp
  | succ n ih =>
    rw [List.range'_concat, List.filter_append, List.length_append, ih]
    have h := hP (1 + 1 * n) (by omega)
    by_cases hp : P (1 + 1 * n) = true
    · have hlt := h.mp hp
      simp only [List.filter_cons, hp, if_true, List.filter_nil, List.length_cons,
        List.length_nil]
      push_cast at hlt
      omega
    · have hge : ¬ ((1 + 1 * n : Nat) : Int) < L := fun hlt => hp (h.mpr hlt)
      have hp' : P (1 + 1 * n) = false := by simpa using hp
      simp only [List.filter_cons, hp', Bool.false_eq_true, if_false, List.filter_nil,
        List.length_nil]
      push_cast at hge
      omega

/-- C35, counterexample. On a manager constructed with a null keyboard
`update` returns at once: the ripple of max lifetime 0 is still in the list of
live effects after one call, with its elapsed counter at 0. -/
theorem LightingManager.visible_life_counterexample :
    Example.unattached = (LightingManager.new none).addRippleEffect 0 (Color.new 255 0 0) 1 1 0
      ∧ Example.unattached.activeEffects_ = [19]
      ∧ 19 ∈ (Example.unattached.updateN 1).activeEffects_
      ∧ ¬ (((1 : Nat) : Int) < 0)
      ∧ ((Example.unattached.updateN 1).effectPool_.deref 19).map RippleEffect.framesLived_
        = some 0 := by
  decide

/-- C35, amended. Visible life of an effect in the compositor: when
`addRippleEffect` succeeds for an effect with max lifetime `L`, on a manager
constructed with a keyboard, and is followed by `k ≥ 1` calls of `LightingManager::update`, the effect is
in the list of live effects after the `k`-th call if and only if `k < L`, and
then it has been ticked `k` times and its elapsed counter is `k`. So among the
first `n` frames it contributes to `min(n, max(0, L - 1))`, and with `L ≤ 1`
to none. -/
theorem LightingManager.visible_life (kb : Keyboard) (calls : List LightingManager.Call)
    (m : LightingManager) (hm : m = (LightingManager.new (some kb)).run calls)
    (startKey : Nat) (color : Color) (stepDuration propagationDelay maxLifetime : Int)
    (hfree : m.effectPool_.freeSlots_ ≠ []) :
    ∃ slot,
      (m.addRippleEffect startKey color stepDuration propagationDelay
          maxLifetime).activeEffects_ = m.activeEffects_ ++ [slot]
        ∧ (∀ k : Nat, 1 ≤ k →
            (slot ∈ ((m.addRippleEffect startKey color stepDuration propagationDelay
                maxLifetime).updateN k).activeEffects_ ↔ (k : Int) < maxLifetime))
        ∧ (∀ k : Nat, 1 ≤ k → (k : Int) < maxLifetime →
            ((m.addRippleEffect startKey color stepDuration propagationDelay
                maxLifetime).updateN k).effectPool_.deref slot
              = some ((RippleEffect.new startKey color stepDuration propagationDelay
                  maxLifetime).updateN kb.neighborsOf k)
            ∧ ((RippleEffect.new startKey color stepDuration propagationDelay
                  maxLifetime).updateN kb.neighborsOf k).framesLived_ = k)
        ∧ (∀ n, ((List.range' 1 n).filter (fun k =>
              decide (slot ∈ ((m.addRippleEffect startKey color stepDuration propagationDelay
                maxLifetime).updateN k).activeEffects_))).length
            = min n (maxLifetime - 1).toNat)
        ∧ (maxLifetime ≤ 1 → ∀ k : Nat, 1 ≤ k →
            slot ∉ ((m.addRippleEffect startKey color stepDuration propagationDelay
                maxLifetime).updateN k).activeEffects_) := by
  have hd : m.Disciplined := by
    rw [hm]
    exact LightingManager.run_induction LightingManager.Disciplined
      LightingManager.disciplined_call (LightingManager.new (some kb)) calls
      (LightingManager.disciplined_new (some kb))
  have hkb : m.keyboard_ = some kb := by
    rw [hm]
    exact (LightingManager.run_induction
      (fun m => m.keyboard_ = some kb ∧ m.frameBuffer_.length = kb.getKeys.length)
      (LightingManager.call_frameBuffer kb) (LightingManager.new (some kb)) calls
      ⟨rfl, by simp [LightingManager.new]⟩).1
  have hd1 := LightingManager.disciplined_addRippleEffect m startKey color stepDuration
    propagationDelay maxLifetime hd
  obtain ⟨_, _, _, _, h5, h6⟩ := hd
  obtain ⟨slot, hslot, hfs, hderef, _⟩ := EffectPool.create_of_ne_nil m.effectPool_ startKey
    color stepDuration propagationDelay maxLifetime hfree
  have hadd : m.addRippleEffect startKey color stepDuration propagationDelay maxLifetime
      = { m with
          effectPool_ := (m.effectPool_.create startKey color stepDuration propagationDelay
            maxLifetime).2
          activeEffects_ := m.activeEffects_ ++ [slot] } := by
    unfold LightingManager.addRippleEffect
    simp only [hslot]
  have hslotfree : slot ∈ m.effectPool_.freeSlots_ := by
    rw [hfs]; simp
  have hlt : slot < m.effectPool_.memoryPool_.length := by
    rw [h6]; exact (h5 slot hslotfree).2
  have hin1 : slot ∈ (m.addRippleEffect startKey color stepDuration propagationDelay
      maxLifetime).activeEffects_ := by
    rw [hadd]; simp
  have hde1 : (m.addRippleEffect startKey color stepDuration propagationDelay
      maxLifetime).effectPool_.deref slot
        = some (RippleEffect.new startKey color stepDuration propagationDelay maxLifetime) := by
    rw [hadd]
    simp only
    rw [hderef, if_pos hlt]
  have hkb1 : (m.addRippleEffect startKey color stepDuration propagationDelay
      maxLifetime).keyboard_ = some kb := by
    rw [hadd]; exact hkb
  have hlive := LightingManager.updateN_live _ kb hkb1 hd1 slot _ hin1 hde1
  have hfl : (RippleEffect.new startKey color stepDuration propagationDelay
      maxLifetime).framesLived_ = 0 := rfl
  have hml : (RippleEffect.new startKey color stepDuration propagationDelay
      maxLifetime).maxLifetime_ = maxLifetime := rfl
  have hiff : ∀ k : Nat, 1 ≤ k →
      (slot ∈ ((m.addRippleEffect startKey color stepDuration propagationDelay
          maxLifetime).updateN k).activeEffects_ ↔ (k : Int) < maxLifetime) := by
    intro k hk
    have h := (hlive k).2.2
    rw [hfl, hml] at h
    by_cases hc : (k : Int) < maxLifetime
    · rw [if_pos (Or.inr (by omega))] at h
      exact ⟨fun _ => hc, fun _ => h.1⟩
    · rw [if_neg (by
        intro h'
        rcases h' with h' | h'
        · omega
        · omega)] at h
      exact ⟨fun hin => absurd hin h, fun hlt' => absurd hlt' hc⟩
  refine ⟨slot, by rw [hadd], hiff, ?_, ?_, ?_⟩
  · intro k hk hc
    have h := (hlive k).2.2
    rw [hfl, hml, if_pos (Or.inr (by omega))] at h
    refine ⟨h.2, ?_⟩
    rw [(RippleEffect.updateN_fields kb.neighborsOf _ k).2.2.2.2, hfl]
    omega
  · intro n
    apply LightingManager.count_frames
    intro j hj
    rw [decide_eq_true_iff]
    exact hiff j hj
  · intro hL k hk hin
    have := (hiff k hk).mp hin
    omega

/-- Witness for C35: a third ripple of max lifetime 3 requested on the manager
with two ripples: it is live after 2 updates and retired by the third. -/
theorem LightingManager.visible_life_witness :
    ∃ slot, (slot ∈ ((Example.twoRipples.addRippleEffect 2 (Color.new 0 0 255) 3 1
          3).updateN 2).activeEffects_ ↔ ((2 : Nat) : Int) < 3)
      ∧ (slot ∈ ((Example.twoRipples.addRippleEffect 2 (Color.new 0 0 255) 3 1
          3).updateN 3).activeEffects_ ↔ ((3 : Nat) : Int) < 3) := by
  obtain ⟨slot, _, h, _⟩ := LightingManager.visible_life Example.rowKeyboard
    [LightingManager.Call.addRippleEffect 0 (Color.new 100 0 0) 2 1 5,
      LightingManager.Call.addRippleEffect 1 (Color.new 200 10 0) 2 1 3]
    Example.twoRipples (by decide) 2 (Color.new 0 0 255) 3 1 3 (by decide)
  exact ⟨slot, h 2 (by decide), h 3 (by decide)⟩

/-! ## The zone downmix of `LogitechLed::render` -/

theorem LogitechLed.mem_of_lookup (id z : Nat) (table : List (Nat × Nat))
    (h : List.lookup id table = some z) : (id, z) ∈ table := by
  induction table with
  | nil => simp [List.lookup] at h
  | cons entry rest ih =>
    obtain ⟨a, b⟩ := entry
    by_cases hab : id = a
    · subst hab
      simp [List.lookup] at h
      simp [h]
    · have hne : (id == a) = false := by simpa using hab
      simp only [List.lookup, hne] at h
      exact List.mem_cons_of_mem _ (ih h)

/-- Every zone of the table is one of the zones 1 to 5. -/
theorem LogitechLed.zone_range (id z : Nat)
    (h : List.lookup id LogitechLed.g213_key_to_zone_map = some z) : 1 ≤ z ∧ z ≤ 5 := by
  have hall : ∀ p ∈ LogitechLed.g213_key_to_zone_map, 1 ≤ p.2 ∧ p.2 ≤ 5 := by decide
  exact hall (id, z) (LogitechLed.mem_of_lookup id z _ h)

theorem LogitechLed.visitKey_eq (all_keys : List Key) (frameBuffer zones : List Color)
    (i : Nat) :
    LogitechLed.visitKey all_keys frameBuffer zones i
      = match LogitechLed.zoneOfKey all_keys i with
        | none => zones
        | some zone =>
          if (frameBuffer.getD i (Color.new 0 0 0)).brightness
              > (zones.getD (zone - 1) (Color.new 0 0 0)).brightness then
            zones.set (zone - 1) (frameBuffer.getD i (Color.new 0 0 0))
          else zones := by
  unfold LogitechLed.visitKey LogitechLed.zoneOfKey
  cases all_keys.get? i with
  | none => rfl
  | some key => simp only

theorem Color.brightness_nonneg (c : Color) : 0 ≤ c.brightness := by
  have h1 := c.red_range
  have h2 := c.green_range
  have h3 := c.blue_range
  unfold Color.brightness
  omega

/-- The invariant of the loop of step B after the keys of index below `n`:
the colour kept for a zone is black while no key of the zone had a positive
brightness, and otherwise it is the colour of the first key of the zone that
has the largest brightness so far. -/
theorem LogitechLed.visit_invariant (all_keys : List Key) (frameBuffer : List Color) (n : Nat) :
    ((List.range n).foldl (LogitechLed.visitKey all_keys frameBuffer)
        (List.replicate LogitechLed.NUM_ZONES (Color.new 0 0 0))).length = 5
      ∧ ∀ z, 1 ≤ z → z ≤ 5 →
        (((List.range n).foldl (LogitechLed.visitKey all_keys frameBuffer)
              (List.replicate LogitechLed.NUM_ZONES (Color.new 0 0 0))).getD (z - 1)
              (Color.new 0 0 0) = Color.new 0 0 0
            ∧ ∀ j, j < n → LogitechLed.zoneOfKey all_keys j = some z →
              (frameBuffer.getD j (Color.new 0 0 0)).brightness ≤ 0)
          ∨ ∃ i, i < n ∧ LogitechLed.zoneOfKey all_keys i = some z
            ∧ ((List.range n).foldl (LogitechLed.visitKey all_keys frameBuffer)
                (List.replicate LogitechLed.NUM_ZONES (Color.new 0 0 0))).getD (z - 1)
                (Color.new 0 0 0) = frameBuffer.getD i (Color.new 0 0 0)
            ∧ 0 < (frameBuffer.getD i (Color.new 0 0 0)).brightness
            ∧ (∀ j, j < n → LogitechLed.zoneOfKey all_keys j = some z →
                (frameBuffer.getD j (Color.new 0 0 0)).brightness
                  ≤ (frameBuffer.getD i (Color.new 0 0 0)).brightness)
            ∧ ∀ j, j < i → LogitechLed.zoneOfKey all_keys j = some z →
                (frameBuffer.getD j (Color.new 0 0 0)).brightness
                  < (frameBuffer.getD i (Color.new 0 0 0)).brightness := by
  induction n with
  | zero =>
    refine ⟨by simp [LogitechLed.NUM_ZONES], ?_⟩
    intro z hz1 hz5
    left
    refine ⟨?_, fun j hj => absurd hj (Nat.not_lt_zero j)⟩
    simp only [List.range_zero, List.foldl_nil, LogitechLed.NUM_ZONES]
    have hlt : z - 1 < 5 := by omega
    rw [List.getD_eq_getElem?_getD, List.getElem?_replicate, if_pos hlt]
    rfl
  | succ n ih =>
    rw [List.range_succ, List.foldl_append, List.foldl_cons, List.foldl_nil]
    generalize (List.range n).foldl (LogitechLed.visitKey all_keys frameBuffer)
      (List.replicate LogitechLed.NUM_ZONES (Color.new 0 0 0)) = zones at ih ⊢
    obtain ⟨hlen, hinv⟩ := ih
    rw [LogitechLed.visitKey_eq]
    cases hzone : LogitechLed.zoneOfKey all_keys n with
    | none =>
      simp only
      refine ⟨hlen, ?_⟩
      intro z hz1 hz5
      rcases hinv z hz1 hz5 with ⟨hblack, hall⟩ | ⟨i, hi, hzi, hch, hpos, hmax, hfirst⟩
      · left
        refine ⟨hblack, ?_⟩
        intro j hj hzj
        by_cases hjn : j = n
        · rw [hjn, hzone] at hzj
          exact Option.noConfusion hzj
        · exact hall j (by omega) hzj
      · right
        refine ⟨i, by omega, hzi, hch, hpos, ?_, hfirst⟩
        intro j hj hzj
        by_cases hjn : j = n
        · rw [hjn, hzone] at hzj
          exact Option.noConfusion hzj
        · exact hmax j (by omega) hzj
    | some z0 =>
      simp only
      have hz0 : 1 ≤ z0 ∧ z0 ≤ 5 := by
        unfold LogitechLed.zoneOfKey at hzone
        cases hkey : all_keys.get? n with
        | none =>
          rw [hkey] at hzone
          exact Option.noConfusion hzone
        | some key =>
          rw [hkey] at hzone
          exact LogitechLed.zone_range key.getId z0 hzone
      have hlt0 : z0 - 1 < zones.length := by omega
      by_cases hgt : (frameBuffer.getD n (Color.new 0 0 0)).brightness
          > (zones.getD (z0 - 1) (Color.new 0 0 0)).brightness
      · rw [if_pos hgt]
        refine ⟨by rw [List.length_set]; exact hlen, ?_⟩
        intro z hz1 hz5
        by_cases hzz : z = z0
        · subst hzz
          right
          have hget : (zones.set (z - 1) (frameBuffer.getD n (Color.new 0 0 0))).getD (z - 1)
              (Color.new 0 0 0) = frameBuffer.getD n (Color.new 0 0 0) := by
            simp [List.getD_eq_getElem?_getD, List.getElem?_set, hlt0]
          have hnn := Color.brightness_nonneg (zones.getD (z - 1) (Color.new 0 0 0))
          refine ⟨n, by omega, hzone, hget, by omega, ?_, ?_⟩
          · intro j hj hzj
            by_cases hjn : j = n
            · rw [hjn]
            · rcases hinv z hz1 hz5 with ⟨hblack, hall⟩ | ⟨i, hi, hzi, hch, hpos, hmax, hfirst⟩
              · have := hall j (by omega) hzj
                omega
              · have := hmax j (by omega) hzj
                rw [hch] at hgt
                omega
          · intro j hj hzj
            rcases hinv z hz1 hz5 with ⟨hblack, hall⟩ | ⟨i, hi, hzi, hch, hpos, hmax, hfirst⟩
            · have := hall j hj hzj
              omega
            · have := hmax j hj hzj
              rw [hch] at hgt
              omega
        · have hne : z0 - 1 ≠ z - 1 := by omega
          have hget : (zones.set (z0 - 1) (frameBuffer.getD n (Color.new 0 0 0))).getD (z - 1)
              (Color.new 0 0 0) = zones.getD (z - 1) (Color.new 0 0 0) := by
            simp [List.getD_eq_getElem?_getD, List.getElem?_set, hne]
          rw [hget]
          have hnot : LogitechLed.zoneOfKey all_keys n ≠ some z := by
            rw [hzone]
            intro h
            exact hzz (Option.some.inj h).symm
          rcases hinv z hz1 hz5 with ⟨hblack, hall⟩ | ⟨i, hi, hzi, hch, hpos, hmax, hfirst⟩
          · left
            refine ⟨hblack, ?_⟩
            intro j hj hzj
            by_cases hjn : j = n
            · rw [hjn] at hzj
              exact absurd hzj hnot
            · exact hall j (by omega) hzj
          · right
            refine ⟨i, by omega, hzi, hch, hpos, ?_, hfirst⟩
            intro j hj hzj
            by_cases hjn : j = n
            · rw [hjn] at hzj
              exact absurd hzj hnot
            · exact hmax j (by omega) hzj
      · rw [if_neg hgt]
        refine ⟨hlen, ?_⟩
        intro z hz1 hz5
        rcases hinv z hz1 hz5 with ⟨hblack, hall⟩ | ⟨i, hi, hzi, hch, hpos, hmax, hfirst⟩
        · left
          refine ⟨hblack, ?_⟩
          intro j hj hzj
          by_cases hjn : j = n
          · rw [hjn] at hzj ⊢
            rw [hzone] at hzj
            have hzz := Option.some.inj hzj
            rw [hzz, hblack] at hgt
            have hb0 : (Color.new 0 0 0).brightness = 0 := rfl
            rw [hb0] at hgt
            omega
          · exact hall j (by omega) hzj
        · right
          refine ⟨i, by omega, hzi, hch, hpos, ?_, hfirst⟩
          intro j hj hzj
          by_cases hjn : j = n
          · rw [hjn] at hzj ⊢
            rw [hzone] at hzj
            have hzz := Option.some.inj hzj
            rw [hzz, hch] at hgt
            omega
          · exact hmax j (by omega) hzj

theorem LogitechLed.convert_eq (v : Int) : LogitechLed.convert_255_to_100 v = v * 100 / 256 := by
  have h6 : v <<< (6 : Int) = v * 64 := by
    have h := Int.shiftLeft_eq_mul_pow v 6
    simpa using h
  have h5 : v <<< (5 : Int) = v * 32 := by
    have h := Int.shiftLeft_eq_mul_pow v 5
    simpa using h
  have h2 : v <<< (2 : Int) = v * 4 := by
    have h := Int.shiftLeft_eq_mul_pow v 2
    simpa using h
  unfold LogitechLed.convert_255_to_100
  rw [h6, h5, h2, Int.shiftRight_eq_div_pow]
  norm_num
  congr 1
  ring

/-- C40. Zone downmix in `LogitechLed::render`: for every keyboard, frame
buffer with one entry per key and zone `z` in `1 .. 5`, the call for zone `z`
sends the converted channels of a colour `chosen`; `chosen` is black when
every key mapped to `z` has channel sum 0, and otherwise it is the colour of
the first key in keyboard order, among the keys mapped to `z`, whose channel
sum is the maximum over the keys mapped to `z`. A channel `v` is sent as
`((v << 6) + (v << 5) + (v << 2)) >> 8`, which is `floor(v * 100 / 256)` and
lies in `[0, 99]` for `v` in `[0, 255]`. -/
theorem LogitechLed.render_brightest (kb : Keyboard) (frameBuffer : List Color) (z : Nat)
    (hz1 : 1 ≤ z) (hz5 : z ≤ 5) (hlen : frameBuffer.length = kb.getKeys.length) :
    ∃ chosen : Color,
      (LogitechLed.render (some kb) frameBuffer).length = 5
        ∧ (LogitechLed.render (some kb) frameBuffer)[z - 1]?
          = some (z, LogitechLed.convert_255_to_100 chosen.red_,
              LogitechLed.convert_255_to_100 chosen.green_,
              LogitechLed.convert_255_to_100 chosen.blue_)
        ∧ ((∀ j c, LogitechLed.zoneOfKey kb.getKeys j = some z → frameBuffer[j]? = some c →
              c.brightness = 0) → chosen = Color.new 0 0 0)
        ∧ (¬ (∀ j c, LogitechLed.zoneOfKey kb.getKeys j = some z → frameBuffer[j]? = some c →
              c.brightness = 0) →
            ∃ i, LogitechLed.zoneOfKey kb.getKeys i = some z ∧ frameBuffer[i]? = some chosen
              ∧ (∀ j c, LogitechLed.zoneOfKey kb.getKeys j = some z →
                  frameBuffer[j]? = some c → c.brightness ≤ chosen.brightness)
              ∧ ∀ j c, j < i → LogitechLed.zoneOfKey kb.getKeys j = some z →
                  frameBuffer[j]? = some c → c.brightness < chosen.brightness)
        ∧ (∀ v : Int, LogitechLed.convert_255_to_100 v = v * 100 / 256)
        ∧ ∀ v : Int, 0 ≤ v → v ≤ 255 →
            0 ≤ LogitechLed.convert_255_to_100 v ∧ LogitechLed.convert_255_to_100 v ≤ 99 := by
  have hzlt : z - 1 < 5 := by omega
  have hzz : z - 1 + 1 = z := by omega
  have hmapped : ∀ j, LogitechLed.zoneOfKey kb.getKeys j = some z → j < kb.getKeys.length := by
    intro j hj
    unfold LogitechLed.zoneOfKey at hj
    cases hkey : kb.getKeys.get? j with
    | none =>
      rw [hkey] at hj
      exact Option.noConfusion hj
    | some key =>
      by_contra hge
      have : kb.getKeys.get? j = none := by
        rw [List.get?_eq_getElem?]
        exact List.getElem?_eq_none (by omega)
      rw [this] at hkey
      exact Option.noConfusion hkey
  have hentry : ∀ j, LogitechLed.zoneOfKey kb.getKeys j = some z →
      frameBuffer[j]? = some (frameBuffer.getD j (Color.new 0 0 0)) := by
    intro j hj
    have hjl : j < frameBuffer.length := by
      rw [hlen]
      exact hmapped j hj
    simp [List.getD_eq_getElem?_getD, List.getElem?_eq_getElem hjl]
  obtain ⟨_, hinv⟩ := LogitechLed.visit_invariant kb.getKeys frameBuffer kb.getKeys.length
  refine ⟨(LogitechLed.brightestZoneColors kb.getKeys frameBuffer).getD (z - 1)
    (Color.new 0 0 0), ?_, ?_, ?_, ?_, LogitechLed.convert_eq, ?_⟩
  · simp [LogitechLed.render, LogitechLed.NUM_ZONES]
  · simp only [LogitechLed.render, LogitechLed.NUM_ZONES, List.getElem?_map]
    rw [List.getElem?_range hzlt]
    simp only [Option.map_some', hzz]
  · intro hall
    rcases hinv z hz1 hz5 with ⟨hblack, _⟩ | ⟨i, hi, hzi, hch, hpos, _, _⟩
    · exact hblack
    · have := hall i _ hzi (hentry i hzi)
      omega
  · intro hnot
    rcases hinv z hz1 hz5 with ⟨hblack, hall⟩ | ⟨i, hi, hzi, hch, hpos, hmax, hfirst⟩
    · exfalso
      apply hnot
      intro j c hzj hc
      rw [hentry j hzj] at hc
      have h1 := hall j (hmapped j hzj) hzj
      have h2 := Color.brightness_nonneg (frameBuffer.getD j (Color.new 0 0 0))
      rw [← Option.some.inj hc]
      omega
    · refine ⟨i, hzi, ?_, ?_, ?_⟩
      · rw [hentry i hzi]
        unfold LogitechLed.brightestZoneColors
        rw [hch]
      · intro j c hzj hc
        rw [hentry j hzj] at hc
        rw [← Option.some.inj hc]
        unfold LogitechLed.brightestZoneColors
        rw [hch]
        exact hmax j (hmapped j hzj) hzj
      · intro j c hji hzj hc
        rw [hentry j hzj] at hc
        rw [← Option.some.inj hc]
        unfold LogitechLed.brightestZoneColors
        rw [hch]
        exact hfirst j hji hzj
  · intro v h0 h255
    rw [LogitechLed.convert_eq]
    omega

/-- Witness for C40: zone 1 of the keyboard of four keys; the brighter of the
two keys of the zone is the first, `(10, 20, 30)`. -/
theorem LogitechLed.render_brightest_witness :
    ∃ chosen : Color,
      (LogitechLed.render (some Example.zoneKeyboard) Example.zoneFrame)[1 - 1]?
          = some (1, LogitechLed.convert_255_to_100 chosen.red_,
              LogitechLed.convert_255_to_100 chosen.green_,
              LogitechLed.convert_255_to_100 chosen.blue_)
        ∧ ((∀ j c, LogitechLed.zoneOfKey Example.zoneKeyboard.getKeys j = some 1 →
              Example.zoneFrame[j]? = some c → c.brightness = 0) →
            chosen = Color.new 0 0 0) := by
  obtain ⟨chosen, _, h1, h2, _⟩ := LogitechLed.render_brightest Example.zoneKeyboard
    Example.zoneFrame 1 (by decide) (by decide) (by decide)
  exact ⟨chosen, h1, h2⟩

end RippleFX
